import Mathlib

/-! The JIT coordinator of `general/jit/jit.cpp`

A shallow embedding of `mfem::jit::System` (the command builder, the status/handshake
primitives, `Call`, the toolchain option tables, `Lookup` with its two local closures
`RootCompile` and `WorldCompile`, `Init` and `Finalize`) and of the helpers in
`mfem::jit::mpi`.

Modelling conventions.

* The code runs in one process of a job.  Everything outside that process is explicit:
  the operating system (`OS`: file streams, `dlopen`/`dlsym`, `std::remove`, `std::system`),
  the MPI library (the statuses contributed by the other ranks to each reduction, and what
  the other ranks did to the shared file system by the time the reduction returns), and the
  scheduler that interleaves the forked child with its parent.
* `MFEM_VERIFY`/`MFEM_ABORT` end the run: outcome `fatal`.
* The polling loops `Ack<OP>` take fuel.  Outcome `spin` means that the fuel of a polling
  loop ran out; a run that is `spin` for every amount of fuel is a run that hangs.
* The parent and the forked child share the status word and the command buffer.  Every
  access of the parent to that memory is preceded by `Env.sched clock` atomic steps of the
  child, so every interleaving of the steps of the child with the accesses of the parent is
  the run of some schedule.  Between two calls of `Call` that returned, the child stands at
  the head of its loop with the status `ACK` and has no step to take.
* `dlopen` is a function of the file-system state and the path; a handle stands for the image
  it was obtained from.
* A `trace` records, in order, what the process and its child did to the outside world.
* `Init` and `Finalize` run on a `Proc`: the `World`, the field `pid`, and whether the two
  pointers `s_ack` and `s_mem` point to a mapping.  The answers of `sysconf`, `mmap`, `fork`
  and `munmap` are given by `Sys`; `waitpid` lets the child run until it has terminated, with
  fuel.  An access to the status word through a pointer that is not a mapping ends the run.
-/

namespace mfem
namespace jit

/-! ## Constants -/

/-- `EXIT_SUCCESS` of `<cstdlib>`. -/
def EXIT_SUCCESS : Int := 0

/-- `EXIT_FAILURE` of `<cstdlib>`. -/
def EXIT_FAILURE : Int := 1

/-- Conversion of an integer literal to a 32-bit `int` (two's complement wrap-around). -/
def toInt32 (n : Int) : Int := (n + 2 ^ 31) % 2 ^ 32 - 2 ^ 31

/-- `System::ACK = ~0`. -/
def ACK : Int := toInt32 (-1)

/-- `System::CALL = 0x3243F6A8`. -/
def CALL : Int := toInt32 0x3243F6A8

/-- `System::EXIT = 0x9e3779b9`, stored in an `int`. -/
def EXIT : Int := toInt32 0x9e3779b9

/-- `std::strlen`: the number of bytes before the terminator. -/
def strlen (s : String) : Nat := s.utf8ByteSize

/-! ## The outside world -/

/-- Compile-time configuration: the preprocessor switches and the configuration macros of
`config.hpp` that `jit.cpp` uses. -/
structure Config where
  MFEM_USE_MPI : Bool
  MFEM_USE_CUDA : Bool
  MFEM_USE_HIP : Bool
  APPLE : Bool
  MFEM_JIT_CXX : String
  MFEM_JIT_BUILD_FLAGS : String
  MFEM_SOURCE_DIR : String
  MFEM_INSTALL_DIR : String

/-- The operating-system services called by `jit.cpp`, over an abstract file-system state. -/
structure OS (FS : Type) where
  /-- `std::fstream(path)` converted to `bool`: the file could be opened. -/
  fstream : FS → String → Bool
  /-- `std::ofstream f(path); f << text; f.close()`; `none` when the stream is not `good()`. -/
  ofstream : FS → String → String → Option FS
  /-- `std::remove(path)`. -/
  remove : FS → String → FS
  /-- `::dlopen(path, RTLD_LAZY|RTLD_LOCAL)`; `none` is the null handle. -/
  dlopen : FS → String → Option Nat
  /-- `::dlsym(handle, symbol)`; `none` is the null pointer. -/
  dlsym : Nat → String → Option Nat
  /-- `std::system(command)`: its return value and the file system it leaves. -/
  system : FS → String → Int × FS
  /-- `std::getenv(name)` is not null. -/
  getenv : String → Bool

/-- What a process did to the outside world. -/
inductive Event where
  /-- `MFEM_WARNING` in `Call`: the command handed to `Call`. -/
  | warning (command : String)
  /-- A run of `std::system`, by the forked child (`byChild`) or by the process itself. -/
  | system (byChild : Bool) (command : String) (status : Int)
  /-- The source file written by `RootCompile`. -/
  | ofstream (path : String) (text : String)
  /-- `std::remove`. -/
  | remove (path : String)
  /-- `DLopen`. -/
  | dlopen (path : String)
  /-- `MPI_Allreduce` in `mpi::Sync`: the status this process contributes. -/
  | allreduce (status : Int)
  deriving DecidableEq, Repr

/-- Where the forked child stands in the `else` branch of `System::Init`. -/
inductive ChildPc where
  /-- No child yet (before `fork`). -/
  | unborn
  /-- `MFEM_VERIFY(IsAck(), ...)`. -/
  | verifyAck
  /-- `Wait()` for the rank of the parent. -/
  | waitRank
  /-- `const int rank = Read()`. -/
  | readRank
  /-- `Acknowledge(); if (rank == 0)`. -/
  | acknowledgeRank (rank : Int)
  /-- `Wait()` at the head of the `while (true)` loop. -/
  | wait
  /-- `if (IsCall())`. -/
  | isCall
  /-- `if (std::system(Mem())) break;`. -/
  | system
  /-- `if (IsExit()) { break; }`. -/
  | isExit
  /-- `Acknowledge()` at the end of the loop body. -/
  | acknowledge
  /-- After `std::exit(code)`. -/
  | exited (code : Int)
  /-- After a failed `MFEM_VERIFY`. -/
  | aborted
  deriving DecidableEq, Repr

/-- The state seen by one process: the file system, the `System` singleton with the two
shared regions it points to, its forked child, and the MPI library. -/
@[ext]
structure World (FS : Type) where
  fs : FS
  /-- The shared status word `*s_ack`. -/
  ack : Int
  /-- The C string in the shared buffer `s_mem`. -/
  mem : String
  /-- The field `size` of the singleton. -/
  size : Nat
  /-- The text accumulated in the `Command` builder of the singleton. -/
  command : String
  child : ChildPc
  /-- `Mpi::IsInitialized()`. -/
  mpiInitialized : Bool
  /-- Number of accesses of the process to the shared regions so far. -/
  clock : Nat
  /-- Number of reductions `MPI_Allreduce` done so far. -/
  syncs : Nat
  trace : List Event

/-- The run-time environment of one process. -/
structure Env (FS : Type) where
  cfg : Config
  os : OS FS
  /-- `Jit::ToString(hash, extension)` of `jit.hpp`: the hash-named file name. -/
  ToString : Nat → String → String
  /-- `Mpi::WorldRank()`. -/
  worldRank : Nat
  /-- Statuses contributed by the other ranks to the `n`-th reduction. -/
  peers : Nat → List Int
  /-- What the other ranks did to the file system by the end of the `n`-th reduction. -/
  interfere : Nat → FS → FS
  /-- Atomic steps taken by the child before the `n`-th access of the process to the
  shared regions. -/
  sched : Nat → Nat
  /-- Bound on the iterations of one polling loop. -/
  fuel : Nat

/-- Outcome of a piece of code: normal return, fatal error, or a polling loop out of fuel;
each with the state reached. -/
inductive Out (σ : Type) (α : Type) where
  | ret (a : α) (w : σ)
  | fatal (msg : String) (w : σ)
  | spin (w : σ)

/-- Sequencing: the continuation runs after a normal return only. -/
def Out.bind {σ α β : Type} (o : Out σ α) (f : α → σ → Out σ β) : Out σ β :=
  match o with
  | .ret a w => f a w
  | .fatal msg w => .fatal msg w
  | .spin w => .spin w

/-- The state in which an outcome was reached. -/
def Out.world {σ α : Type} : Out σ α → σ
  | .ret _ w => w
  | .fatal _ w => w
  | .spin w => w

/-- The outcome is a normal return. -/
def Out.isRet {σ α : Type} : Out σ α → Bool
  | .ret _ _ => true
  | _ => false

/-- The outcome is a fatal error. -/
def Out.isFatal {σ α : Type} : Out σ α → Bool
  | .fatal _ _ => true
  | _ => false

/-- The outcome is a polling loop out of fuel. -/
def Out.isSpin {σ α : Type} : Out σ α → Bool
  | .spin _ => true
  | _ => false

section Model

variable {FS : Type}

/-! ## namespace mpi -/

/-- `mpi::IsInitialized()`. -/
def mpi.IsInitialized (env : Env FS) (w : World FS) : Bool :=
  if env.cfg.MFEM_USE_MPI then w.mpiInitialized else false

/-- `mpi::Rank()`. -/
def mpi.Rank (env : Env FS) (w : World FS) : Nat :=
  if env.cfg.MFEM_USE_MPI && w.mpiInitialized then env.worldRank else 0

/-- `mpi::Root()`. -/
def mpi.Root (env : Env FS) (w : World FS) : Bool := mpi.Rank env w == 0

/-- The operation `MPI_LOR` on two `int`s. -/
def MPI_LOR (a b : Int) : Int := if a != 0 || b != 0 then 1 else 0

/-- Result of `MPI_Allreduce(MPI_IN_PLACE, &status, 1, MPI_INT, MPI_LOR, MPI_COMM_WORLD)` on a
rank that contributes `status` while the other ranks contribute `peers`. -/
def MPI_Allreduce_LOR (status : Int) (peers : List Int) : Int := peers.foldl MPI_LOR status

/-- `mpi::Sync(status)`. -/
def mpi.Sync (env : Env FS) (status : Int) (w : World FS) : Out (World FS) Unit :=
  let r : Int × World FS :=
    if env.cfg.MFEM_USE_MPI && w.mpiInitialized then
      (MPI_Allreduce_LOR status (env.peers w.syncs),
       { w with fs := env.interfere w.syncs w.fs, syncs := w.syncs + 1,
                trace := w.trace ++ [Event.allreduce status] })
    else (status, w)
  if r.1 == EXIT_SUCCESS then .ret () r.2 else .fatal "[JIT] Synchronization error!" r.2

/-! ## struct System: the forked child -/

/-- One atomic step of the forked child (the `else` branch of `System::Init`). -/
def childStep (os : OS FS) (w : World FS) : World FS :=
  match w.child with
  | .unborn => w
  | .verifyAck => if w.ack == ACK then { w with child := .waitRank } else { w with child := .aborted }
  | .waitRank => if w.ack == ACK then w else { w with child := .readRank }
  | .readRank => { w with child := .acknowledgeRank w.ack }
  | .acknowledgeRank rank =>
      { w with ack := ACK, child := if rank == 0 then .wait else .exited EXIT_SUCCESS }
  | .wait => if w.ack == ACK then w else { w with child := .isCall }
  | .isCall => if w.ack == CALL then { w with child := .system } else { w with child := .isExit }
  | .system =>
      let r := os.system w.fs w.mem
      { w with fs := r.2, trace := w.trace ++ [Event.system true w.mem r.1],
               child := if r.1 != 0 then .exited EXIT_SUCCESS else .isExit }
  | .isExit => if w.ack == EXIT then { w with child := .exited EXIT_SUCCESS }
               else { w with child := .acknowledge }
  | .acknowledge => { w with ack := ACK, child := .wait }
  | .exited _ => w
  | .aborted => w

/-- The child takes `n` atomic steps. -/
def childRun (os : OS FS) : Nat → World FS → World FS
  | 0, w => w
  | n + 1, w => childRun os n (childStep os w)

/-- The state with its access counter set to `c`. -/
def World.setClock (w : World FS) (c : Nat) : World FS := { w with clock := c }

/-- The point just before an access of the process to the shared regions: the child has taken
the steps the schedule gives it. -/
def tick (env : Env FS) (w : World FS) : World FS :=
  (childRun env.os (env.sched w.clock) w).setClock (w.clock + 1)

/-! ## struct System: status word and command -/

/-- `Command::operator<<`: the token, then a space. -/
def Command.push (tok : String) (w : World FS) : World FS :=
  { w with command := w.command ++ tok ++ " " }

/-- `System::Read()`. -/
def Read (env : Env FS) (w : World FS) : Int × World FS :=
  ((tick env w).ack, tick env w)

/-- `System::Write(xx)`. -/
def Write (env : Env FS) (xx : Int) (w : World FS) : World FS :=
  { tick env w with ack := xx }

/-- `System::Ack<OP>(xx)`: `while (OP()(*Ack(), xx)) sleep_for(200ms)`, with fuel. -/
def AckLoop (env : Env FS) (op : Int → Int → Bool) (xx : Int) : Nat → World FS → Out (World FS) Unit
  | 0, w => .spin w
  | n + 1, w => if op (tick env w).ack xx then AckLoop env op xx n (tick env w)
                else .ret () (tick env w)

/-- `System::AckEQ(xx)`. -/
def AckEQ (env : Env FS) (xx : Int) (w : World FS) : Out (World FS) Unit :=
  AckLoop env (fun a b => a == b) xx env.fuel w

/-- `System::AckNE(xx)`. -/
def AckNE (env : Env FS) (xx : Int) (w : World FS) : Out (World FS) Unit :=
  AckLoop env (fun a b => a != b) xx env.fuel w

/-- `System::Acknowledge()`. -/
def Acknowledge (env : Env FS) (w : World FS) : World FS := Write env ACK w

/-- `System::Send(xx)`: `AckNE(*Ack() = xx)`.  The argument of `AckNE` is the assignment
expression, an lvalue: after the store the status word is read back, and the loop polls for
the value that was read. -/
def Send (env : Env FS) (xx : Int) (w : World FS) : Out (World FS) Unit :=
  AckNE env (Read env (Write env xx w)).1 (Read env (Write env xx w)).2

/-- `System::Wait(EQ)`. -/
def Wait (env : Env FS) (EQ : Bool) (w : World FS) : Out (World FS) Unit :=
  if EQ then AckEQ env ACK w else AckNE env ACK w

/-- `std::memcpy(Mem(), command, std::strlen(command) + 1)`. -/
def Memcpy (env : Env FS) (command : String) (w : World FS) : World FS :=
  { tick env w with mem := command }

/-- `System::Call(command)` with an explicit command. -/
def Call (env : Env FS) (command : String) (w : World FS) : Out (World FS) Int :=
  if !mpi.Root env w then .fatal "[JIT] Only MPI root should launch commands!" w
  else
    let w1 : World FS := { w with trace := w.trace ++ [Event.warning command] }
    if !mpi.IsInitialized env w1 then
      .ret (env.os.system w1.fs command).1
        { w1 with fs := (env.os.system w1.fs command).2,
                  trace := w1.trace ++ [Event.system false command (env.os.system w1.fs command).1] }
    else if !decide (1 + strlen command < w1.size) then .fatal "[JIT] Command length error!" w1
    else
      (Send env CALL (Memcpy env command w1)).bind fun _ w2 =>
      (Wait env false w2).bind fun _ w3 => .ret EXIT_SUCCESS w3

/-- `System::Call()` with its default argument: the text of the `Command` builder, which the
conversion to `const char *` empties. -/
def CallCommand (env : Env FS) (w : World FS) : Out (World FS) Int :=
  Call env w.command { w with command := "" }

/-! ## struct System: toolchain options -/

/-- The dynamic type of the member `options`. -/
inductive Options where
  | HostOptions
  | DeviceOptions
  deriving DecidableEq, Repr

/-- The dynamic type of the member `archive`. -/
inductive Link where
  | LinuxLink
  | AppleLink
  deriving DecidableEq, Repr

/-- The member `options`: `HostOptions` unless built for CUDA or HIP. -/
def options (cfg : Config) : Options :=
  if !(cfg.MFEM_USE_CUDA || cfg.MFEM_USE_HIP) then .HostOptions else .DeviceOptions

/-- The member `archive`: `AppleLink` on Apple systems, `LinuxLink` otherwise. -/
def archive (cfg : Config) : Link :=
  if cfg.APPLE then .AppleLink else .LinuxLink

/-- `Compiler()` of the options. -/
def Options.Compiler : Options → String
  | .HostOptions => ""
  | .DeviceOptions => "-Xcompiler="

/-- `Linker()` of the options. -/
def Options.Linker : Options → String
  | .HostOptions => "-Wl,"
  | .DeviceOptions => "-Xlinker="

/-- `System::Xcompiler()`. -/
def Xcompiler (cfg : Config) : String := (options cfg).Compiler

/-- `System::Xlinker()`. -/
def Xlinker (cfg : Config) : String := (options cfg).Linker

/-- `Pic()` of the options. -/
def Options.Pic (cfg : Config) : Options → String
  | .HostOptions => "-fPIC"
  | .DeviceOptions => if cfg.MFEM_USE_CUDA then Xcompiler cfg ++ "-fPIC" else "-fPIC"

/-- `Pipe()` of the options. -/
def Options.Pipe (cfg : Config) : Options → String
  | .HostOptions => "-pipe"
  | .DeviceOptions => if cfg.MFEM_USE_CUDA then Xcompiler cfg ++ "-pipe" else "-pipe"

/-- `Device()` of the options. -/
def Options.Device (cfg : Config) : Options → String
  | .HostOptions => ""
  | .DeviceOptions => if cfg.MFEM_USE_CUDA then "--device-c" else "-fgpu-rdc"

/-- `Backup()` of the archive policy. -/
def Link.Backup : Link → String
  | .LinuxLink => "--backup=none"
  | .AppleLink => ""

/-- `Prefix()` of the archive policy. -/
def Link.Prefix (cfg : Config) : Link → String
  | .LinuxLink => if cfg.MFEM_USE_HIP then "-Wl,--whole-archive" else Xlinker cfg ++ "--whole-archive"
  | .AppleLink => "-all_load"

/-- `Postfix()` of the archive policy. -/
def Link.Postfix (cfg : Config) : Link → String
  | .LinuxLink =>
      if cfg.MFEM_USE_HIP then "-Wl,--no-whole-archive" else Xlinker cfg ++ "--no-whole-archive"
  | .AppleLink => ""

/-- `System::ar()`. -/
def ar : String := "libmjit.a"

/-- `System::so()`. -/
def so : String := "./libmjit.so"

/-- `System::Cxx()`. -/
def Cxx (cfg : Config) : String := cfg.MFEM_JIT_CXX

/-- `System::Flags()`. -/
def Flags (cfg : Config) : String := cfg.MFEM_JIT_BUILD_FLAGS

/-- `System::Xpic()`. -/
def Xpic (cfg : Config) : String := (options cfg).Pic cfg

/-- `System::Xpipe()`. -/
def Xpipe (cfg : Config) : String := (options cfg).Pipe cfg

/-- `System::Xdevice()`. -/
def Xdevice (cfg : Config) : String := (options cfg).Device cfg

/-- `System::ARprefix()`. -/
def ARprefix (cfg : Config) : String := (archive cfg).Prefix cfg

/-- `System::ARpostfix()`. -/
def ARpostfix (cfg : Config) : String := (archive cfg).Postfix cfg

/-- `System::ARbackup()`. -/
def ARbackup (cfg : Config) : String := (archive cfg).Backup

/-- `System::DLopen(path)`, recorded in the trace. -/
def DLopen (env : Env FS) (path : String) (w : World FS) : Option Nat × World FS :=
  (env.os.dlopen w.fs path, { w with trace := w.trace ++ [Event.dlopen path] })

/-- `std::remove(path)`, recorded in the trace. -/
def stdRemove (env : Env FS) (path : String) (w : World FS) : World FS :=
  { w with fs := env.os.remove w.fs path, trace := w.trace ++ [Event.remove path] }

/-- A chain `Command() << t1 << t2 << ...`. -/
def Command.pushAll (toks : List String) (w : World FS) : World FS :=
  toks.foldl (fun v t => Command.push t v) w

/-! ## System::Lookup -/

/-- Tokens of the command of step 1 of `Lookup`: link the archive into `./libmjit.so`. -/
def archiveLinkTokens (cfg : Config) : List String :=
  [Cxx cfg, "-shared", "-o", so, ARprefix cfg, ar, ARpostfix cfg, Xlinker cfg ++ "-rpath,."]

/-- Tokens of the compilation command of `RootCompile`: `cc => co`. -/
def compileTokens (env : Env FS) (hash : Nat) : List String :=
  [Cxx env.cfg, Flags env.cfg, "-I", env.cfg.MFEM_SOURCE_DIR, "-I", env.cfg.MFEM_INSTALL_DIR,
   Xdevice env.cfg, Xpic env.cfg, Xcompiler env.cfg ++ "-pipe", "-c", "-o",
   env.ToString hash ".co", env.ToString hash ".cc",
   if env.os.getenv "MFEM_JIT_VERBOSE" then "-v" else ""]

/-- Tokens of the archive update of `RootCompile`: `ar += co`. -/
def archiveTokens (env : Env FS) (hash : Nat) : List String :=
  ["ar -rv", ar, env.ToString hash ".co"]

/-- Tokens of the link of the temporary shared library of `RootCompile`: `(ar + co) => symbol`. -/
def linkTokens (cfg : Config) (symbol : String) : List String :=
  [Cxx cfg, "-shared", "-o", symbol, ARprefix cfg, ar, ARpostfix cfg]

/-- Tokens of the installation command of `RootCompile`: `symbol => libmjit.so`. -/
def installTokens (cfg : Config) (symbol : String) : List String :=
  ["install", ARbackup cfg, symbol, so]

/-- The closure `RootCompile` of `Lookup`. -/
def RootCompile (env : Env FS) (hash : Nat) (source symbol : String) (w : World FS) :
    Out (World FS) Int :=
  match env.os.ofstream w.fs (env.ToString hash ".cc") source with
  | none => .fatal "[JIT] Source file error!" w
  | some fs1 =>
    let w1 : World FS :=
      { w with fs := fs1, trace := w.trace ++ [Event.ofstream (env.ToString hash ".cc") source] }
    (CallCommand env (Command.pushAll (compileTokens env hash) w1)).bind fun s1 w2 =>
    if s1 != 0 then .ret EXIT_FAILURE w2 else
    (CallCommand env (Command.pushAll (archiveTokens env hash)
        (stdRemove env (env.ToString hash ".cc") w2))).bind fun s2 w3 =>
    if s2 != 0 then .ret EXIT_FAILURE w3 else
    (CallCommand env (Command.pushAll (linkTokens env.cfg symbol)
        (stdRemove env (env.ToString hash ".co") w3))).bind fun s3 w4 =>
    if s3 != 0 then .ret EXIT_FAILURE w4 else
    (CallCommand env (Command.pushAll (installTokens env.cfg symbol) w4)).bind fun s4 w5 =>
    if s4 != 0 then .ret EXIT_FAILURE w5 else .ret EXIT_SUCCESS w5

/-- The closure `WorldCompile` of `Lookup`; it returns the new value of `handle`. -/
def WorldCompile (env : Env FS) (hash : Nat) (source symbol : String) (w : World FS) :
    Out (World FS) Nat :=
  (if mpi.Root env w then RootCompile env hash source symbol w
   else .ret EXIT_SUCCESS w).bind fun status w1 =>
  (mpi.Sync env status w1).bind fun _ w2 =>
  (mpi.Sync env EXIT_SUCCESS (DLopen env ("./" ++ symbol) w2).2).bind fun _ w3 =>
  match (DLopen env ("./" ++ symbol) w2).1 with
  | none => .fatal "[JIT] Error creating handle:" w3
  | some h => .ret h w3

/-- Step 1 of `Lookup`: try `libmjit.so`, then `libmjit.a`.  Returns `handle`. -/
def LookupCache (env : Env FS) (w : World FS) : Out (World FS) (Option Nat) :=
  let r : Option Nat × World FS := if env.os.fstream w.fs so then DLopen env so w else (none, w)
  if r.1.isNone && env.os.fstream r.2.fs ar then
    (if mpi.Root env r.2 then CallCommand env (Command.pushAll (archiveLinkTokens env.cfg) r.2)
     else .ret EXIT_SUCCESS r.2).bind fun status w1 =>
    (mpi.Sync env status w1).bind fun _ w2 =>
    match (DLopen env so w2).1 with
    | none => .fatal "[JIT] Error ./libmjit.so from libmjit.a" (DLopen env so w2).2
    | some h => .ret (some h) (DLopen env so w2).2
  else .ret r.1 r.2

/-- `System::Lookup(hash, source, symbol)`. -/
def Lookup (env : Env FS) (hash : Nat) (source symbol : String) (w : World FS) :
    Out (World FS) Nat :=
  (LookupCache env w).bind fun handle0 w1 =>
  -- no caches => launch compilation
  (match handle0 with
   | none => (WorldCompile env hash source symbol w1).bind fun h v => .ret (some h) v
   | some h => .ret (some h) w1).bind fun handle1 w2 =>
  match handle1 with
  | none => .fatal "[JIT] No handle could be created!" w2
  | some h1 =>
    -- no symbol => launch compilation & update kernel symbol
    (match env.os.dlsym h1 symbol with
     | none => (WorldCompile env hash source symbol w2).bind fun h2 v =>
                 .ret (env.os.dlsym h2 symbol) v
     | some k => .ret (some k) w2).bind fun kernel w3 =>
    match kernel with
    | none => .fatal "[JIT] No kernel could be found!" w3
    | some k => .ret k (stdRemove env symbol w3)

/-! ## Observations on traces -/

/-- The commands handed to `Call`, in order. -/
def issued : List Event → List String
  | [] => []
  | Event.warning c :: es => c :: issued es
  | _ :: es => issued es

/-- The commands run by `std::system` in the process itself, in order. -/
def ranHere : List Event → List String
  | [] => []
  | Event.system false c _ :: es => c :: ranHere es
  | _ :: es => ranHere es

/-- The commands run by `std::system` in the forked child, in order. -/
def ranByChild : List Event → List String
  | [] => []
  | Event.system true c _ :: es => c :: ranByChild es
  | _ :: es => ranByChild es

/-- The files written through `std::ofstream`, in order. -/
def written : List Event → List String
  | [] => []
  | Event.ofstream p _ :: es => p :: written es
  | _ :: es => written es

/-- The paths given to `DLopen`, in order. -/
def opened : List Event → List String
  | [] => []
  | Event.dlopen p :: es => p :: opened es
  | _ :: es => opened es

/-- The text a chain of `<<` leaves in an empty `Command` builder. -/
def commandText (toks : List String) : String :=
  toks.foldl (fun acc t => acc ++ t ++ " ") ""

/-- The four commands of `RootCompile`, as `Call()` receives them from an empty builder. -/
def rootCommands (env : Env FS) (hash : Nat) (symbol : String) : List String :=
  [commandText (compileTokens env hash), commandText (archiveTokens env hash),
   commandText (linkTokens env.cfg symbol), commandText (installTokens env.cfg symbol)]

/-- The handshake is at rest: when commands go through the forked child, the child waits at
the head of its loop and the status word is `ACK`. -/
def Idle (env : Env FS) (w : World FS) : Prop :=
  mpi.IsInitialized env w = true → w.child = ChildPc.wait ∧ w.ack = ACK

/-- The state in which `Call(c)`, entered in state `w` with the handshake at rest, has
written the command and the status `CALL` (up to the access counter). -/
def callRequest (c : String) (w : World FS) : World FS :=
  { w with trace := w.trace ++ [Event.warning c], mem := c, ack := CALL }

/-- The state of the child `j` atomic steps after it stood at the head of its loop in state
`x` with the status word `CALL` (closed form of `childRun`). -/
def served (os : OS FS) (x : World FS) : Nat → World FS
  | 0 => x
  | 1 => { x with child := .isCall }
  | 2 => { x with child := .system }
  | j + 3 =>
    if (os.system x.fs x.mem).1 != 0 then
      { x with fs := (os.system x.fs x.mem).2,
               trace := x.trace ++ [Event.system true x.mem (os.system x.fs x.mem).1],
               child := .exited EXIT_SUCCESS }
    else
      { x with fs := (os.system x.fs x.mem).2,
               trace := x.trace ++ [Event.system true x.mem (os.system x.fs x.mem).1],
               ack := if 2 ≤ j then ACK else x.ack,
               child := if j = 0 then .isExit else if j = 1 then .acknowledge else .wait }

/-- `Call(c)` returned from state `w` in state `v`: the command ran once, by the child when
MPI is initialized (then with status 0) and by the process itself otherwise. -/
def CallDone (env : Env FS) (c : String) (w v : World FS) : Prop :=
  v.fs = (env.os.system w.fs c).2 ∧
  v.trace = w.trace ++ [Event.warning c,
    Event.system (mpi.IsInitialized env w) c (env.os.system w.fs c).1] ∧
  v.mpiInitialized = w.mpiInitialized ∧ v.command = w.command ∧ v.size = w.size ∧
  v.syncs = w.syncs ∧ v.child = w.child ∧ v.ack = w.ack ∧
  (mpi.IsInitialized env w = true → (env.os.system w.fs c).1 = 0 ∧ v.mem = c)

/-- `Call(c)` did not return from state `w` and `v` is the state reached: the command was
handed over and the child ran it at most once. -/
def CallStuck (env : Env FS) (c : String) (w v : World FS) : Prop :=
  mpi.IsInitialized env w = true ∧
  v.mpiInitialized = w.mpiInitialized ∧ v.command = w.command ∧ v.size = w.size ∧
  v.syncs = w.syncs ∧
  ((v.fs = w.fs ∧ v.trace = w.trace ++ [Event.warning c]) ∨
   (v.fs = (env.os.system w.fs c).2 ∧
    v.trace = w.trace ++ [Event.warning c, Event.system true c (env.os.system w.fs c).1]))

/-- State `v` extends state `w`: MPI is as initialized as before, and the trace grew by
events that all satisfy `A`. -/
def Ext (A : Event → Prop) (w v : World FS) : Prop :=
  v.mpiInitialized = w.mpiInitialized ∧ ∃ new, v.trace = w.trace ++ new ∧ ∀ e ∈ new, A e

/-- A run of `std::system` in the forked child. -/
def ChildEvent (e : Event) : Prop := ∃ c st, e = Event.system true c st

/-- An event of `Call`: the command handed over, or a run of `std::system`, in the child when
`b` and in the process itself otherwise. -/
def CallEvent (b : Bool) (e : Event) : Prop :=
  (∃ c, e = Event.warning c) ∨ (∃ c st, e = Event.system b c st)

/-- An event of `RootCompile`. -/
def BuildEvent (b : Bool) (e : Event) : Prop :=
  CallEvent b e ∨ (∃ p t, e = Event.ofstream p t) ∨ (∃ p, e = Event.remove p)

/-- An event of `Lookup`. -/
def LookupEvent (b : Bool) (e : Event) : Prop :=
  BuildEvent b e ∨ (∃ p, e = Event.dlopen p) ∨ (∃ s, e = Event.allreduce s)

/-- An event of `Lookup(hash, source, symbol)` that is neither a command nor a write: a load,
a reduction to which the process contributes `EXIT_SUCCESS`, or the removal of the temporary
image. -/
def QuietEvent (symbol : String) (e : Event) : Prop :=
  (∃ p, e = Event.dlopen p) ∨ e = Event.allreduce EXIT_SUCCESS ∨ e = Event.remove symbol

/-- Whether an option of the program `install` asks that a backup of an existing destination
be kept: `-b`, `--backup`, or `--backup=CONTROL` with a control other than `none` and `off`
(which both mean: never make a backup). -/
def asksBackup (opt : String) : Bool :=
  opt == "-b" || opt == "--backup" ||
  ("--backup=".data.isPrefixOf opt.data && opt != "--backup=none" && opt != "--backup=off")

/-- State `v` has the buffer of state `w`, and the text in it is the one of `w` or one that
fits with its terminator. -/
def Fits (w v : World FS) : Prop :=
  v.size = w.size ∧ (v.mem = w.mem ∨ 1 + strlen v.mem ≤ v.size)

/-- A relation between states, graded by the number of source files that may have been
written in between, which every step of `Lookup` respects: `R n w v` is kept by a call of
`Call()` on a built command, by `std::remove`, by `mpi::Sync` and by `DLopen`, and one more
source file is allowed for the write in `RootCompile`. -/
structure Graded (env : Env FS) (hash : Nat) (source : String)
    (R : Nat → World FS → World FS → Prop) : Prop where
  refl : ∀ w, R 0 w w
  add : ∀ a b u v w, R a u v → R b v w → R (a + b) u w
  mono : ∀ a b u v, a ≤ b → R a u v → R b u v
  call : ∀ toks v, R 0 v (CallCommand env (Command.pushAll toks v)).world
  rm : ∀ p v, R 0 v (stdRemove env p v)
  sync : ∀ s v, R 0 v (mpi.Sync env s v).world
  load : ∀ p v, R 0 v (DLopen env p v).2
  src : ∀ w fs1, R 1 w
    { w with fs := fs1, trace := w.trace ++ [Event.ofstream (env.ToString hash ".cc") source] }

/-- The events `new` hold the removal of the hash-named source file and, later, the removal
of the hash-named object file, and no source file is written after either of them. -/
def Cleaned (env : Env FS) (hash : Nat) (new : List Event) : Prop :=
  ∃ a b c, new = a ++ Event.remove (env.ToString hash ".cc") ::
      (b ++ Event.remove (env.ToString hash ".co") :: c) ∧
    written b = [] ∧ written c = []

/-- Between the states `w` and `v` at most `n` source files were written, each of them the
hash-named source file. -/
def Wrote (env : Env FS) (hash : Nat) (n : Nat) (w v : World FS) : Prop :=
  v.mpiInitialized = w.mpiInitialized ∧
  ∃ new, v.trace = w.trace ++ new ∧
    ∃ k, k ≤ n ∧ written new = List.replicate k (env.ToString hash ".cc")

/-- The second half of `Lookup`, entered with the handle `h1` in state `w2`, returns the
kernel `k` in state `v`: the symbol is found in `h1`, or it is not and a run of `WorldCompile`
returns a handle in which it is found; the temporary image is removed last. -/
def Resolves (env : Env FS) (hash : Nat) (source symbol : String) (k : Nat) (v : World FS)
    (h1 : Nat) (w2 : World FS) : Prop :=
  (env.os.dlsym h1 symbol = some k ∧ v = stdRemove env symbol w2) ∨
  (env.os.dlsym h1 symbol = none ∧ ∃ h2 v2,
    WorldCompile env hash source symbol w2 = .ret h2 v2 ∧
    env.os.dlsym h2 symbol = some k ∧ v = stdRemove env symbol v2)

/-! ## System::Init and System::Finalize

The primitives above work on the two shared regions once they are mapped.  `Init` and
`Finalize` create and release them, and the child: the state `Proc` adds to `World` the field
`pid` of the singleton, whether `s_ack` and `s_mem` point to a mapping, and a log of what the
two functions did.  The `else` branch of `Init` is the code of the child, `childStep`. -/

/-- One of the two shared regions of the `System` singleton. -/
inductive Region where
  | s_ack
  | s_mem
  deriving DecidableEq, Repr

/-- The answers of the operating system to the calls of `System::Init` and
`System::Finalize`. -/
structure Sys where
  /-- `sysconf(_SC_PAGE_SIZE)`. -/
  pageSize : Nat
  /-- Whether `::mmap` for the region gives a mapping, and not `MAP_FAILED`. -/
  mmap : Region → Bool
  /-- `::fork()` as seen by the parent: a child of pid `p + 1`, or `none` for the value `-1`. -/
  fork : Option Nat
  /-- The return value of `::munmap` for the region. -/
  munmap : Region → Int
  /-- The indeterminate value of `status` when `::waitpid` fails for want of a child. -/
  noChild : Int

/-- What `System::Init` and `System::Finalize` did, in order. -/
inductive Act where
  /-- `::mmap` for a region, and whether it gave a mapping. -/
  | mmap (r : Region) (ok : Bool)
  /-- A store of the process to the status word. -/
  | write (xx : Int)
  /-- `::fork()` and its return value. -/
  | fork (pid : Int)
  /-- `::MPI_Init`. -/
  | MPI_Init
  /-- `::waitpid` and the value of `status` after it. -/
  | waitpid (pid : Int) (status : Int)
  /-- `::munmap` for a region and its return value. -/
  | munmap (r : Region) (result : Int)
  deriving DecidableEq, Repr

/-- The process: its `World`, the field `pid` of the singleton, and whether `s_ack` and
`s_mem` point to a mapping. -/
structure Proc (FS : Type) where
  world : World FS
  pid : Int
  ackMapped : Bool
  memMapped : Bool
  log : List Act

/-- The process with its world replaced. -/
def Proc.setWorld (m : Proc FS) (w : World FS) : Proc FS := { m with world := w }

/-- The process with one more entry in its log. -/
def Proc.note (m : Proc FS) (a : Act) : Proc FS := { m with log := m.log ++ [a] }

/-- An outcome of a primitive on the shared regions, as an outcome of the process. -/
def Out.lift {α : Type} (m : Proc FS) : Out (World FS) α → Out (Proc FS) α
  | .ret a w => .ret a (m.setWorld w)
  | .fatal msg w => .fatal msg (m.setWorld w)
  | .spin w => .spin (m.setWorld w)

/-- The end of a process that accesses the status word through a pointer that is not a
mapping (`MAP_FAILED`, or a region already unmapped). -/
def SIGSEGV : String := "Segmentation fault"

/-- The three assignments at the head of `Init`: `size`, `s_ack`, `s_mem`.  The result of
`::mmap` is stored as it is; a fresh anonymous mapping is filled with zeros. -/
def Mmap (sys : Sys) (m : Proc FS) : Proc FS :=
  { m with world := { m.world with size := sys.pageSize, ack := 0, mem := "" },
           ackMapped := sys.mmap .s_ack, memMapped := sys.mmap .s_mem,
           log := m.log ++ [Act.mmap .s_ack (sys.mmap .s_ack), Act.mmap .s_mem (sys.mmap .s_mem)] }

/-- `Get().pid = ::fork()` in the parent: on success the child starts at the head of the
`else` branch. -/
def Fork (sys : Sys) (m : Proc FS) : Proc FS :=
  match sys.fork with
  | some p => { m with pid := p + 1, world := { m.world with child := ChildPc.verifyAck },
                       log := m.log ++ [Act.fork (p + 1)] }
  | none => { m with pid := -1, log := m.log ++ [Act.fork (-1)] }

/-- `::MPI_Init(argc, argv)` under `MFEM_USE_MPI`, nothing otherwise. -/
def MPI_Init (env : Env FS) (m : Proc FS) : Proc FS :=
  if env.cfg.MFEM_USE_MPI then
    { m with world := { m.world with mpiInitialized := true }, log := m.log ++ [Act.MPI_Init] }
  else m

/-- `Write(xx)` in `Init`, logged. -/
def Store (env : Env FS) (xx : Int) (m : Proc FS) : Proc FS :=
  { m with world := Write env xx m.world, log := m.log ++ [Act.write xx] }

/-- `System::Init(argc, argv)`, in the parent. -/
def Init (env : Env FS) (sys : Sys) (m : Proc FS) : Out (Proc FS) Unit :=
  let m1 := Mmap sys m
  -- Write(ACK): initialize state
  if !m1.ackMapped then .fatal SIGSEGV m1 else
  let m3 := Fork sys (Store env ACK m1)
  (if m3.pid != 0 then
    let m4 := MPI_Init env m3
    -- inform the child about our rank, wait for the child to acknowledge
    Out.lift (Store env (mpi.Rank env m4.world) m4)
      (Wait env false (Store env (mpi.Rank env m4.world) m4).world)
   else .ret () m3).bind fun _ m6 =>
  if m6.pid == 0 then .fatal "Children shall not pass!" m6 else .ret () m6

/-- `::waitpid(Pid(), &status, WUNTRACED | WCONTINUED)`, with fuel: the child runs until it
has terminated, and the result is the value left in `status`: the exit code in the second
byte for a child that called `std::exit`, the signal `SIGABRT` with the core flag for one
that failed an `MFEM_VERIFY`.  Without a child the call fails at once and `status` keeps its
indeterminate value. -/
def waitpid (env : Env FS) (sys : Sys) : Nat → World FS → Option (Int × World FS)
  | 0, _ => none
  | n + 1, w =>
    match w.child with
    | .unborn => some (sys.noChild, w)
    | .exited code => some (code % 256 * 256, w)
    | .aborted => some (134, w)
    | _ => waitpid env sys n (childStep env.os w)

/-- `::munmap` of a region: on success the pointer no longer points to a mapping. -/
def Munmap (sys : Sys) (r : Region) (m : Proc FS) : Proc FS :=
  { m with ackMapped := if r = .s_ack ∧ sys.munmap r = 0 then false else m.ackMapped,
           memMapped := if r = .s_mem ∧ sys.munmap r = 0 then false else m.memMapped,
           log := m.log ++ [Act.munmap r (sys.munmap r)] }

/-- `System::Finalize()`. -/
def Finalize (env : Env FS) (sys : Sys) (m : Proc FS) : Out (Proc FS) Unit :=
  if !m.ackMapped then .fatal SIGSEGV m else
  if (Read env m.world).1 != ACK then
    .fatal "[JIT] Finalize acknowledgment error!" (m.setWorld (Read env m.world).2)
  else
    (Out.lift (m.note (Act.write EXIT)) (Send env EXIT (Read env m.world).2)).bind fun _ m1 =>
    -- wait for child
    match waitpid env sys env.fuel m1.world with
    | none => .spin m1
    | some (status, w2) =>
      let m2 := (m1.setWorld w2).note (Act.waitpid m1.pid status)
      if status != 0 then .fatal "[JIT] Error with the compiler thread" m2
      -- release shared memory
      else if sys.munmap .s_mem != 0 then .fatal "[JIT] Finalize memory error!"
        (Munmap sys .s_mem m2)
      else if sys.munmap .s_ack != 0 then .fatal "[JIT] Finalize memory error!"
        (Munmap sys .s_ack (Munmap sys .s_mem m2))
      else .ret () (Munmap sys .s_ack (Munmap sys .s_mem m2))

/-- State `w` differs from state `x` at most in the status word, the position of the child
and the access counter. -/
def SameBut (x w : World FS) : Prop :=
  w.fs = x.fs ∧ w.mem = x.mem ∧ w.size = x.size ∧ w.command = x.command ∧
  w.mpiInitialized = x.mpiInitialized ∧ w.syncs = x.syncs ∧ w.trace = x.trace

/-- The states of the rank handshake of `Init` before the parent writes its rank: the status
word is `ACK` and the child, if there is one, has not passed `Wait()`. -/
def Forked (x w : World FS) : Prop :=
  SameBut x w ∧ w.ack = ACK ∧
  (w.child = ChildPc.unborn ∨ w.child = ChildPc.verifyAck ∨ w.child = ChildPc.waitRank)

/-- The states of the rank handshake of `Init` after the parent wrote `rank`: the status word
still holds the rank and the child has not acknowledged, or the child has acknowledged and
stands at the head of its loop (rank 0) or has exited (any other rank). -/
def Shake (rank : Int) (x w : World FS) : Prop :=
  SameBut x w ∧
  ((w.ack = rank ∧
      (w.child = ChildPc.unborn ∨ w.child = ChildPc.verifyAck ∨ w.child = ChildPc.aborted ∨
       w.child = ChildPc.waitRank ∨ w.child = ChildPc.readRank ∨
       w.child = ChildPc.acknowledgeRank rank)) ∨
   (w.ack = ACK ∧
      w.child = if rank = 0 then ChildPc.wait else ChildPc.exited EXIT_SUCCESS))

/-- The value is one of the three constants of the protocol. -/
def IsProtocolValue (x : Int) : Prop := x = ACK ∨ x = CALL ∨ x = EXIT

/-- Every command handed to `Call` is followed at once by one run of that command, and no
command is run that was not handed over just before: the requests are served one by one. -/
def Sequential : List Event → Bool
  | [] => true
  | Event.warning c :: Event.system _ c' _ :: es => c == c' && Sequential es
  | Event.warning _ :: _ => false
  | Event.system _ _ _ :: _ => false
  | _ :: es => Sequential es

/-- A relation between states which every step of `Lookup` that returns respects: a call of
`Call()` on a built command, `std::remove`, `mpi::Sync`, `DLopen` and the write of the source
file. -/
structure Kept (env : Env FS) (hash : Nat) (source : String)
    (R : World FS → World FS → Prop) : Prop where
  refl : ∀ w, R w w
  trans : ∀ u v w, R u v → R v w → R u w
  call : ∀ toks v s u, CallCommand env (Command.pushAll toks v) = .ret s u → R v u
  rm : ∀ p v, R v (stdRemove env p v)
  sync : ∀ s v u, mpi.Sync env s v = .ret () u → R v u
  load : ∀ p v, R v (DLopen env p v).2
  src : ∀ w fs1, R w
    { w with fs := fs1, trace := w.trace ++ [Event.ofstream (env.ToString hash ".cc") source] }

end Model

/-! ## A small concrete environment

The file system is the list of the files that exist.  The toolchain `c++`, `ar` and
`install` succeeds and leaves its output file; any other program is not found. -/

/-- `std::system` of the small environment. -/
def demoSystem (fs : List String) (c : String) : Int × List String :=
  if "c++ -shared -o sym_ABC ".data.isPrefixOf c.data then (0, "./sym_ABC" :: fs)
  else if "c++ -shared -o ./libmjit.so ".data.isPrefixOf c.data then (0, "./libmjit.so" :: fs)
  else if "c++ ".data.isPrefixOf c.data then (0, "abc.co" :: fs)
  else if "ar -rv libmjit.a ".data.isPrefixOf c.data then (0, "libmjit.a" :: fs)
  else if "install ".data.isPrefixOf c.data then (0, "./libmjit.so" :: fs)
  else (32512, fs)

/-- The operating system of the small environment: a file can be opened and loaded when it
exists, and every library exports `sym_ABC` at address 42. -/
def demoOS : OS (List String) where
  fstream fs p := fs.contains p
  ofstream fs p _ := some (p :: fs)
  remove fs p := fs.filter (fun q => q != p && q != "./" ++ p)
  dlopen fs p := if fs.contains p then some 7 else none
  dlsym h s := if h == 7 && s == "sym_ABC" then some 42 else none
  system := demoSystem
  getenv _ := false

/-- A host build on Linux with compiler `cxx`. -/
def demoCfg (cxx : String) (mpi : Bool) : Config where
  MFEM_USE_MPI := mpi
  MFEM_USE_CUDA := false
  MFEM_USE_HIP := false
  APPLE := false
  MFEM_JIT_CXX := cxx
  MFEM_JIT_BUILD_FLAGS := "-O3"
  MFEM_SOURCE_DIR := "/mfem"
  MFEM_INSTALL_DIR := "/mfem/install"

/-- The small environment of the process of rank `rank`, with no other rank contributing. -/
def demoEnv (cxx : String) (mpi : Bool) (rank : Nat) (sched : Nat → Nat) (fuel : Nat) :
    Env (List String) where
  cfg := demoCfg cxx mpi
  os := demoOS
  ToString hash ext := String.mk (Nat.toDigits 16 hash) ++ ext
  worldRank := rank
  peers _ := []
  interfere _ fs := fs
  sched := sched
  fuel := fuel

/-- A state at rest with the files `fs`, a channel of one page and the child at the head of
its loop. -/
def demoWorld (fs : List String) (mpi : Bool) : World (List String) where
  fs := fs
  ack := ACK
  mem := ""
  size := 4096
  command := ""
  child := ChildPc.wait
  mpiInitialized := mpi
  clock := 0
  syncs := 0
  trace := []

/-- The operating system of the small environment when no library exports the symbol that
is looked up, as for a source that does not define it. -/
def demoOSNoSymbol : OS (List String) :=
  { demoOS with dlsym := fun _ _ => none }

/-- The small serial environment over `demoOSNoSymbol`. -/
def demoEnvNoSymbol : Env (List String) :=
  { demoEnv "c++" false 0 (fun _ => 1) 5 with os := demoOSNoSymbol }

/-- An operating system that maps both regions, creates the child with pid 1234, and
unmaps both regions. -/
def demoSys : Sys where
  pageSize := 4096
  mmap _ := true
  fork := some 1233
  munmap _ := 0
  noChild := 0

/-- A process before `Init`: no child, no shared region. -/
def demoProc (fs : List String) : Proc (List String) where
  world := { demoWorld fs false with child := ChildPc.unborn, ack := 0, size := 0 }
  pid := 0
  ackMapped := false
  memMapped := false
  log := []

/-- A build for HIP devices on Linux. -/
def demoCfgHIP : Config := { demoCfg "hipcc" false with MFEM_USE_HIP := true }

/-- The operating system of the small environment when no file can be loaded, as for a
shared library that is there but damaged. -/
def demoOSUnloadable : OS (List String) :=
  { demoOS with dlopen := fun _ _ => none }

/-- The small serial environment over `demoOSUnloadable`. -/
def demoEnvUnloadable : Env (List String) :=
  { demoEnv "c++" false 0 (fun _ => 1) 5 with os := demoOSUnloadable }

/-- A schedule that gives the child its first step only after the second access of the
process to the shared memory, one step per access from then on. -/
def lateChild : Nat → Nat := fun n => if n < 2 then 0 else 1

/-- A schedule that gives the child five steps between the third and the fourth access of
the process to the shared memory, and none otherwise. -/
def burstChild : Nat → Nat := fun n => if n = 3 then 5 else 0

/-- The kernel source of the examples. -/
def demoSource : String := "int f(){return 1;}"

/-- A command of more than one page: `c++` followed by 4096 characters. -/
def longCommand : String := "c++ " ++ String.mk (List.replicate 4096 'x')

end jit

/-- `Jit::Lookup(hash, source, symbol)`. -/
def Jit.Lookup {FS : Type} (env : jit.Env FS) (hash : Nat) (source symbol : String)
    (w : jit.World FS) : jit.Out (jit.World FS) Nat :=
  jit.Lookup env hash source symbol w

/-- `Jit::Init(argc, argv)`. -/
def Jit.Init {FS : Type} (env : jit.Env FS) (sys : jit.Sys) (m : jit.Proc FS) :
    jit.Out (jit.Proc FS) Unit :=
  if jit.mpi.Root env m.world then jit.Init env sys m else .ret () m

/-- `Jit::Finalize()`. -/
def Jit.Finalize {FS : Type} (env : jit.Env FS) (sys : jit.Sys) (m : jit.Proc FS) :
    jit.Out (jit.Proc FS) Unit :=
  if jit.mpi.Root env m.world then jit.Finalize env sys m else .ret () m

end mfem

/-! # Properties -/

namespace mfem
namespace jit

section Lemmas

variable {FS : Type}

/-! ## Sequencing -/

@[simp] theorem Out.bind_ret {σ α β : Type} (a : α) (w : σ) (f : α → σ → Out σ β) :
    (Out.ret a w).bind f = f a w := rfl

@[simp] theorem Out.bind_fatal {σ α β : Type} (m : String) (w : σ) (f : α → σ → Out σ β) :
    (Out.fatal m w : Out σ α).bind f = Out.fatal m w := rfl

@[simp] theorem Out.bind_spin {σ α β : Type} (w : σ) (f : α → σ → Out σ β) :
    (Out.spin w : Out σ α).bind f = Out.spin w := rfl

/-! ## The protocol constants -/

theorem ACK_eq : ACK = -1 := by decide

theorem CALL_ne_ACK : CALL ≠ ACK := by decide

theorem CALL_ne_EXIT : CALL ≠ EXIT := by decide

theorem EXIT_ne_ACK : EXIT ≠ ACK := by decide

/-! ## The forked child -/

theorem childRun_add (os : OS FS) (a b : Nat) (w : World FS) :
    childRun os (a + b) w = childRun os b (childRun os a w) := by
  induction a generalizing w with
  | zero => simp [childRun]
  | succ a ih => rw [Nat.succ_add]; simp [childRun, ih]

theorem childStep_setClock (os : OS FS) (w : World FS) (c : Nat) :
    childStep os (w.setClock c) = (childStep os w).setClock c := by
  obtain ⟨fs, ack, mem, size, command, child, mpi, clock, syncs, trace⟩ := w
  cases child <;> simp only [childStep, World.setClock] <;> (try split) <;> rfl

theorem childRun_setClock (os : OS FS) (n : Nat) (w : World FS) (c : Nat) :
    childRun os n (w.setClock c) = (childRun os n w).setClock c := by
  induction n generalizing w with
  | zero => rfl
  | succ n ih => simp only [childRun]; rw [childStep_setClock, ih]

theorem childStep_idle (os : OS FS) (w : World FS) (h1 : w.child = ChildPc.wait)
    (h2 : w.ack = ACK) : childStep os w = w := by
  simp [childStep, h1, h2]

theorem childRun_idle (os : OS FS) (n : Nat) (w : World FS) (h1 : w.child = ChildPc.wait)
    (h2 : w.ack = ACK) : childRun os n w = w := by
  induction n with
  | zero => rfl
  | succ n ih => simp only [childRun]; rw [childStep_idle os w h1 h2, ih]

theorem tick_idle (env : Env FS) (w : World FS) (h1 : w.child = ChildPc.wait)
    (h2 : w.ack = ACK) : tick env w = w.setClock (w.clock + 1) := by
  simp [tick, childRun_idle env.os _ w h1 h2]

theorem childStep_served (os : OS FS) (x : World FS) (h1 : x.child = ChildPc.wait)
    (h2 : x.ack = CALL) (j : Nat) : childStep os (served os x j) = served os x (j + 1) := by
  obtain ⟨fs, ack, mem, size, command, child, mpi, clock, syncs, trace⟩ := x
  simp only at h1 h2
  subst h1 h2
  match j with
  | 0 => simp [served, childStep, CALL_ne_ACK]
  | 1 => simp [served, childStep]
  | 2 =>
    by_cases hr : (os.system fs mem).1 = 0 <;> simp [served, childStep, hr]
  | 3 =>
    by_cases hr : (os.system fs mem).1 = 0 <;> simp [served, childStep, hr, CALL_ne_EXIT]
  | 4 =>
    by_cases hr : (os.system fs mem).1 = 0 <;> simp [served, childStep, hr]
  | j + 5 =>
    by_cases hr : (os.system fs mem).1 = 0 <;> simp [served, childStep, hr]

theorem childRun_served (os : OS FS) (x : World FS) (h1 : x.child = ChildPc.wait)
    (h2 : x.ack = CALL) (n j : Nat) : childRun os n (served os x j) = served os x (j + n) := by
  induction n generalizing j with
  | zero => rfl
  | succ n ih =>
    simp only [childRun]
    rw [childStep_served os x h1 h2, ih]
    congr 1
    omega

theorem tick_served (env : Env FS) (x : World FS) (h1 : x.child = ChildPc.wait)
    (h2 : x.ack = CALL) (j clk : Nat) :
    tick env ((served env.os x j).setClock clk) =
      (served env.os x (j + env.sched clk)).setClock (clk + 1) := by
  simp only [tick]
  rw [childRun_setClock, childRun_served env.os x h1 h2]
  rfl

theorem served_ack (os : OS FS) (x : World FS) (h2 : x.ack = CALL) (j : Nat) :
    ((served os x j).ack = ACK ∧ (os.system x.fs x.mem).1 = 0 ∧ 5 ≤ j) ∨
    ((served os x j).ack = CALL ∧ ((os.system x.fs x.mem).1 = 0 → j < 5)) := by
  match j with
  | 0 => simp [served, h2]
  | 1 => simp [served, h2]
  | 2 => simp [served, h2]
  | 3 => by_cases hr : (os.system x.fs x.mem).1 = 0 <;> simp [served, hr, h2]
  | 4 => by_cases hr : (os.system x.fs x.mem).1 = 0 <;> simp [served, hr, h2]
  | j + 5 => by_cases hr : (os.system x.fs x.mem).1 = 0 <;> simp [served, hr, h2]

theorem served_done (os : OS FS) (x : World FS) (j : Nat) (hr : (os.system x.fs x.mem).1 = 0)
    (hj : 5 ≤ j) :
    served os x j =
      { x with fs := (os.system x.fs x.mem).2,
               trace := x.trace ++ [Event.system true x.mem 0],
               ack := ACK, child := ChildPc.wait } := by
  obtain ⟨k, rfl⟩ : ∃ k, j = k + 5 := ⟨j - 5, by omega⟩
  simp [served, hr]

theorem served_frame (os : OS FS) (x : World FS) (j : Nat) :
    (served os x j).mpiInitialized = x.mpiInitialized ∧ (served os x j).syncs = x.syncs ∧
    (served os x j).size = x.size ∧ (served os x j).command = x.command ∧
    (served os x j).mem = x.mem ∧ (served os x j).clock = x.clock ∧
    (((served os x j).fs = x.fs ∧ (served os x j).trace = x.trace) ∨
     ((served os x j).fs = (os.system x.fs x.mem).2 ∧
      (served os x j).trace = x.trace ++ [Event.system true x.mem (os.system x.fs x.mem).1])) := by
  match j with
  | 0 => simp [served]
  | 1 => simp [served]
  | 2 => simp [served]
  | j + 3 => by_cases hr : (os.system x.fs x.mem).1 = 0 <;> simp [served, hr]

/-! ## The polling loops -/

theorem AckLoop_served (env : Env FS) (op : Int → Int → Bool) (xx : Int) (x : World FS)
    (h1 : x.child = ChildPc.wait) (h2 : x.ack = CALL) (n j clk : Nat) :
    ∃ j' clk', j ≤ j' ∧
      (AckLoop env op xx n ((served env.os x j).setClock clk) =
          .spin ((served env.os x j').setClock clk') ∨
       (op (served env.os x j').ack xx = false ∧
        AckLoop env op xx n ((served env.os x j).setClock clk) =
          .ret () ((served env.os x j').setClock clk'))) := by
  induction n generalizing j clk with
  | zero => exact ⟨j, clk, le_refl _, Or.inl rfl⟩
  | succ n ih =>
    simp only [AckLoop]
    rw [tick_served env x h1 h2]
    by_cases hop : op (served env.os x (j + env.sched clk)).ack xx = true
    · have hop' : op ((served env.os x (j + env.sched clk)).setClock (clk + 1)).ack xx = true := hop
      simp only [hop', if_true]
      obtain ⟨j', clk', hj, h⟩ := ih (j + env.sched clk) (clk + 1)
      exact ⟨j', clk', by omega, h⟩
    · have hop' : ¬ op ((served env.os x (j + env.sched clk)).setClock (clk + 1)).ack xx = true := hop
      simp only [hop']
      refine ⟨j + env.sched clk, clk + 1, by omega, Or.inr ⟨?_, ?_⟩⟩
      · simpa using hop
      · simp

theorem AckLoop_wait_progress (env : Env FS) (x : World FS) (h1 : x.child = ChildPc.wait)
    (h2 : x.ack = CALL) (hr : (env.os.system x.fs x.mem).1 = 0) (hs : ∀ n, 1 ≤ env.sched n)
    (n j clk : Nat) (hn : 1 ≤ n) (hj : 6 ≤ j + n) :
    ∃ j' clk', 5 ≤ j' ∧
      AckLoop env (fun a b => a != b) ACK n ((served env.os x j).setClock clk) =
        .ret () ((served env.os x j').setClock clk') := by
  induction n generalizing j clk with
  | zero => omega
  | succ n ih =>
    simp only [AckLoop]
    rw [tick_served env x h1 h2]
    rcases served_ack env.os x h2 (j + env.sched clk) with ⟨ha, _, h5⟩ | ⟨hc, hlt⟩
    · refine ⟨j + env.sched clk, clk + 1, h5, ?_⟩
      have ha' : ((served env.os x (j + env.sched clk)).setClock (clk + 1)).ack = ACK := ha
      simp [ha']
    · have hlt' := hlt hr
      have hsch := hs clk
      have hne : (((served env.os x (j + env.sched clk)).setClock (clk + 1)).ack != ACK) = true := by
        have hc' : ((served env.os x (j + env.sched clk)).setClock (clk + 1)).ack = CALL := hc
        simp [hc', CALL_ne_ACK]
      simp only [hne, if_true]
      exact ih (j + env.sched clk) (clk + 1) (by omega) (by omega)

theorem AckLoop_send_progress (env : Env FS) (x : World FS) (h1 : x.child = ChildPc.wait)
    (h2 : x.ack = CALL) (n j clk : Nat) (hn : 1 ≤ n) (hs : j + env.sched clk ≤ 4) :
    AckLoop env (fun a b => a != b) CALL n ((served env.os x j).setClock clk) =
      .ret () ((served env.os x (j + env.sched clk)).setClock (clk + 1)) := by
  obtain ⟨m, rfl⟩ : ∃ m, n = m + 1 := ⟨n - 1, by omega⟩
  simp only [AckLoop]
  rw [tick_served env x h1 h2]
  rcases served_ack env.os x h2 (j + env.sched clk) with ⟨_, _, h5⟩ | ⟨hc, _⟩
  · omega
  · have hc' : ((served env.os x (j + env.sched clk)).setClock (clk + 1)).ack = CALL := hc
    simp [hc']

/-! ## Call -/

theorem Call_serial (env : Env FS) (c : String) (w : World FS)
    (hinit : mpi.IsInitialized env w = false) :
    Call env c w = .ret (env.os.system w.fs c).1
      { w with fs := (env.os.system w.fs c).2,
               trace := w.trace ++ [Event.warning c,
                                    Event.system false c (env.os.system w.fs c).1] } := by
  have hroot : mpi.Root env w = true := by
    simp only [mpi.IsInitialized] at hinit
    simp only [mpi.Root, mpi.Rank]
    by_cases hm : env.cfg.MFEM_USE_MPI = true
    · simp [hm] at hinit; simp [hinit]
    · simp [hm]
  have hinit' : mpi.IsInitialized env { w with trace := w.trace ++ [Event.warning c] } = false :=
    hinit
  simp [Call, hroot, hinit']

theorem Call_not_root (env : Env FS) (c : String) (w : World FS)
    (hroot : mpi.Root env w = false) :
    Call env c w = .fatal "[JIT] Only MPI root should launch commands!" w := by
  simp [Call, hroot]

theorem Call_too_long (env : Env FS) (c : String) (w : World FS)
    (hroot : mpi.Root env w = true) (hinit : mpi.IsInitialized env w = true)
    (hlen : ¬ (1 + strlen c < w.size)) :
    Call env c w = .fatal "[JIT] Command length error!"
      { w with trace := w.trace ++ [Event.warning c] } := by
  have hinit' : mpi.IsInitialized env { w with trace := w.trace ++ [Event.warning c] } = true :=
    hinit
  simp [Call, hroot, hinit', hlen]

/-- With the handshake at rest, `Call` is the two polling loops run from the request, the
first one for the value read back after the store of `CALL`. -/
theorem Call_mpi_eq (env : Env FS) (c : String) (w : World FS)
    (hroot : mpi.Root env w = true) (hinit : mpi.IsInitialized env w = true)
    (h1 : w.child = ChildPc.wait) (h2 : w.ack = ACK) (hfit : 1 + strlen c < w.size) :
    Call env c w =
      ((AckLoop env (fun a b => a != b)
          (served env.os (callRequest c w) (env.sched (w.clock + 2))).ack env.fuel
          ((served env.os (callRequest c w) (env.sched (w.clock + 2))).setClock
            (w.clock + 3))).bind fun _ w2 =>
        (AckLoop env (fun a b => a != b) ACK env.fuel w2).bind fun _ w3 =>
          .ret EXIT_SUCCESS w3) := by
  have hinit' : mpi.IsInitialized env { w with trace := w.trace ++ [Event.warning c] } = true :=
    hinit
  have e1 : Memcpy env c { w with trace := w.trace ++ [Event.warning c] } =
      { w with trace := w.trace ++ [Event.warning c], mem := c, clock := w.clock + 1 } := by
    simp only [Memcpy]
    rw [tick_idle env { w with trace := w.trace ++ [Event.warning c] } h1 h2]
    rfl
  have e2 : Write env CALL
        { w with trace := w.trace ++ [Event.warning c], mem := c, clock := w.clock + 1 } =
      (served env.os (callRequest c w) 0).setClock (w.clock + 2) := by
    simp only [Write]
    rw [tick_idle env
      { w with trace := w.trace ++ [Event.warning c], mem := c, clock := w.clock + 1 } h1 h2]
    rfl
  have e3 : tick env ((served env.os (callRequest c w) 0).setClock (w.clock + 2)) =
      (served env.os (callRequest c w) (env.sched (w.clock + 2))).setClock (w.clock + 3) := by
    rw [tick_served env (callRequest c w) h1 rfl, Nat.zero_add]
  simp only [Call, hroot, hinit', hfit, Send, Wait, AckNE, Read, e1, e2, e3]
  simp
  rfl

theorem Call_mpi_cases (env : Env FS) (c : String) (w : World FS)
    (hroot : mpi.Root env w = true) (hinit : mpi.IsInitialized env w = true)
    (h1 : w.child = ChildPc.wait) (h2 : w.ack = ACK) (hfit : 1 + strlen c < w.size) :
    (∃ clk, (env.os.system w.fs c).1 = 0 ∧
      Call env c w = .ret EXIT_SUCCESS
        { w with mem := c, fs := (env.os.system w.fs c).2,
                 trace := w.trace ++ [Event.warning c, Event.system true c 0],
                 clock := clk }) ∨
    (∃ j clk, Call env c w = .spin ((served env.os (callRequest c w) j).setClock clk)) := by
  rw [Call_mpi_eq env c w hroot hinit h1 h2 hfit]
  obtain ⟨j1, clk1, _, h⟩ := AckLoop_served env (fun a b => a != b)
    (served env.os (callRequest c w) (env.sched (w.clock + 2))).ack
    (callRequest c w) h1 rfl env.fuel (env.sched (w.clock + 2)) (w.clock + 3)
  rcases h with h | ⟨_, h⟩
  · rw [h]; exact Or.inr ⟨j1, clk1, rfl⟩
  · rw [h]
    simp only [Out.bind_ret]
    obtain ⟨j2, clk2, _, h'⟩ := AckLoop_served env (fun a b => a != b) ACK
      (callRequest c w) h1 rfl env.fuel j1 clk1
    rcases h' with h' | ⟨hop, h'⟩
    · rw [h']; exact Or.inr ⟨j2, clk2, rfl⟩
    · rw [h']
      simp only [Out.bind_ret]
      have hack : (served env.os (callRequest c w) j2).ack = ACK := by
        simpa using hop
      rcases served_ack env.os (callRequest c w) rfl j2 with ⟨_, hr, hj⟩ | ⟨hc, _⟩
      · refine Or.inl ⟨clk2, hr, ?_⟩
        rw [served_done env.os _ j2 hr hj]
        simp only [Out.ret.injEq, true_and]
        ext <;> simp [h1, h2, callRequest, World.setClock]
      · rw [hc] at hack
        exact absurd hack CALL_ne_ACK

/-- With the child at the head of its loop and the status `ACK`, a loop that polls for `ACK`
returns at its first look. -/
theorem AckLoop_idle_ret (env : Env FS) (xx : Int) (hx : xx = ACK) (n : Nat) (w : World FS)
    (h1 : w.child = ChildPc.wait) (h2 : w.ack = ACK) :
    AckLoop env (fun a b => a != b) xx (n + 1) w = .ret () (w.setClock (w.clock + 1)) := by
  subst hx
  simp only [AckLoop]
  rw [tick_idle env w h1 h2]
  have ha : ((w.setClock (w.clock + 1)).ack != ACK) = false := by
    show (w.ack != ACK) = false
    rw [h2]
    simp
  simp [ha]

theorem Call_mpi_ok (env : Env FS) (c : String) (w : World FS)
    (hroot : mpi.Root env w = true) (hinit : mpi.IsInitialized env w = true)
    (h1 : w.child = ChildPc.wait) (h2 : w.ack = ACK) (hfit : 1 + strlen c < w.size)
    (hr : (env.os.system w.fs c).1 = 0)
    (hs : ∀ n, 1 ≤ env.sched n ∧ (env.sched n + env.sched (n + 1) ≤ 4 ∨ 5 ≤ env.sched n))
    (hf : 5 ≤ env.fuel) :
    ∃ clk, Call env c w = .ret EXIT_SUCCESS
        { w with mem := c, fs := (env.os.system w.fs c).2,
                 trace := w.trace ++ [Event.warning c, Event.system true c 0],
                 clock := clk } := by
  rcases Call_mpi_cases env c w hroot hinit h1 h2 hfit with ⟨clk, _, h⟩ | ⟨j, clk, h⟩
  · exact ⟨clk, h⟩
  · exfalso
    rw [Call_mpi_eq env c w hroot hinit h1 h2 hfit] at h
    have hs2 : 1 ≤ env.sched (w.clock + 2) ∧
        (env.sched (w.clock + 2) + env.sched (w.clock + 3) ≤ 4 ∨
          5 ≤ env.sched (w.clock + 2)) := hs (w.clock + 2)
    have hs3 := (hs (w.clock + 3)).1
    rcases hs2.2 with hle | hge
    · have hback : (served env.os (callRequest c w) (env.sched (w.clock + 2))).ack = CALL := by
        rcases served_ack env.os (callRequest c w) rfl (env.sched (w.clock + 2)) with
          ⟨_, _, h5⟩ | ⟨hc, _⟩
        · omega
        · exact hc
      rw [hback, AckLoop_send_progress env (callRequest c w) h1 rfl env.fuel
        (env.sched (w.clock + 2)) (w.clock + 3) (by omega) (by omega)] at h
      simp only [Out.bind_ret] at h
      obtain ⟨j', clk', _, hw⟩ := AckLoop_wait_progress env (callRequest c w) h1 rfl hr
        (fun n => (hs n).1) env.fuel (env.sched (w.clock + 2) + env.sched (w.clock + 3))
        (w.clock + 3 + 1) (by omega) (by omega)
      rw [hw] at h
      simp at h
    · obtain ⟨k, hk⟩ : ∃ k, env.fuel = k + 1 := ⟨env.fuel - 1, by omega⟩
      rw [served_done env.os (callRequest c w) _ hr hge, hk,
        AckLoop_idle_ret env _ rfl k _ rfl rfl] at h
      simp only [Out.bind_ret] at h
      rw [AckLoop_idle_ret env ACK rfl k _ rfl rfl] at h
      simp at h

theorem Call_spec (env : Env FS) (c : String) (w : World FS) (hroot : mpi.Root env w = true)
    (hidle : Idle env w) :
    (∃ v, Call env c w = .ret (env.os.system w.fs c).1 v ∧ CallDone env c w v) ∨
    ((Call env c w).isRet = false ∧ CallStuck env c w (Call env c w).world) := by
  by_cases hinit : mpi.IsInitialized env w = true
  · obtain ⟨h1, h2⟩ := hidle hinit
    by_cases hfit : 1 + strlen c < w.size
    · rcases Call_mpi_cases env c w hroot hinit h1 h2 hfit with ⟨clk, hr, h⟩ | ⟨j, clk, h⟩
      · rw [h]
        refine Or.inl ⟨_, by rw [hr]; rfl, ?_⟩
        simp [CallDone, hinit, hr]
      · refine Or.inr ?_
        rw [h]
        refine ⟨rfl, hinit, ?_⟩
        obtain ⟨f1, f2, f3, f4, _, _, f7⟩ := served_frame env.os (callRequest c w) j
        refine ⟨f1, f4, f3, f2, ?_⟩
        rcases f7 with ⟨a, b⟩ | ⟨a, b⟩
        · exact Or.inl ⟨a, b⟩
        · refine Or.inr ⟨a, ?_⟩
          show (served env.os (callRequest c w) j).trace = _
          rw [b]
          simp [callRequest]
    · rw [Call_too_long env c w hroot hinit hfit]
      exact Or.inr ⟨rfl, hinit, rfl, rfl, rfl, rfl, Or.inl ⟨rfl, rfl⟩⟩
  · have hinit' : mpi.IsInitialized env w = false := by simpa using hinit
    rw [Call_serial env c w hinit']
    exact Or.inl ⟨_, rfl, by simp [CallDone, hinit']⟩

theorem Root_congr (env : Env FS) (w v : World FS) (h : v.mpiInitialized = w.mpiInitialized) :
    mpi.Root env v = mpi.Root env w := by
  simp [mpi.Root, mpi.Rank, h]

theorem IsInitialized_congr (env : Env FS) (w v : World FS)
    (h : v.mpiInitialized = w.mpiInitialized) :
    mpi.IsInitialized env v = mpi.IsInitialized env w := by
  simp [mpi.IsInitialized, h]

/-- When every precondition of a served request holds, `Call` returns `EXIT_SUCCESS`. -/
theorem Call_ok (env : Env FS) (c : String) (w : World FS) (hroot : mpi.Root env w = true)
    (hr : (env.os.system w.fs c).1 = 0)
    (hmpi : mpi.IsInitialized env w = true →
      w.child = ChildPc.wait ∧ w.ack = ACK ∧ 1 + strlen c < w.size ∧
      (∀ n, 1 ≤ env.sched n ∧ (env.sched n + env.sched (n + 1) ≤ 4 ∨ 5 ≤ env.sched n)) ∧ 5 ≤ env.fuel) :
    ∃ v, Call env c w = .ret EXIT_SUCCESS v ∧ CallDone env c w v := by
  by_cases hinit : mpi.IsInitialized env w = true
  · obtain ⟨h1, h2, hfit, hs, hf⟩ := hmpi hinit
    obtain ⟨clk, h⟩ := Call_mpi_ok env c w hroot hinit h1 h2 hfit hr hs hf
    exact ⟨_, h, by simp [CallDone, hinit, hr]⟩
  · have hinit' : mpi.IsInitialized env w = false := by simpa using hinit
    rw [Call_serial env c w hinit', hr]
    exact ⟨_, rfl, by simp [CallDone, hinit', hr]⟩

/-! ## The command builder -/

theorem pushAll_eq (toks : List String) (w : World FS) :
    Command.pushAll toks w =
      { w with command := toks.foldl (fun acc t => acc ++ t ++ " ") w.command } := by
  induction toks generalizing w with
  | nil => rfl
  | cons t ts ih =>
    simp only [Command.pushAll, List.foldl_cons] at ih ⊢
    rw [ih]
    rfl

theorem CallCommand_pushAll (env : Env FS) (toks : List String) (w : World FS)
    (hc : w.command = "") :
    CallCommand env (Command.pushAll toks w) = Call env (commandText toks) w := by
  obtain ⟨fs, ack, mem, size, command, child, mpi, clock, syncs, trace⟩ := w
  simp only at hc
  subst hc
  rw [pushAll_eq]
  rfl

/-! ## Observations on traces -/

theorem issued_append (a b : List Event) : issued (a ++ b) = issued a ++ issued b := by
  induction a with
  | nil => rfl
  | cons e a ih => cases e <;> simp [issued, ih]

theorem ranHere_append (a b : List Event) : ranHere (a ++ b) = ranHere a ++ ranHere b := by
  induction a with
  | nil => rfl
  | cons e a ih =>
    cases e with
    | system byChild c st => cases byChild <;> simp [ranHere, ih]
    | _ => simp [ranHere, ih]

theorem ranByChild_append (a b : List Event) :
    ranByChild (a ++ b) = ranByChild a ++ ranByChild b := by
  induction a with
  | nil => rfl
  | cons e a ih =>
    cases e with
    | system byChild c st => cases byChild <;> simp [ranByChild, ih]
    | _ => simp [ranByChild, ih]

theorem written_append (a b : List Event) : written (a ++ b) = written a ++ written b := by
  induction a with
  | nil => rfl
  | cons e a ih => cases e <;> simp [written, ih]

theorem opened_append (a b : List Event) : opened (a ++ b) = opened a ++ opened b := by
  induction a with
  | nil => rfl
  | cons e a ih => cases e <;> simp [opened, ih]

/-! ## Call: what a caller may rely on -/

theorem Idle_congr (env : Env FS) (w v : World FS) (h : Idle env w)
    (e1 : v.mpiInitialized = w.mpiInitialized) (e2 : v.child = w.child) (e3 : v.ack = w.ack) :
    Idle env v := by
  intro hi
  rw [IsInitialized_congr env w v e1] at hi
  exact ⟨e2.trans (h hi).1, e3.trans (h hi).2⟩

theorem Call_ret_zero (env : Env FS) (c : String) (w u : World FS)
    (hroot : mpi.Root env w = true) (hidle : Idle env w) (h : Call env c w = .ret 0 u) :
    CallDone env c w u ∧ (env.os.system w.fs c).1 = 0 := by
  rcases Call_spec env c w hroot hidle with ⟨v, hv, hd⟩ | ⟨hn, _⟩
  · rw [hv] at h
    simp only [Out.ret.injEq] at h
    obtain ⟨h0, rfl⟩ := h
    exact ⟨hd, h0⟩
  · rw [h] at hn
    simp [Out.isRet] at hn

theorem Call_halt (env : Env FS) (c : String) (w : World FS)
    (hroot : mpi.Root env w = true) (hidle : Idle env w) :
    issued (Call env c w).world.trace = issued w.trace ++ [c] ∧
    ((Call env c w).world.fs = w.fs ∨ (Call env c w).world.fs = (env.os.system w.fs c).2) := by
  rcases Call_spec env c w hroot hidle with ⟨v, hv, hd⟩ | ⟨_, hs⟩
  · rw [hv]
    obtain ⟨f, t, -⟩ := hd
    simp only [Out.world]
    exact ⟨by rw [t, issued_append]; simp [issued], Or.inr f⟩
  · obtain ⟨-, -, -, -, -, h⟩ := hs
    rcases h with ⟨f, t⟩ | ⟨f, t⟩
    · exact ⟨by rw [t, issued_append]; simp [issued], Or.inl f⟩
    · exact ⟨by rw [t, issued_append]; simp [issued], Or.inr f⟩

theorem guard_halt {σ : Type} (o : Out σ Int) (g : σ → Out σ Int) (h : ∀ u, o ≠ .ret 0 u) :
    (o.bind fun s v => if s != 0 then .ret EXIT_FAILURE v else g v).world = o.world := by
  cases o with
  | ret s u =>
    have hs : s ≠ 0 := fun e => h u (by rw [e])
    simp [Out.bind, hs, Out.world]
  | fatal m u => rfl
  | spin u => rfl

/-! ## RootCompile -/

theorem RootCompile_ok (env : Env FS) (hash : Nat) (source symbol : String)
    (w : World FS) (fs1 : FS)
    (hroot : mpi.Root env w = true) (hcmd : w.command = "")
    (hsrc : env.os.ofstream w.fs (env.ToString hash ".cc") source = some fs1)
    (hok : ∀ fs c, c ∈ rootCommands env hash symbol → (env.os.system fs c).1 = 0)
    (hmpi : mpi.IsInitialized env w = true →
      w.child = ChildPc.wait ∧ w.ack = ACK ∧
      (∀ c, c ∈ rootCommands env hash symbol → 1 + strlen c < w.size) ∧
      (∀ n, 1 ≤ env.sched n ∧ (env.sched n + env.sched (n + 1) ≤ 4 ∨ 5 ≤ env.sched n)) ∧ 5 ≤ env.fuel) :
    ∃ v, RootCompile env hash source symbol w = .ret EXIT_SUCCESS v ∧
      v.trace = w.trace ++
        [Event.ofstream (env.ToString hash ".cc") source,
         Event.warning (commandText (compileTokens env hash)),
         Event.system (mpi.IsInitialized env w) (commandText (compileTokens env hash)) 0,
         Event.remove (env.ToString hash ".cc"),
         Event.warning (commandText (archiveTokens env hash)),
         Event.system (mpi.IsInitialized env w) (commandText (archiveTokens env hash)) 0,
         Event.remove (env.ToString hash ".co"),
         Event.warning (commandText (linkTokens env.cfg symbol)),
         Event.system (mpi.IsInitialized env w) (commandText (linkTokens env.cfg symbol)) 0,
         Event.warning (commandText (installTokens env.cfg symbol)),
         Event.system (mpi.IsInitialized env w) (commandText (installTokens env.cfg symbol)) 0] ∧
      v.mpiInitialized = w.mpiInitialized ∧ v.command = "" ∧ v.child = w.child ∧
      v.ack = w.ack ∧ v.syncs = w.syncs ∧ v.size = w.size := by
  have m1 : commandText (compileTokens env hash) ∈ rootCommands env hash symbol := by
    simp [rootCommands]
  have m2 : commandText (archiveTokens env hash) ∈ rootCommands env hash symbol := by
    simp [rootCommands]
  have m3 : commandText (linkTokens env.cfg symbol) ∈ rootCommands env hash symbol := by
    simp [rootCommands]
  have m4 : commandText (installTokens env.cfg symbol) ∈ rootCommands env hash symbol := by
    simp [rootCommands]
  -- the preconditions of a call travel along states that agree on the singleton
  have pre : ∀ (v : World FS) (c : String), c ∈ rootCommands env hash symbol →
      v.mpiInitialized = w.mpiInitialized → v.child = w.child → v.ack = w.ack →
      v.size = w.size →
      ∃ u, Call env c v = .ret 0 u ∧
        u.trace = v.trace ++ [Event.warning c, Event.system (mpi.IsInitialized env w) c 0] ∧
        u.mpiInitialized = w.mpiInitialized ∧ u.command = v.command ∧ u.child = w.child ∧
        u.ack = w.ack ∧ u.syncs = v.syncs ∧ u.size = w.size := by
    intro v c hc e1 e2 e3 e4
    obtain ⟨u, hu, -, t, i, k, z, y, p, a, -⟩ :=
      Call_ok env c v ((Root_congr env w v e1).trans hroot) (hok _ c hc) (by
        intro hi
        rw [IsInitialized_congr env w v e1] at hi
        obtain ⟨a, b, d, e, f⟩ := hmpi hi
        exact ⟨e2.trans a, e3.trans b, by rw [e4]; exact d c hc, e, f⟩)
    refine ⟨u, hu, ?_, i.trans e1, k, p.trans e2, a.trans e3, y, z.trans e4⟩
    rw [t, IsInitialized_congr env w v e1, hok _ c hc]
  unfold RootCompile
  rw [hsrc]
  simp only []
  rw [CallCommand_pushAll env (compileTokens env hash)
    { w with fs := fs1, trace := w.trace ++ [Event.ofstream (env.ToString hash ".cc") source] }
    hcmd]
  obtain ⟨v1, c1, t1, i1, k1, p1, a1, y1, z1⟩ := pre
    { w with fs := fs1, trace := w.trace ++ [Event.ofstream (env.ToString hash ".cc") source] }
    _ m1 rfl rfl rfl rfl
  rw [c1]
  simp only [Out.bind_ret, bne_self_eq_false, Bool.false_eq_true, if_false]
  rw [CallCommand_pushAll env (archiveTokens env hash)
    (stdRemove env (env.ToString hash ".cc") v1) (k1.trans hcmd)]
  obtain ⟨v2, c2, t2, i2, k2, p2, a2, y2, z2⟩ :=
    pre (stdRemove env (env.ToString hash ".cc") v1) _ m2 i1 p1 a1 z1
  rw [c2]
  simp only [Out.bind_ret, bne_self_eq_false, Bool.false_eq_true, if_false]
  rw [CallCommand_pushAll env (linkTokens env.cfg symbol)
    (stdRemove env (env.ToString hash ".co") v2) (k2.trans (k1.trans hcmd))]
  obtain ⟨v3, c3, t3, i3, k3, p3, a3, y3, z3⟩ :=
    pre (stdRemove env (env.ToString hash ".co") v2) _ m3 i2 p2 a2 z2
  rw [c3]
  simp only [Out.bind_ret, bne_self_eq_false, Bool.false_eq_true, if_false]
  rw [CallCommand_pushAll env (installTokens env.cfg symbol) v3
    (k3.trans (k2.trans (k1.trans hcmd)))]
  obtain ⟨v4, c4, t4, i4, k4, p4, a4, y4, z4⟩ := pre v3 _ m4 i3 p3 a3 z3
  rw [c4]
  simp only [Out.bind_ret, bne_self_eq_false, Bool.false_eq_true, if_false]
  refine ⟨v4, rfl, ?_, i4, k4.trans (k3.trans (k2.trans (k1.trans hcmd))), p4, a4,
    y4.trans (y3.trans (y2.trans y1)), z4⟩
  simp only [stdRemove] at t2 t3
  rw [t4, t3, t2, t1]
  simp

/-- Every run of `RootCompile`, returning or not: the commands issued are the first `k` of
the four; each but the last issued one ran with status 0; and while the installation was not
issued, the file system only saw the source file written, the two intermediate files removed
and the first three commands run. -/
theorem RootCompile_shape (env : Env FS) (hash : Nat) (source symbol : String) (w : World FS)
    (P : FS → Prop) (hroot : mpi.Root env w = true) (hidle : Idle env w)
    (hcmd : w.command = "")
    (hP1 : ∀ fs fs', env.os.ofstream fs (env.ToString hash ".cc") source = some fs' → P fs → P fs')
    (hP2 : ∀ fs p, p = env.ToString hash ".cc" ∨ p = env.ToString hash ".co" →
      P fs → P (env.os.remove fs p))
    (hP3 : ∀ fs c, c ∈ (rootCommands env hash symbol).take 3 → P fs → P (env.os.system fs c).2) :
    ∃ k, k ≤ 4 ∧
      issued (RootCompile env hash source symbol w).world.trace =
        issued w.trace ++ (rootCommands env hash symbol).take k ∧
      (∀ i, i + 1 < k → ∃ fs, (env.os.system fs ((rootCommands env hash symbol).getD i "")).1 = 0) ∧
      (k ≤ 3 → P w.fs → P (RootCompile env hash source symbol w).world.fs) := by
  have g0 : (rootCommands env hash symbol).getD 0 "" = commandText (compileTokens env hash) := by
    simp [rootCommands]
  have g1 : (rootCommands env hash symbol).getD 1 "" = commandText (archiveTokens env hash) := by
    simp [rootCommands]
  have g2 : (rootCommands env hash symbol).getD 2 "" =
      commandText (linkTokens env.cfg symbol) := by
    simp [rootCommands]
  unfold RootCompile
  cases hsrc : env.os.ofstream w.fs (env.ToString hash ".cc") source with
  | none =>
    refine ⟨0, by omega, ?_, fun i hi => by omega, fun _ h => h⟩
    simp [Out.world]
  | some fs1 =>
    simp only []
    have r0 : mpi.Root env { w with fs := fs1, trace := w.trace ++
        [Event.ofstream (env.ToString hash ".cc") source] } = true := hroot
    have d0 : Idle env { w with fs := fs1, trace := w.trace ++
        [Event.ofstream (env.ToString hash ".cc") source] } := hidle
    rw [CallCommand_pushAll env (compileTokens env hash)
      { w with fs := fs1, trace := w.trace ++ [Event.ofstream (env.ToString hash ".cc") source] }
      hcmd]
    by_cases h1 : ∃ u, Call env (commandText (compileTokens env hash))
        { w with fs := fs1, trace := w.trace ++
          [Event.ofstream (env.ToString hash ".cc") source] } = .ret 0 u
    swap
    · -- the compilation did not return 0
      rw [guard_halt _ _ (fun u hu => h1 ⟨u, hu⟩)]
      obtain ⟨ht, hf⟩ := Call_halt env (commandText (compileTokens env hash)) _ r0 d0
      refine ⟨1, by omega, ?_, fun i hi => by omega, fun _ hp => ?_⟩
      · rw [ht, issued_append]; simp [issued, rootCommands]
      · rcases hf with hf | hf <;> rw [hf]
        · exact hP1 _ _ hsrc hp
        · exact hP3 _ _ (by simp [rootCommands]) (hP1 _ _ hsrc hp)
    obtain ⟨v1, c1⟩ := h1
    obtain ⟨⟨f1, t1, i1, k1, -, -, p1, a1, -⟩, s1⟩ := Call_ret_zero env _ _ v1 r0 d0 c1
    rw [c1]
    simp only [Out.bind_ret, bne_self_eq_false, Bool.false_eq_true, if_false]
    have r1 : mpi.Root env (stdRemove env (env.ToString hash ".cc") v1) = true :=
      (Root_congr env w _ i1).trans hroot
    have d1 : Idle env (stdRemove env (env.ToString hash ".cc") v1) :=
      Idle_congr env w _ hidle i1 p1 a1
    rw [CallCommand_pushAll env (archiveTokens env hash)
      (stdRemove env (env.ToString hash ".cc") v1) (k1.trans hcmd)]
    have q1 : P w.fs → P (stdRemove env (env.ToString hash ".cc") v1).fs := by
      intro hp
      show P (env.os.remove v1.fs _)
      rw [f1]
      exact hP2 _ _ (Or.inl rfl) (hP3 _ _ (by simp [rootCommands]) (hP1 _ _ hsrc hp))
    have u1 : issued (stdRemove env (env.ToString hash ".cc") v1).trace =
        issued w.trace ++ (rootCommands env hash symbol).take 1 := by
      show issued (v1.trace ++ _) = _
      rw [t1]
      simp [issued_append, issued, rootCommands]
    by_cases h2 : ∃ u, Call env (commandText (archiveTokens env hash))
        (stdRemove env (env.ToString hash ".cc") v1) = .ret 0 u
    swap
    · -- the archive update did not return 0
      rw [guard_halt _ _ (fun u hu => h2 ⟨u, hu⟩)]
      obtain ⟨ht, hf⟩ := Call_halt env (commandText (archiveTokens env hash)) _ r1 d1
      refine ⟨2, by omega, ?_, fun i hi => ?_, fun _ hp => ?_⟩
      · rw [ht, u1]; simp [rootCommands]
      · obtain rfl : i = 0 := by omega
        rw [g0]; exact ⟨_, s1⟩
      · rcases hf with hf | hf <;> rw [hf]
        · exact q1 hp
        · exact hP3 _ _ (by simp [rootCommands]) (q1 hp)
    obtain ⟨v2, c2⟩ := h2
    obtain ⟨⟨f2, t2, i2, k2, -, -, p2, a2, -⟩, s2⟩ := Call_ret_zero env _ _ v2 r1 d1 c2
    rw [c2]
    simp only [Out.bind_ret, bne_self_eq_false, Bool.false_eq_true, if_false]
    have r2 : mpi.Root env (stdRemove env (env.ToString hash ".co") v2) = true :=
      (Root_congr env _ _ i2).trans r1
    have d2 : Idle env (stdRemove env (env.ToString hash ".co") v2) :=
      Idle_congr env _ _ d1 i2 p2 a2
    rw [CallCommand_pushAll env (linkTokens env.cfg symbol)
      (stdRemove env (env.ToString hash ".co") v2) (k2.trans (k1.trans hcmd))]
    have q2 : P w.fs → P (stdRemove env (env.ToString hash ".co") v2).fs := by
      intro hp
      show P (env.os.remove v2.fs _)
      rw [f2]
      exact hP2 _ _ (Or.inr rfl) (hP3 _ _ (by simp [rootCommands]) (q1 hp))
    have u2 : issued (stdRemove env (env.ToString hash ".co") v2).trace =
        issued w.trace ++ (rootCommands env hash symbol).take 2 := by
      show issued (v2.trace ++ _) = _
      rw [t2, issued_append, issued_append, u1]
      simp [issued, rootCommands]
    by_cases h3 : ∃ u, Call env (commandText (linkTokens env.cfg symbol))
        (stdRemove env (env.ToString hash ".co") v2) = .ret 0 u
    swap
    · -- the link of the temporary shared library did not return 0
      rw [guard_halt _ _ (fun u hu => h3 ⟨u, hu⟩)]
      obtain ⟨ht, hf⟩ := Call_halt env (commandText (linkTokens env.cfg symbol)) _ r2 d2
      refine ⟨3, by omega, ?_, fun i hi => ?_, fun _ hp => ?_⟩
      · rw [ht, u2]; simp [rootCommands]
      · have hi' : i = 0 ∨ i = 1 := by omega
        rcases hi' with rfl | rfl
        · rw [g0]; exact ⟨_, s1⟩
        · rw [g1]; exact ⟨_, s2⟩
      · rcases hf with hf | hf <;> rw [hf]
        · exact q2 hp
        · exact hP3 _ _ (by simp [rootCommands]) (q2 hp)
    obtain ⟨v3, c3⟩ := h3
    obtain ⟨⟨f3, t3, i3, k3, -, -, p3, a3, -⟩, s3⟩ := Call_ret_zero env _ _ v3 r2 d2 c3
    rw [c3]
    simp only [Out.bind_ret, bne_self_eq_false, Bool.false_eq_true, if_false]
    have r3 : mpi.Root env v3 = true := (Root_congr env _ _ i3).trans r2
    have d3 : Idle env v3 := Idle_congr env _ _ d2 i3 p3 a3
    rw [CallCommand_pushAll env (installTokens env.cfg symbol) v3
      (k3.trans (k2.trans (k1.trans hcmd)))]
    have u3 : issued v3.trace = issued w.trace ++ (rootCommands env hash symbol).take 3 := by
      rw [t3, issued_append, u2]
      simp [issued, rootCommands]
    have hw4 : issued ((Call env (commandText (installTokens env.cfg symbol)) v3).bind
        fun s v => if s != 0 then Out.ret EXIT_FAILURE v else Out.ret EXIT_SUCCESS v).world.trace =
        issued w.trace ++ (rootCommands env hash symbol).take 4 := by
      have hsame : ((Call env (commandText (installTokens env.cfg symbol)) v3).bind
          fun s v => if s != 0 then Out.ret EXIT_FAILURE v else Out.ret EXIT_SUCCESS v).world =
          (Call env (commandText (installTokens env.cfg symbol)) v3).world := by
        cases Call env (commandText (installTokens env.cfg symbol)) v3 with
        | ret s u => by_cases hs : s = 0 <;> simp [Out.bind, hs, Out.world]
        | fatal m u => rfl
        | spin u => rfl
      rw [hsame, (Call_halt env _ v3 r3 d3).1, u3]
      simp [rootCommands]
    refine ⟨4, by omega, hw4, fun i hi => ?_, fun h => by omega⟩
    have hi' : i = 0 ∨ i = 1 ∨ i = 2 := by omega
    rcases hi' with rfl | rfl | rfl
    · rw [g0]; exact ⟨_, s1⟩
    · rw [g1]; exact ⟨_, s2⟩
    · rw [g2]; exact ⟨_, s3⟩

/-! ## Frames: what a piece of code may add to the trace -/

theorem Ext.refl (A : Event → Prop) (w : World FS) : Ext A w w :=
  ⟨rfl, [], by simp, by simp⟩

theorem Ext.trans {A : Event → Prop} {u v w : World FS} (h1 : Ext A u v) (h2 : Ext A v w) :
    Ext A u w := by
  obtain ⟨a1, n1, t1, p1⟩ := h1
  obtain ⟨a2, n2, t2, p2⟩ := h2
  refine ⟨a2.trans a1, n1 ++ n2, by rw [t2, t1, List.append_assoc], ?_⟩
  intro e he
  rcases List.mem_append.mp he with h | h
  · exact p1 e h
  · exact p2 e h

theorem Ext.mono {A B : Event → Prop} {w v : World FS} (h : Ext A w v) (hAB : ∀ e, A e → B e) :
    Ext B w v := by
  obtain ⟨a, n, t, p⟩ := h
  exact ⟨a, n, t, fun e he => hAB e (p e he)⟩

theorem Ext.of_eq {A : Event → Prop} {w v : World FS} (l : List Event)
    (h1 : v.mpiInitialized = w.mpiInitialized) (h2 : v.trace = w.trace ++ l)
    (h3 : ∀ e ∈ l, A e) : Ext A w v :=
  ⟨h1, l, h2, h3⟩

theorem Ext.same {A : Event → Prop} {w v : World FS}
    (h1 : v.mpiInitialized = w.mpiInitialized) (h2 : v.trace = w.trace) : Ext A w v :=
  ⟨h1, [], by simp [h2], by simp⟩

theorem Ext_bind {A : Event → Prop} {α β : Type} {w : World FS} (o : Out (World FS) α)
    (f : α → World FS → Out (World FS) β) (h1 : Ext A w o.world)
    (h2 : ∀ a v, o = .ret a v → Ext A v (f a v).world) : Ext A w (o.bind f).world := by
  cases o with
  | ret a v => exact h1.trans (h2 a v rfl)
  | fatal m v => exact h1
  | spin v => exact h1

theorem childStep_ext (os : OS FS) (w : World FS) : Ext ChildEvent w (childStep os w) := by
  obtain ⟨fs, ack, mem, size, command, child, mpi, clock, syncs, trace⟩ := w
  cases child <;> simp only [childStep] <;> (try split) <;>
    first
    | exact Ext.same rfl rfl
    | exact Ext.of_eq [_] rfl rfl (by simp [ChildEvent])

theorem childRun_ext (os : OS FS) (n : Nat) (w : World FS) :
    Ext ChildEvent w (childRun os n w) := by
  induction n generalizing w with
  | zero => exact Ext.refl _ _
  | succ n ih => exact (childStep_ext os w).trans (ih _)

theorem tick_ext (env : Env FS) (w : World FS) : Ext ChildEvent w (tick env w) :=
  (childRun_ext env.os _ w).trans (Ext.same rfl rfl)

theorem AckLoop_ext (env : Env FS) (op : Int → Int → Bool) (xx : Int) (n : Nat) (w : World FS) :
    Ext ChildEvent w (AckLoop env op xx n w).world := by
  induction n generalizing w with
  | zero => exact Ext.refl _ _
  | succ n ih =>
    simp only [AckLoop]
    split
    · exact (tick_ext env w).trans (ih _)
    · exact tick_ext env w

theorem Write_ext (env : Env FS) (xx : Int) (w : World FS) : Ext ChildEvent w (Write env xx w) :=
  (tick_ext env w).trans (Ext.same rfl rfl)

theorem Memcpy_ext (env : Env FS) (c : String) (w : World FS) :
    Ext ChildEvent w (Memcpy env c w) :=
  (tick_ext env w).trans (Ext.same rfl rfl)

theorem Send_ext (env : Env FS) (xx : Int) (w : World FS) :
    Ext ChildEvent w (Send env xx w).world :=
  ((Write_ext env xx w).trans (tick_ext env _)).trans (AckLoop_ext env _ _ env.fuel _)

theorem Wait_ext (env : Env FS) (EQ : Bool) (w : World FS) :
    Ext ChildEvent w (Wait env EQ w).world := by
  cases EQ
  · exact AckLoop_ext env _ ACK env.fuel w
  · exact AckLoop_ext env _ ACK env.fuel w

theorem ChildEvent_call (b : Bool) (hb : b = true) (e : Event) (h : ChildEvent e) :
    CallEvent b e := by
  obtain ⟨c, st, rfl⟩ := h
  exact Or.inr ⟨c, st, by rw [hb]⟩

theorem Call_ext (env : Env FS) (c : String) (w : World FS) :
    Ext (CallEvent (mpi.IsInitialized env w)) w (Call env c w).world := by
  by_cases hroot : mpi.Root env w = true
  swap
  · rw [Call_not_root env c w (by simpa using hroot)]
    exact Ext.refl _ _
  by_cases hinit : mpi.IsInitialized env w = true
  swap
  · have hinit' : mpi.IsInitialized env w = false := by simpa using hinit
    rw [Call_serial env c w hinit', hinit']
    exact Ext.of_eq [_, _] rfl rfl (by simp [CallEvent])
  by_cases hfit : 1 + strlen c < w.size
  swap
  · rw [Call_too_long env c w hroot hinit hfit]
    exact Ext.of_eq [_] rfl rfl (by simp [CallEvent])
  have hinit' : mpi.IsInitialized env { w with trace := w.trace ++ [Event.warning c] } = true :=
    hinit
  have h0 : Ext (CallEvent (mpi.IsInitialized env w)) w
      { w with trace := w.trace ++ [Event.warning c] } :=
    Ext.of_eq [_] rfl rfl (by simp [CallEvent])
  simp only [Call, hroot, hinit', hfit, Bool.not_true, Bool.false_eq_true, if_false,
    decide_True]
  refine h0.trans (Ext.mono ?_ (ChildEvent_call _ hinit))
  refine Ext_bind _ _ ((Memcpy_ext env c _).trans (Send_ext env CALL _)) ?_
  intro _ v _
  refine Ext_bind _ _ (Wait_ext env false v) ?_
  intro _ u _
  exact Ext.refl _ _

theorem CallCommand_ext (env : Env FS) (w : World FS) :
    Ext (CallEvent (mpi.IsInitialized env w)) w (CallCommand env w).world :=
  (Ext.same rfl rfl : Ext _ w { w with command := "" }).trans (Call_ext env w.command _)

theorem pushAll_ext (A : Event → Prop) (toks : List String) (w : World FS) :
    Ext A w (Command.pushAll toks w) := by
  rw [pushAll_eq]
  exact Ext.same rfl rfl

theorem Ext_bind_of {A : Event → Prop} {α β : Type} {w : World FS} (o : Out (World FS) α)
    (f : α → World FS → Out (World FS) β) (h1 : Ext A w o.world)
    (h2 : ∀ a v, Ext A w v → Ext A v (f a v).world) : Ext A w (o.bind f).world := by
  cases o with
  | ret a v => exact h1.trans (h2 a v h1)
  | fatal m v => exact h1
  | spin v => exact h1

theorem Ext.isInitialized {A : Event → Prop} {w v : World FS} (env : Env FS) (h : Ext A w v) :
    mpi.IsInitialized env v = mpi.IsInitialized env w :=
  IsInitialized_congr env w v h.1

theorem Ext.root {A : Event → Prop} {w v : World FS} (env : Env FS) (h : Ext A w v) :
    mpi.Root env v = mpi.Root env w :=
  Root_congr env w v h.1

theorem stdRemove_ext (env : Env FS) (b : Bool) (p : String) (w : World FS) :
    Ext (BuildEvent b) w (stdRemove env p w) :=
  Ext.of_eq [_] rfl rfl (by simp [BuildEvent])

theorem CallCommand_build (env : Env FS) (b : Bool) (toks : List String) (v : World FS)
    (hb : mpi.IsInitialized env v = b) :
    Ext (BuildEvent b) v (CallCommand env (Command.pushAll toks v)).world := by
  refine (pushAll_ext _ toks v).trans ?_
  have h := CallCommand_ext env (Command.pushAll toks v)
  rw [(pushAll_ext (fun _ => True) toks v).isInitialized env, hb] at h
  exact h.mono (fun e he => Or.inl he)

theorem RootCompile_ext (env : Env FS) (hash : Nat) (source symbol : String) (w : World FS) :
    Ext (BuildEvent (mpi.IsInitialized env w)) w (RootCompile env hash source symbol w).world := by
  unfold RootCompile
  cases env.os.ofstream w.fs (env.ToString hash ".cc") source with
  | none => exact Ext.refl _ _
  | some fs1 =>
    simp only []
    have h0 : Ext (BuildEvent (mpi.IsInitialized env w)) w
        { w with fs := fs1, trace := w.trace ++
          [Event.ofstream (env.ToString hash ".cc") source] } :=
      Ext.of_eq [_] rfl rfl (by simp [BuildEvent])
    refine h0.trans ?_
    refine Ext_bind_of _ _ (CallCommand_build env _ _ _ rfl) ?_
    intro s1 v1 e1
    split
    · exact Ext.refl _ _
    refine Ext_bind_of _ _ ((stdRemove_ext env _ _ v1).trans
      (CallCommand_build env _ _ _ (e1.isInitialized env))) ?_
    intro s2 v2 e2
    split
    · exact Ext.refl _ _
    refine Ext_bind_of _ _ ((stdRemove_ext env _ _ v2).trans
      (CallCommand_build env _ _ _ ((e1.trans e2).isInitialized env))) ?_
    intro s3 v3 e3
    split
    · exact Ext.refl _ _
    refine Ext_bind_of _ _
      (CallCommand_build env _ _ _ (((e1.trans e2).trans e3).isInitialized env)) ?_
    intro s4 v4 e4
    split <;> exact Ext.refl _ _

theorem Sync_mpi (env : Env FS) (status : Int) (w : World FS)
    (h : mpi.IsInitialized env w = true) :
    mpi.Sync env status w =
      if MPI_Allreduce_LOR status (env.peers w.syncs) = EXIT_SUCCESS then
        .ret () { w with fs := env.interfere w.syncs w.fs, syncs := w.syncs + 1,
                         trace := w.trace ++ [Event.allreduce status] }
      else
        .fatal "[JIT] Synchronization error!"
          { w with fs := env.interfere w.syncs w.fs, syncs := w.syncs + 1,
                   trace := w.trace ++ [Event.allreduce status] } := by
  have h' : (env.cfg.MFEM_USE_MPI && w.mpiInitialized) = true := by
    simp only [mpi.IsInitialized] at h
    by_cases hm : env.cfg.MFEM_USE_MPI = true
    · simp [hm] at h; simp [hm, h]
    · simp [hm] at h
  simp [mpi.Sync, h']

theorem Sync_serial (env : Env FS) (status : Int) (w : World FS)
    (h : mpi.IsInitialized env w = false) :
    mpi.Sync env status w =
      if status = EXIT_SUCCESS then .ret () w
      else .fatal "[JIT] Synchronization error!" w := by
  have h' : (env.cfg.MFEM_USE_MPI && w.mpiInitialized) = false := by
    simp only [mpi.IsInitialized] at h
    by_cases hm : env.cfg.MFEM_USE_MPI = true
    · simp [hm] at h; simp [hm, h]
    · simp [hm]
  simp [mpi.Sync, h']

theorem Sync_ext (env : Env FS) (b : Bool) (status : Int) (w : World FS) :
    Ext (LookupEvent b) w (mpi.Sync env status w).world := by
  by_cases h : mpi.IsInitialized env w = true
  · rw [Sync_mpi env status w h]
    split <;> exact Ext.of_eq [_] rfl rfl (by simp [LookupEvent])
  · rw [Sync_serial env status w (by simpa using h)]
    split <;> exact Ext.refl _ _

theorem DLopen_ext (env : Env FS) (b : Bool) (p : String) (w : World FS) :
    Ext (LookupEvent b) w (DLopen env p w).2 :=
  Ext.of_eq [_] rfl rfl (by simp [LookupEvent])

theorem WorldCompile_ext (env : Env FS) (hash : Nat) (source symbol : String) (w : World FS) :
    Ext (LookupEvent (mpi.IsInitialized env w)) w
      (WorldCompile env hash source symbol w).world := by
  unfold WorldCompile
  refine Ext_bind_of _ _ ?_ ?_
  · split
    · exact (RootCompile_ext env hash source symbol w).mono (fun e he => Or.inl he)
    · exact Ext.refl _ _
  intro status w1 _
  refine Ext_bind_of _ _ (Sync_ext env _ status w1) ?_
  intro _ w2 _
  refine Ext_bind_of _ _ ((DLopen_ext env _ _ w2).trans (Sync_ext env _ _ _)) ?_
  intro _ w3 _
  split <;> exact Ext.refl _ _

theorem LookupCache_ext (env : Env FS) (w : World FS) :
    Ext (LookupEvent (mpi.IsInitialized env w)) w (LookupCache env w).world := by
  unfold LookupCache
  have h0 : Ext (LookupEvent (mpi.IsInitialized env w)) w
      (if env.os.fstream w.fs so = true then DLopen env so w else (none, w)).2 := by
    split
    · exact DLopen_ext env _ so w
    · exact Ext.refl _ _
  simp only []
  generalize (if env.os.fstream w.fs so = true then DLopen env so w else (none, w)) = r at h0 ⊢
  split
  · refine h0.trans (Ext_bind_of _ _ ?_ ?_)
    · split
      · exact (CallCommand_build env _ _ _ (h0.isInitialized env)).mono (fun e he => Or.inl he)
      · exact Ext.refl _ _
    intro status w1 _
    refine Ext_bind_of _ _ (Sync_ext env _ status w1) ?_
    intro _ w2 _
    split <;> exact DLopen_ext env _ so w2
  · exact h0

theorem Lookup_ext (env : Env FS) (hash : Nat) (source symbol : String) (w : World FS) :
    Ext (LookupEvent (mpi.IsInitialized env w)) w (Lookup env hash source symbol w).world := by
  unfold Lookup
  refine Ext_bind_of _ _ (LookupCache_ext env w) ?_
  intro handle0 w1 e1
  refine Ext_bind_of _ _ ?_ ?_
  · split
    · refine Ext_bind_of _ _ ?_ (fun _ _ _ => Ext.refl _ _)
      have h := WorldCompile_ext env hash source symbol w1
      rw [e1.isInitialized env] at h
      exact h
    · exact Ext.refl _ _
  intro handle1 w2 e2
  split
  · exact Ext.refl _ _
  refine Ext_bind_of _ _ ?_ ?_
  · split
    · refine Ext_bind_of _ _ ?_ (fun _ _ _ => Ext.refl _ _)
      have h := WorldCompile_ext env hash source symbol w2
      rw [(e1.trans e2).isInitialized env] at h
      exact h
    · exact Ext.refl _ _
  intro kernel w3 _
  split
  · exact Ext.refl _ _
  · exact Ext.of_eq [_] rfl rfl (by simp [LookupEvent, BuildEvent])

/-! ## Lookup on a rank other than 0 -/

theorem Sync_quiet (env : Env FS) (symbol : String) (w : World FS) :
    Ext (QuietEvent symbol) w (mpi.Sync env EXIT_SUCCESS w).world := by
  by_cases h : mpi.IsInitialized env w = true
  · rw [Sync_mpi env _ w h]
    split <;> exact Ext.of_eq [_] rfl rfl (by simp [QuietEvent])
  · rw [Sync_serial env _ w (by simpa using h)]
    split <;> exact Ext.refl _ _

theorem DLopen_quiet (env : Env FS) (symbol p : String) (w : World FS) :
    Ext (QuietEvent symbol) w (DLopen env p w).2 :=
  Ext.of_eq [_] rfl rfl (by simp [QuietEvent])

theorem WorldCompile_quiet (env : Env FS) (hash : Nat) (source symbol : String) (w : World FS)
    (hroot : mpi.Root env w = false) :
    Ext (QuietEvent symbol) w (WorldCompile env hash source symbol w).world := by
  unfold WorldCompile
  simp only [hroot, Bool.false_eq_true, if_false, Out.bind_ret]
  refine Ext_bind_of _ _ (Sync_quiet env symbol w) ?_
  intro _ w2 _
  refine Ext_bind_of _ _ ((DLopen_quiet env symbol _ w2).trans (Sync_quiet env symbol _)) ?_
  intro _ w3 _
  split <;> exact Ext.refl _ _

theorem LookupCache_quiet (env : Env FS) (symbol : String) (w : World FS)
    (hroot : mpi.Root env w = false) :
    Ext (QuietEvent symbol) w (LookupCache env w).world := by
  unfold LookupCache
  have h0 : Ext (QuietEvent symbol) w
      (if env.os.fstream w.fs so = true then DLopen env so w else (none, w)).2 := by
    split
    · exact DLopen_quiet env symbol so w
    · exact Ext.refl _ _
  simp only []
  generalize (if env.os.fstream w.fs so = true then DLopen env so w else (none, w)) = r at h0 ⊢
  split
  · have hr : mpi.Root env r.2 = false := (h0.root env).trans hroot
    simp only [hr, Bool.false_eq_true, if_false, Out.bind_ret]
    refine h0.trans (Ext_bind_of _ _ (Sync_quiet env symbol r.2) ?_)
    intro _ w2 _
    split <;> exact DLopen_quiet env symbol so w2
  · exact h0

theorem Lookup_quiet (env : Env FS) (hash : Nat) (source symbol : String) (w : World FS)
    (hroot : mpi.Root env w = false) :
    Ext (QuietEvent symbol) w (Lookup env hash source symbol w).world := by
  unfold Lookup
  refine Ext_bind_of _ _ (LookupCache_quiet env symbol w hroot) ?_
  intro handle0 w1 e1
  refine Ext_bind_of _ _ ?_ ?_
  · split
    · exact Ext_bind_of _ _
        (WorldCompile_quiet env hash source symbol w1 ((e1.root env).trans hroot))
        (fun _ _ _ => Ext.refl _ _)
    · exact Ext.refl _ _
  intro handle1 w2 e2
  split
  · exact Ext.refl _ _
  refine Ext_bind_of _ _ ?_ ?_
  · split
    · exact Ext_bind_of _ _
        (WorldCompile_quiet env hash source symbol w2 (((e1.trans e2).root env).trans hroot))
        (fun _ _ _ => Ext.refl _ _)
    · exact Ext.refl _ _
  intro kernel w3 _
  split
  · exact Ext.refl _ _
  · exact Ext.of_eq [_] rfl rfl (by simp [QuietEvent])

theorem issued_quiet (symbol : String) (l : List Event) (h : ∀ e ∈ l, QuietEvent symbol e) :
    issued l = [] ∧ ranHere l = [] ∧ ranByChild l = [] ∧ written l = [] := by
  induction l with
  | nil => simp [issued, ranHere, ranByChild, written]
  | cons e l ih =>
    have hl := ih (fun x hx => h x (List.mem_cons_of_mem _ hx))
    rcases h e (List.mem_cons_self _ _) with ⟨p, rfl⟩ | rfl | rfl <;>
      simpa [issued, ranHere, ranByChild, written] using hl

theorem ranHere_lookupEvent (l : List Event) (h : ∀ e ∈ l, LookupEvent true e) :
    ranHere l = [] := by
  induction l with
  | nil => rfl
  | cons e l ih =>
    have hl := ih (fun x hx => h x (List.mem_cons_of_mem _ hx))
    rcases h e (List.mem_cons_self _ _) with
      ((⟨c, rfl⟩ | ⟨c, st, rfl⟩) | ⟨p, t, rfl⟩ | ⟨p, rfl⟩) | ⟨p, rfl⟩ | ⟨s, rfl⟩ <;>
      simpa [ranHere] using hl

theorem opened_buildEvent (b : Bool) (l : List Event) (h : ∀ e ∈ l, BuildEvent b e) :
    opened l = [] := by
  induction l with
  | nil => rfl
  | cons e l ih =>
    have hl := ih (fun x hx => h x (List.mem_cons_of_mem _ hx))
    rcases h e (List.mem_cons_self _ _) with
      (⟨c, rfl⟩ | ⟨c, st, rfl⟩) | ⟨p, t, rfl⟩ | ⟨p, rfl⟩ <;>
      simpa [opened] using hl

/-! ## A failed compilation when the commands go through the child -/

theorem Call_mpi_fail (env : Env FS) (c : String) (w : World FS)
    (hroot : mpi.Root env w = true) (hinit : mpi.IsInitialized env w = true)
    (h1 : w.child = ChildPc.wait) (h2 : w.ack = ACK) (hfit : 1 + strlen c < w.size)
    (hfail : (env.os.system w.fs c).1 ≠ 0) :
    ∃ v, Call env c w = .spin v := by
  rcases Call_mpi_cases env c w hroot hinit h1 h2 hfit with ⟨_, hr, _⟩ | ⟨j, clk, h⟩
  · exact absurd hr hfail
  · exact ⟨_, h⟩

theorem Lookup_mpi_compile_fails (env : Env FS) (hash : Nat) (source symbol : String)
    (w : World FS) (fs1 : FS)
    (hroot : mpi.Root env w = true) (hinit : mpi.IsInitialized env w = true)
    (h1 : w.child = ChildPc.wait) (h2 : w.ack = ACK) (hcmd : w.command = "")
    (hso : env.os.fstream w.fs so = false) (har : env.os.fstream w.fs ar = false)
    (hsrc : env.os.ofstream w.fs (env.ToString hash ".cc") source = some fs1)
    (hfit : 1 + strlen (commandText (compileTokens env hash)) < w.size)
    (hfail : (env.os.system fs1 (commandText (compileTokens env hash))).1 ≠ 0) :
    ∃ v, Lookup env hash source symbol w = .spin v := by
  obtain ⟨v, hv⟩ := Call_mpi_fail env (commandText (compileTokens env hash))
    { w with fs := fs1, trace := w.trace ++ [Event.ofstream (env.ToString hash ".cc") source] }
    hroot hinit h1 h2 hfit hfail
  have hR : RootCompile env hash source symbol w = .spin v := by
    unfold RootCompile
    rw [hsrc]
    simp only []
    rw [CallCommand_pushAll env (compileTokens env hash)
      { w with fs := fs1, trace := w.trace ++ [Event.ofstream (env.ToString hash ".cc") source] }
      hcmd, hv]
    rfl
  have hW : WorldCompile env hash source symbol w = .spin v := by
    unfold WorldCompile
    simp only [hroot, if_true, hR, Out.bind_spin]
  have hC : LookupCache env w = .ret none w := by
    simp [LookupCache, hso, har]
  refine ⟨v, ?_⟩
  unfold Lookup
  rw [hC]
  simp only [Out.bind_ret, hW, Out.bind_spin]

/-! ## The reduction of the statuses -/

theorem MPI_LOR_eq_zero (a b : Int) : MPI_LOR a b = 0 ↔ a = 0 ∧ b = 0 := by
  unfold MPI_LOR
  by_cases ha : a = 0 <;> by_cases hb : b = 0 <;> simp [ha, hb]

theorem MPI_Allreduce_LOR_eq_zero (status : Int) (peers : List Int) :
    MPI_Allreduce_LOR status peers = 0 ↔ status = 0 ∧ ∀ s ∈ peers, s = 0 := by
  unfold MPI_Allreduce_LOR
  induction peers generalizing status with
  | nil => simp
  | cons p ps ih =>
    rw [List.foldl_cons, ih, MPI_LOR_eq_zero]
    simp only [List.mem_cons, forall_eq_or_imp]
    tauto

theorem all_zero_eraseIdx (sts : List Int) (r : Nat) (hr : r < sts.length) :
    (sts[r] = 0 ∧ ∀ s ∈ sts.eraseIdx r, s = 0) ↔ ∀ s ∈ sts, s = 0 := by
  constructor
  · rintro ⟨h0, h1⟩ s hs
    obtain ⟨i, hi, rfl⟩ := List.mem_iff_getElem.mp hs
    by_cases hir : i = r
    · subst hir; exact h0
    · exact h1 _ (List.mem_eraseIdx_iff_getElem.mpr ⟨i, hi, hir, rfl⟩)
  · intro h
    exact ⟨h _ (List.getElem_mem _), fun s hs => h s (List.mem_of_mem_eraseIdx hs)⟩

end Lemmas

/-! # The claims -/

section Claims

variable {FS : Type}

/-- C1 (cache hit): if `./libmjit.so` can be opened, loads and exports `symbol`, then `Lookup`
returns the address resolved from that library; all it does to the outside world is to load
the library and to remove the file `symbol`: no command is handed to `Call`, none is run, and
no source file is written.  Nothing is assumed about the archive `libmjit.a`. -/
theorem Lookup_cache_hit (env : Env FS) (hash : Nat) (source symbol : String) (w : World FS)
    (h k : Nat) (hso : env.os.fstream w.fs so = true)
    (hopen : env.os.dlopen w.fs so = some h) (hsym : env.os.dlsym h symbol = some k) :
    Lookup env hash source symbol w =
      .ret k { w with fs := env.os.remove w.fs symbol,
                      trace := w.trace ++ [Event.dlopen so, Event.remove symbol] } ∧
    issued (Lookup env hash source symbol w).world.trace = issued w.trace ∧
    ranHere (Lookup env hash source symbol w).world.trace = ranHere w.trace ∧
    ranByChild (Lookup env hash source symbol w).world.trace = ranByChild w.trace ∧
    written (Lookup env hash source symbol w).world.trace = written w.trace := by
  have e : Lookup env hash source symbol w =
      .ret k { w with fs := env.os.remove w.fs symbol,
                      trace := w.trace ++ [Event.dlopen so, Event.remove symbol] } := by
    simp [Lookup, LookupCache, DLopen, hso, hopen, hsym, stdRemove]
  refine ⟨e, ?_, ?_, ?_, ?_⟩ <;> rw [e] <;>
    simp [Out.world, issued_append, ranHere_append, ranByChild_append, written_append,
      issued, ranHere, ranByChild, written]

/-- Witness of C1: the library is intact and the archive is missing. -/
theorem Lookup_cache_hit_witness :
    demoOS.fstream ["./libmjit.so"] so = true ∧
    demoOS.dlopen ["./libmjit.so"] so = some 7 ∧ demoOS.dlsym 7 "sym_ABC" = some 42 ∧
    demoOS.fstream ["./libmjit.so"] ar = false ∧
    Lookup (demoEnv "c++" false 0 (fun _ => 1) 5) 0xABC demoSource "sym_ABC"
        (demoWorld ["./libmjit.so"] false) =
      .ret 42 { demoWorld ["./libmjit.so"] false with
                  fs := ["./libmjit.so"],
                  trace := [Event.dlopen "./libmjit.so", Event.remove "sym_ABC"] } :=
  ⟨by decide, by decide, by decide, by decide,
   (Lookup_cache_hit (demoEnv "c++" false 0 (fun _ => 1) 5) 0xABC demoSource "sym_ABC"
      (demoWorld ["./libmjit.so"] false) 7 42 (by decide) (by decide) (by decide)).1⟩

/-- C3 (compile-and-install sequence): in the coordinator, when the source file can be written
and each of the four commands succeeds whenever it is run, `RootCompile` writes the source
text to the hash-named `.cc` file, then issues and runs exactly the four commands compile,
`ar -rv libmjit.a <object>`, link into the image named by the symbol, and `install` onto
`./libmjit.so`, in this order (removing the `.cc` file after the first and the `.co` file
after the second), and returns `EXIT_SUCCESS`.  When MPI is initialized the commands go
through the child: the handshake is at rest on entry, every command fits in the buffer, and
the child takes at least one step between two accesses of the coordinator to the shared
memory and does not complete a request between the read-back of `Send` and the next look at
the status word (over two consecutive accesses it takes at most four steps, or it takes at
least five before the first of them), with fuel for five polls. -/
theorem RootCompile_sequence (env : Env FS) (hash : Nat) (source symbol : String)
    (w : World FS) (fs1 : FS)
    (hroot : mpi.Root env w = true) (hcmd : w.command = "")
    (hsrc : env.os.ofstream w.fs (env.ToString hash ".cc") source = some fs1)
    (hok : ∀ fs c, c ∈ rootCommands env hash symbol → (env.os.system fs c).1 = 0)
    (hmpi : mpi.IsInitialized env w = true →
      w.child = ChildPc.wait ∧ w.ack = ACK ∧
      (∀ c, c ∈ rootCommands env hash symbol → 1 + strlen c < w.size) ∧
      (∀ n, 1 ≤ env.sched n ∧ (env.sched n + env.sched (n + 1) ≤ 4 ∨ 5 ≤ env.sched n)) ∧ 5 ≤ env.fuel) :
    ∃ v, RootCompile env hash source symbol w = .ret EXIT_SUCCESS v ∧
      v.trace = w.trace ++
        [Event.ofstream (env.ToString hash ".cc") source,
         Event.warning (commandText (compileTokens env hash)),
         Event.system (mpi.IsInitialized env w) (commandText (compileTokens env hash)) 0,
         Event.remove (env.ToString hash ".cc"),
         Event.warning (commandText (archiveTokens env hash)),
         Event.system (mpi.IsInitialized env w) (commandText (archiveTokens env hash)) 0,
         Event.remove (env.ToString hash ".co"),
         Event.warning (commandText (linkTokens env.cfg symbol)),
         Event.system (mpi.IsInitialized env w) (commandText (linkTokens env.cfg symbol)) 0,
         Event.warning (commandText (installTokens env.cfg symbol)),
         Event.system (mpi.IsInitialized env w) (commandText (installTokens env.cfg symbol)) 0] ∧
      issued v.trace = issued w.trace ++ rootCommands env hash symbol := by
  obtain ⟨v, hv, ht, -⟩ := RootCompile_ok env hash source symbol w fs1 hroot hcmd hsrc hok hmpi
  refine ⟨v, hv, ht, ?_⟩
  rw [ht, issued_append]
  simp [issued, rootCommands]

theorem demo_commands_ok (fs : List String) (c : String)
    (hc : c ∈ rootCommands (demoEnv "c++" true 0 (fun _ => 1) 5) 0xABC "sym_ABC") :
    (demoOS.system fs c).1 = 0 := by
  simp only [rootCommands, List.mem_cons, List.mem_singleton, List.not_mem_nil, or_false] at hc
  rcases hc with rfl | rfl | rfl | rfl <;> rfl

theorem demo_commands_fit (c : String)
    (hc : c ∈ rootCommands (demoEnv "c++" true 0 (fun _ => 1) 5) 0xABC "sym_ABC") :
    1 + strlen c < 4096 := by
  simp only [rootCommands, List.mem_cons, List.mem_singleton, List.not_mem_nil, or_false] at hc
  rcases hc with rfl | rfl | rfl | rfl <;> decide

/-- Witness of C3: rank 0 of an MPI run on an empty directory; the child takes one step
between two accesses of the coordinator. -/
theorem RootCompile_sequence_witness :
    mpi.Root (demoEnv "c++" true 0 (fun _ => 1) 5) (demoWorld [] true) = true ∧
    mpi.IsInitialized (demoEnv "c++" true 0 (fun _ => 1) 5) (demoWorld [] true) = true ∧
    ∃ v, RootCompile (demoEnv "c++" true 0 (fun _ => 1) 5) 0xABC demoSource "sym_ABC"
        (demoWorld [] true) = .ret EXIT_SUCCESS v ∧
      v.trace = [] ++
        [Event.ofstream "abc.cc" "int f(){return 1;}",
         Event.warning "c++ -O3 -I /mfem -I /mfem/install  -fPIC -pipe -c -o abc.co abc.cc  ",
         Event.system true "c++ -O3 -I /mfem -I /mfem/install  -fPIC -pipe -c -o abc.co abc.cc  " 0,
         Event.remove "abc.cc",
         Event.warning "ar -rv libmjit.a abc.co ",
         Event.system true "ar -rv libmjit.a abc.co " 0,
         Event.remove "abc.co",
         Event.warning
           "c++ -shared -o sym_ABC -Wl,--whole-archive libmjit.a -Wl,--no-whole-archive ",
         Event.system true
           "c++ -shared -o sym_ABC -Wl,--whole-archive libmjit.a -Wl,--no-whole-archive " 0,
         Event.warning "install --backup=none sym_ABC ./libmjit.so ",
         Event.system true "install --backup=none sym_ABC ./libmjit.so " 0] ∧
      issued v.trace = issued [] ++
        rootCommands (demoEnv "c++" true 0 (fun _ => 1) 5) 0xABC "sym_ABC" :=
  ⟨by decide, by decide,
   RootCompile_sequence (demoEnv "c++" true 0 (fun _ => 1) 5) 0xABC demoSource "sym_ABC"
     (demoWorld [] true) ["abc.cc"] (by decide) rfl rfl demo_commands_ok
     (fun _ => ⟨rfl, rfl, demo_commands_fit,
       fun _ => ⟨Nat.le_refl 1, Or.inl (by decide : (1 : Nat) + 1 ≤ 4)⟩, by decide⟩)⟩

/-- C4, evaluated where the code departs from it: rank 0 of an MPI run, an empty directory and
a compiler that cannot be run.  Whatever the schedule of the child and however long the
coordinator polls, `Lookup` is still polling: the child ran the failing command and exited
without touching the status word, and `Wait(false)` in `Call` waits for `ACK` for ever.  No
fatal error is raised.  The same input without MPI ends in the fatal error of `mpi::Sync`. -/
theorem Lookup_failed_compile_under_mpi (sched : Nat → Nat) (fuel : Nat) :
    (Lookup (demoEnv "/no/such/c++" true 0 sched fuel) 0xABC demoSource "sym_ABC"
        (demoWorld [] true)).isSpin = true ∧
    (Lookup (demoEnv "/no/such/c++" true 0 sched fuel) 0xABC demoSource "sym_ABC"
        (demoWorld [] true)).isFatal = false ∧
    (Lookup (demoEnv "/no/such/c++" true 0 sched fuel) 0xABC demoSource "sym_ABC"
        (demoWorld [] true)).isRet = false ∧
    (demoOS.system ["abc.cc"]
        "/no/such/c++ -O3 -I /mfem -I /mfem/install  -fPIC -pipe -c -o abc.co abc.cc  ").1 = 32512 ∧
    ∃ v, Lookup (demoEnv "/no/such/c++" false 0 sched fuel) 0xABC demoSource "sym_ABC"
        (demoWorld [] false) = .fatal "[JIT] Synchronization error!" v := by
  obtain ⟨v, hv⟩ := Lookup_mpi_compile_fails (demoEnv "/no/such/c++" true 0 sched fuel) 0xABC
    demoSource "sym_ABC" (demoWorld [] true) ["abc.cc"] rfl rfl rfl rfl rfl rfl rfl rfl
    (by decide : 1 + strlen
      "/no/such/c++ -O3 -I /mfem -I /mfem/install  -fPIC -pipe -c -o abc.co abc.cc  " < 4096)
    (by decide : (32512 : Int) ≠ 0)
  rw [hv]
  exact ⟨rfl, rfl, rfl, by decide, _, rfl⟩

/-- C5 (atomic install): in the coordinator, with the handshake at rest, let the `j`-th command
of the sequence (compile, archive-append or link-to-temporary: `j < 3`) fail whenever it is
run.  Then, whether `RootCompile` returns or not, the commands it issues are the first `k` of
the four for some `k ≤ j + 1`: no command after the failing one is issued, and the `install`
command never is.  Hence every property `P` of the file system (such as: `./libmjit.so` is the
previously valid library) that is kept by writing the source file, by removing the two
intermediate files and by running the first three commands, still holds in the end. -/
theorem RootCompile_failure_stops (env : Env FS) (hash : Nat) (source symbol : String)
    (w : World FS) (P : FS → Prop) (j : Nat)
    (hroot : mpi.Root env w = true) (hidle : Idle env w) (hcmd : w.command = "")
    (hj : j < 3)
    (hfail : ∀ fs, (env.os.system fs ((rootCommands env hash symbol).getD j "")).1 ≠ 0)
    (hP1 : ∀ fs fs', env.os.ofstream fs (env.ToString hash ".cc") source = some fs' → P fs → P fs')
    (hP2 : ∀ fs p, p = env.ToString hash ".cc" ∨ p = env.ToString hash ".co" →
      P fs → P (env.os.remove fs p))
    (hP3 : ∀ fs c, c ∈ (rootCommands env hash symbol).take 3 → P fs → P (env.os.system fs c).2) :
    (∃ k, k ≤ j + 1 ∧
      issued (RootCompile env hash source symbol w).world.trace =
        issued w.trace ++ (rootCommands env hash symbol).take k) ∧
    (P w.fs → P (RootCompile env hash source symbol w).world.fs) := by
  obtain ⟨k, _, hk, hprev, hfs⟩ :=
    RootCompile_shape env hash source symbol w P hroot hidle hcmd hP1 hP2 hP3
  have hkj : k ≤ j + 1 := by
    by_contra hlt
    obtain ⟨fs, hfs0⟩ := hprev j (by omega)
    exact hfail fs hfs0
  exact ⟨⟨k, hkj, hk⟩, hfs (by omega)⟩

theorem demo_keep_library_ofstream (fs fs' : List String) (p t : String)
    (h : demoOS.ofstream fs p t = some fs') (hp : fs.contains "./libmjit.so" = true) :
    fs'.contains "./libmjit.so" = true := by
  simp only [demoOS, Option.some.injEq] at h
  subst h
  simp only [List.contains_cons, hp, Bool.or_true]

theorem demo_keep_library_remove (fs : List String) (p : String)
    (h : p = "abc.cc" ∨ p = "abc.co") (hp : fs.contains "./libmjit.so" = true) :
    (demoOS.remove fs p).contains "./libmjit.so" = true := by
  have hmem : "./libmjit.so" ∈ fs := by simpa using hp
  have hgoal : ∀ q : String, (("./libmjit.so" != q && "./libmjit.so" != "./" ++ q) = true) →
      (demoOS.remove fs q).contains "./libmjit.so" = true := by
    intro q hq
    have : "./libmjit.so" ∈ demoOS.remove fs q := List.mem_filter.mpr ⟨hmem, hq⟩
    simpa using this
  rcases h with rfl | rfl
  · exact hgoal _ (by decide)
  · exact hgoal _ (by decide)

theorem demo_keep_library_system (fs : List String) (c : String)
    (hp : fs.contains "./libmjit.so" = true) :
    (demoOS.system fs c).2.contains "./libmjit.so" = true := by
  simp only [demoOS, demoSystem]
  repeat' split
  all_goals simp only [List.contains_cons, hp, Bool.or_true]

/-- Witness of C5: rank 0 of an MPI run whose compiler cannot be run, next to a library
`./libmjit.so` built earlier: only the compilation is issued and the library stays. -/
theorem RootCompile_failure_stops_witness :
    (∀ fs : List String, (demoOS.system fs
      "/no/such/c++ -O3 -I /mfem -I /mfem/install  -fPIC -pipe -c -o abc.co abc.cc  ").1 ≠ 0) ∧
    (∃ k, k ≤ 0 + 1 ∧
      issued (RootCompile (demoEnv "/no/such/c++" true 0 (fun _ => 1) 5) 0xABC demoSource
          "sym_ABC" (demoWorld ["./libmjit.so"] true)).world.trace =
        issued (demoWorld ["./libmjit.so"] true).trace ++
          (rootCommands (demoEnv "/no/such/c++" true 0 (fun _ => 1) 5) 0xABC "sym_ABC").take k) ∧
    ((demoWorld ["./libmjit.so"] true).fs.contains "./libmjit.so" = true →
      (RootCompile (demoEnv "/no/such/c++" true 0 (fun _ => 1) 5) 0xABC demoSource
          "sym_ABC" (demoWorld ["./libmjit.so"] true)).world.fs.contains "./libmjit.so" = true) :=
  ⟨fun _ => (by decide : (32512 : Int) ≠ 0),
   RootCompile_failure_stops (demoEnv "/no/such/c++" true 0 (fun _ => 1) 5) 0xABC demoSource
     "sym_ABC" (demoWorld ["./libmjit.so"] true) (fun fs => fs.contains "./libmjit.so" = true) 0
     rfl (fun _ => ⟨rfl, rfl⟩) rfl (by decide)
     (fun _ => (by decide : (32512 : Int) ≠ 0))
     (fun fs fs' h hp => demo_keep_library_ofstream fs fs' _ _ h hp)
     (fun fs p h hp => demo_keep_library_remove fs p h hp)
     (fun fs c _ hp => demo_keep_library_system fs c hp)⟩

theorem utf8Len_replicate (n : Nat) : String.utf8Len (List.replicate n 'x') = n := by
  induction n with
  | zero => rfl
  | succ n ih =>
    rw [List.replicate_succ, String.utf8Len_cons, ih]
    rfl

theorem strlen_longCommand : strlen longCommand = 4100 := by
  show String.utf8Len ("c++ ".data ++ List.replicate 4096 'x') = 4100
  rw [String.utf8Len_append, utf8Len_replicate]
  rfl

/-- C6 fails as stated: without MPI, on a channel of one page, `Call` runs a command of 4100
bytes with `std::system` in the calling process and returns its status; no fatal error. -/
theorem Call_overlong_serial :
    (demoWorld [] false).size < strlen longCommand + 1 ∧
    Call (demoEnv "c++" false 0 (fun _ => 1) 5) longCommand (demoWorld [] false) =
      .ret 0 { demoWorld [] false with
                 fs := ["abc.co"],
                 trace := [Event.warning longCommand, Event.system false longCommand 0] } := by
  refine ⟨?_, ?_⟩
  · rw [strlen_longCommand]; decide
  · rw [Call_serial (demoEnv "c++" false 0 (fun _ => 1) 5) longCommand (demoWorld [] false) rfl]
    rfl

/-- C6 as amended: when MPI is initialized, a command with `strlen(c) + 1` greater than the
size of the buffer makes `Call` end in a fatal error before anything is transmitted: the
buffer and the status word are not written, the shared memory is not even accessed, and the
command is run neither by the process nor by its child. -/
theorem Call_overlong_mpi (env : Env FS) (c : String) (w : World FS)
    (hinit : mpi.IsInitialized env w = true) (hlen : w.size < strlen c + 1) :
    ∃ msg v, Call env c w = .fatal msg v ∧ v.mem = w.mem ∧ v.ack = w.ack ∧
      v.clock = w.clock ∧ v.child = w.child ∧ v.fs = w.fs ∧
      ranHere v.trace = ranHere w.trace ∧ ranByChild v.trace = ranByChild w.trace := by
  by_cases hroot : mpi.Root env w = true
  · refine ⟨_, _, Call_too_long env c w hroot hinit (by omega), rfl, rfl, rfl, rfl, rfl, ?_, ?_⟩
    · simp [ranHere_append, ranHere]
    · simp [ranByChild_append, ranByChild]
  · exact ⟨_, _, Call_not_root env c w (by simpa using hroot), rfl, rfl, rfl, rfl, rfl, rfl, rfl⟩

/-- Witness of the amended C6: rank 0 of an MPI run, one page, 4100 bytes. -/
theorem Call_overlong_mpi_witness :
    mpi.IsInitialized (demoEnv "c++" true 0 (fun _ => 1) 5) (demoWorld [] true) = true ∧
    (demoWorld [] true).size < strlen longCommand + 1 ∧
    ∃ msg v, Call (demoEnv "c++" true 0 (fun _ => 1) 5) longCommand (demoWorld [] true) =
        .fatal msg v ∧ v.mem = (demoWorld [] true).mem ∧ v.ack = (demoWorld [] true).ack ∧
      v.clock = (demoWorld [] true).clock ∧ v.child = (demoWorld [] true).child ∧
      v.fs = (demoWorld [] true).fs ∧
      ranHere v.trace = ranHere (demoWorld [] true).trace ∧
      ranByChild v.trace = ranByChild (demoWorld [] true).trace :=
  ⟨rfl, by rw [strlen_longCommand]; decide,
   Call_overlong_mpi (demoEnv "c++" true 0 (fun _ => 1) 5) longCommand (demoWorld [] true) rfl
     (by rw [strlen_longCommand]; decide)⟩

/-- C7 (only the coordinator builds): on a process whose rank is not 0, whatever `Lookup` does
to the outside world is a load, a reduction to which it contributes `EXIT_SUCCESS`, or the
removal of the temporary image `symbol`; it hands no command to `Call`, runs none, has none
run by a child and writes no file.  A direct `Call` from such a process is the fatal error
"Only MPI root should launch commands!" and changes nothing. -/
theorem Lookup_not_root (env : Env FS) (hash : Nat) (source symbol : String) (w : World FS)
    (hrank : mpi.Rank env w ≠ 0) :
    (∃ new, (Lookup env hash source symbol w).world.trace = w.trace ++ new ∧
      (∀ e ∈ new, (∃ p, e = Event.dlopen p) ∨ e = Event.allreduce EXIT_SUCCESS ∨
        e = Event.remove symbol) ∧
      issued new = [] ∧ ranHere new = [] ∧ ranByChild new = [] ∧ written new = []) ∧
    (∀ c, Call env c w = .fatal "[JIT] Only MPI root should launch commands!" w) := by
  have hroot : mpi.Root env w = false := by simpa [mpi.Root] using hrank
  obtain ⟨_, new, ht, hq⟩ := Lookup_quiet env hash source symbol w hroot
  obtain ⟨a, b, c, d⟩ := issued_quiet symbol new hq
  exact ⟨⟨new, ht, hq, a, b, c, d⟩, fun c => Call_not_root env c w hroot⟩

/-- Witness of C7: rank 1 of an MPI run on an empty directory, its own child gone. -/
theorem Lookup_not_root_witness :
    mpi.Rank (demoEnv "c++" true 1 (fun _ => 1) 5)
      { demoWorld [] true with child := ChildPc.exited 0 } = 1 ∧
    (∃ new, (Lookup (demoEnv "c++" true 1 (fun _ => 1) 5) 0xABC demoSource "sym_ABC"
        { demoWorld [] true with child := ChildPc.exited 0 }).world.trace = [] ++ new ∧
      (∀ e ∈ new, (∃ p, e = Event.dlopen p) ∨ e = Event.allreduce EXIT_SUCCESS ∨
        e = Event.remove "sym_ABC") ∧
      issued new = [] ∧ ranHere new = [] ∧ ranByChild new = [] ∧ written new = []) ∧
    (∀ c, Call (demoEnv "c++" true 1 (fun _ => 1) 5) c
        { demoWorld [] true with child := ChildPc.exited 0 } =
      .fatal "[JIT] Only MPI root should launch commands!"
        { demoWorld [] true with child := ChildPc.exited 0 }) :=
  ⟨rfl, Lookup_not_root (demoEnv "c++" true 1 (fun _ => 1) 5) 0xABC demoSource "sym_ABC"
    { demoWorld [] true with child := ChildPc.exited 0 } (by decide)⟩

/-- C8 fails as stated: without MPI, `Lookup` on an empty directory runs its four commands
with `std::system` in the calling process itself; no child runs anything. -/
theorem Lookup_serial_runs_commands_itself :
    ranHere (Lookup (demoEnv "c++" false 0 (fun _ => 1) 5) 0xABC demoSource "sym_ABC"
        (demoWorld [] false)).world.trace =
      ["c++ -O3 -I /mfem -I /mfem/install  -fPIC -pipe -c -o abc.co abc.cc  ",
       "ar -rv libmjit.a abc.co ",
       "c++ -shared -o sym_ABC -Wl,--whole-archive libmjit.a -Wl,--no-whole-archive ",
       "install --backup=none sym_ABC ./libmjit.so "] ∧
    ranByChild (Lookup (demoEnv "c++" false 0 (fun _ => 1) 5) 0xABC demoSource "sym_ABC"
        (demoWorld [] false)).world.trace = [] ∧
    (Lookup (demoEnv "c++" false 0 (fun _ => 1) 5) 0xABC demoSource "sym_ABC"
        (demoWorld [] false)).isRet = true := by
  decide

/-- C8 as amended: when MPI is initialized, the process never runs `std::system` itself in
`Lookup` nor in `Call`; and a `Call` entered by rank 0 with the handshake at rest and a command
that fits returns only with status `EXIT_SUCCESS`, the command text in the shared buffer, and
the command run exactly once, by the child, on the text that was handed over. -/
theorem Lookup_commands_through_child (env : Env FS) (hash : Nat) (source symbol : String)
    (w : World FS) (hinit : mpi.IsInitialized env w = true) :
    ranHere (Lookup env hash source symbol w).world.trace = ranHere w.trace ∧
    (∀ c, ranHere (Call env c w).world.trace = ranHere w.trace) ∧
    (∀ c s v, mpi.Root env w = true → w.child = ChildPc.wait → w.ack = ACK →
      1 + strlen c < w.size → Call env c w = .ret s v →
      s = EXIT_SUCCESS ∧ v.mem = c ∧ v.fs = (env.os.system w.fs c).2 ∧
      v.trace = w.trace ++ [Event.warning c, Event.system true c 0]) := by
  refine ⟨?_, ?_, ?_⟩
  · obtain ⟨_, new, ht, hq⟩ := Lookup_ext env hash source symbol w
    rw [hinit] at hq
    rw [ht, ranHere_append, ranHere_lookupEvent new hq, List.append_nil]
  · intro c
    obtain ⟨_, new, ht, hq⟩ := Call_ext env c w
    rw [hinit] at hq
    rw [ht, ranHere_append,
      ranHere_lookupEvent new (fun e he => Or.inl (Or.inl (hq e he))), List.append_nil]
  · intro c s v hroot h1 h2 hfit hret
    rcases Call_mpi_cases env c w hroot hinit h1 h2 hfit with ⟨clk, _, h⟩ | ⟨j, clk, h⟩
    · rw [h] at hret
      simp only [Out.ret.injEq] at hret
      obtain ⟨rfl, rfl⟩ := hret
      exact ⟨rfl, rfl, rfl, rfl⟩
    · rw [h] at hret
      exact absurd hret (by simp)

/-- Witness of the amended C8: rank 0 of an MPI run on an empty directory. -/
theorem Lookup_commands_through_child_witness :
    mpi.IsInitialized (demoEnv "c++" true 0 (fun _ => 1) 5) (demoWorld [] true) = true ∧
    ranHere (Lookup (demoEnv "c++" true 0 (fun _ => 1) 5) 0xABC demoSource "sym_ABC"
        (demoWorld [] true)).world.trace = ranHere (demoWorld [] true).trace ∧
    (ranByChild (Lookup (demoEnv "c++" true 0 (fun _ => 1) 5) 0xABC demoSource "sym_ABC"
        (demoWorld [] true)).world.trace).length = 4 :=
  ⟨rfl,
   (Lookup_commands_through_child (demoEnv "c++" true 0 (fun _ => 1) 5) 0xABC demoSource
      "sym_ABC" (demoWorld [] true) rfl).1,
   by decide⟩

/-- C9 (distributed agreement): let `sts` assign a build status to every rank of an MPI job,
and let rank `r` reach `mpi::Sync` with its own status while the other ranks contribute
theirs.  The statuses are combined with `MPI_LOR`, and `Sync` returns on rank `r` iff every
status of the job is `EXIT_SUCCESS`; as `r` is arbitrary, it returns on every rank or on none.
If some status is a failure, `Sync` is the fatal error "Synchronization error!" and has loaded
nothing; in particular `WorldCompile`, whose build phase ended with these statuses, ends in
that fatal error without any `DLopen`. -/
theorem Sync_agreement (env : Env FS) (w : World FS) (sts : List Int) (r : Nat)
    (hr : r < sts.length) (hinit : mpi.IsInitialized env w = true)
    (hpeers : env.peers w.syncs = sts.eraseIdx r) :
    ((mpi.Sync env sts[r] w).isRet = true ↔ ∀ s ∈ sts, s = EXIT_SUCCESS) ∧
    ((∃ s ∈ sts, s ≠ EXIT_SUCCESS) →
      (∃ v, mpi.Sync env sts[r] w = .fatal "[JIT] Synchronization error!" v ∧
        opened v.trace = opened w.trace) ∧
      ∀ hash source symbol w0,
        (if mpi.Root env w0 then RootCompile env hash source symbol w0
         else .ret EXIT_SUCCESS w0) = .ret sts[r] w →
        ∃ v, WorldCompile env hash source symbol w0 = .fatal "[JIT] Synchronization error!" v ∧
          opened v.trace = opened w0.trace) := by
  have hz : MPI_Allreduce_LOR sts[r] (env.peers w.syncs) = EXIT_SUCCESS ↔
      ∀ s ∈ sts, s = EXIT_SUCCESS := by
    rw [hpeers]
    exact (MPI_Allreduce_LOR_eq_zero _ _).trans (all_zero_eraseIdx sts r hr)
  have hfatal : (∃ s ∈ sts, s ≠ EXIT_SUCCESS) →
      mpi.Sync env sts[r] w = .fatal "[JIT] Synchronization error!"
        { w with fs := env.interfere w.syncs w.fs, syncs := w.syncs + 1,
                 trace := w.trace ++ [Event.allreduce sts[r]] } := by
    rintro ⟨s, hs, hne⟩
    have hnz : ¬ MPI_Allreduce_LOR sts[r] (env.peers w.syncs) = EXIT_SUCCESS :=
      fun h => hne (hz.mp h s hs)
    rw [Sync_mpi env _ w hinit, if_neg hnz]
  refine ⟨?_, fun hbad => ⟨⟨_, hfatal hbad, ?_⟩, ?_⟩⟩
  · rw [Sync_mpi env _ w hinit]
    by_cases h : MPI_Allreduce_LOR sts[r] (env.peers w.syncs) = EXIT_SUCCESS
    · simp only [h, if_true, Out.isRet, true_iff]
      exact hz.mp h
    · simp only [h, if_false, Out.isRet, Bool.false_eq_true, false_iff]
      exact fun hall => h (hz.mpr hall)
  · simp [opened_append, opened]
  · intro hash source symbol w0 hbuild
    refine ⟨{ w with fs := env.interfere w.syncs w.fs, syncs := w.syncs + 1,
                     trace := w.trace ++ [Event.allreduce sts[r]] }, ?_, ?_⟩
    · unfold WorldCompile
      rw [hbuild, Out.bind_ret, hfatal hbad, Out.bind_fatal]
    · have hext : Ext (BuildEvent (mpi.IsInitialized env w0)) w0 w := by
        by_cases hroot : mpi.Root env w0 = true
        · have h := RootCompile_ext env hash source symbol w0
          rw [if_pos hroot] at hbuild
          rw [hbuild] at h
          exact h
        · rw [if_neg hroot] at hbuild
          simp only [Out.ret.injEq] at hbuild
          rw [← hbuild.2]
          exact Ext.refl _ _
      obtain ⟨_, new, ht, hq⟩ := hext
      show opened (w.trace ++ [Event.allreduce sts[r]]) = opened w0.trace
      rw [ht, opened_append, opened_append, opened_buildEvent _ new hq]
      simp [opened]

/-- Witness of C9: three ranks, the last one reporting a failure; rank 1 contributes
`EXIT_SUCCESS` and ends in the fatal error all the same. -/
theorem Sync_agreement_witness :
    mpi.IsInitialized { demoEnv "c++" true 1 (fun _ => 1) 5 with peers := fun _ => [0, 1] }
      (demoWorld [] true) = true ∧
    (((mpi.Sync { demoEnv "c++" true 1 (fun _ => 1) 5 with peers := fun _ => [0, 1] }
        ([0, 0, 1] : List Int)[1] (demoWorld [] true)).isRet = true ↔
      ∀ s ∈ ([0, 0, 1] : List Int), s = EXIT_SUCCESS) ∧
    ((∃ s ∈ ([0, 0, 1] : List Int), s ≠ EXIT_SUCCESS) →
      (∃ v, mpi.Sync { demoEnv "c++" true 1 (fun _ => 1) 5 with peers := fun _ => [0, 1] }
          ([0, 0, 1] : List Int)[1] (demoWorld [] true) =
            .fatal "[JIT] Synchronization error!" v ∧
        opened v.trace = opened (demoWorld [] true).trace) ∧
      ∀ hash source symbol w0,
        (if mpi.Root { demoEnv "c++" true 1 (fun _ => 1) 5 with peers := fun _ => [0, 1] } w0
         then RootCompile { demoEnv "c++" true 1 (fun _ => 1) 5 with peers := fun _ => [0, 1] }
           hash source symbol w0
         else .ret EXIT_SUCCESS w0) = .ret ([0, 0, 1] : List Int)[1] (demoWorld [] true) →
        ∃ v, WorldCompile { demoEnv "c++" true 1 (fun _ => 1) 5 with peers := fun _ => [0, 1] }
            hash source symbol w0 = .fatal "[JIT] Synchronization error!" v ∧
          opened v.trace = opened w0.trace)) :=
  ⟨rfl, Sync_agreement { demoEnv "c++" true 1 (fun _ => 1) 5 with peers := fun _ => [0, 1] }
    (demoWorld [] true) [0, 0, 1] 1 (by decide) rfl rfl⟩

/-- C10 fails as stated: without MPI, `Sync(EXIT_FAILURE)` does not return; it is the fatal
error "Synchronization error!". -/
theorem Sync_serial_failure :
    mpi.IsInitialized (demoEnv "c++" false 0 (fun _ => 1) 5) (demoWorld [] false) = false ∧
    mpi.Sync (demoEnv "c++" false 0 (fun _ => 1) 5) EXIT_FAILURE (demoWorld [] false) =
      .fatal "[JIT] Synchronization error!" (demoWorld [] false) :=
  ⟨rfl, rfl⟩

/-- C10 as amended: when MPI is not initialized, `Sync` does no reduction and leaves the state
as it is; it returns normally for the status `EXIT_SUCCESS` and is the fatal error
"Synchronization error!" for every other status. -/
theorem Sync_serial_check (env : Env FS) (status : Int) (w : World FS)
    (hinit : mpi.IsInitialized env w = false) :
    (status = EXIT_SUCCESS → mpi.Sync env status w = .ret () w) ∧
    (status ≠ EXIT_SUCCESS →
      mpi.Sync env status w = .fatal "[JIT] Synchronization error!" w) := by
  rw [Sync_serial env status w hinit]
  exact ⟨fun h => if_pos h, fun h => if_neg h⟩

/-- Witness of the amended C10. -/
theorem Sync_serial_check_witness :
    mpi.IsInitialized (demoEnv "c++" false 0 (fun _ => 1) 5) (demoWorld [] false) = false ∧
    ((0 : Int) = EXIT_SUCCESS →
      mpi.Sync (demoEnv "c++" false 0 (fun _ => 1) 5) 0 (demoWorld [] false) =
        .ret () (demoWorld [] false)) ∧
    ((0 : Int) ≠ EXIT_SUCCESS →
      mpi.Sync (demoEnv "c++" false 0 (fun _ => 1) 5) 0 (demoWorld [] false) =
        .fatal "[JIT] Synchronization error!" (demoWorld [] false)) :=
  ⟨rfl, Sync_serial_check (demoEnv "c++" false 0 (fun _ => 1) 5) 0 (demoWorld [] false) rfl⟩

end Claims

/-! # The worker loop -/

section Worker

variable {FS : Type}

theorem childRun_exited (os : OS FS) (n : Nat) (w : World FS) (code : Int)
    (h : w.child = ChildPc.exited code) : childRun os n w = w := by
  induction n with
  | zero => rfl
  | succ n ih =>
    have hs : childStep os w = w := by simp [childStep, h]
    simp only [childRun]
    rw [hs, ih]

theorem childRun_succ (os : OS FS) (n : Nat) (w : World FS) :
    childRun os (n + 1) w = childRun os n (childStep os w) := rfl

/-- C19 (worker step on a call request): let the worker stand at the head of its loop and
observe `CALL`.  Within three steps it has run `std::system` once, on the text in the command
buffer, and nothing else.  If the command returned 0, two steps later it has set the status
back to `ACK` and stands at the head of the loop again.  If the command reported a failure,
it has exited its process (with the status word still `CALL`) and whatever the number of
further steps nothing changes any more: no further command is run. -/
theorem child_call_request (os : OS FS) (w : World FS) (hc : w.child = ChildPc.wait)
    (ha : w.ack = CALL) :
    childRun os 3 w =
      { w with fs := (os.system w.fs w.mem).2,
               trace := w.trace ++ [Event.system true w.mem (os.system w.fs w.mem).1],
               child := if (os.system w.fs w.mem).1 != 0 then ChildPc.exited EXIT_SUCCESS
                        else ChildPc.isExit } ∧
    ((os.system w.fs w.mem).1 = 0 →
      childRun os 5 w =
        { w with fs := (os.system w.fs w.mem).2,
                 trace := w.trace ++ [Event.system true w.mem 0],
                 ack := ACK, child := ChildPc.wait }) ∧
    ((os.system w.fs w.mem).1 ≠ 0 →
      ∀ n, childRun os (n + 3) w =
        { w with fs := (os.system w.fs w.mem).2,
                 trace := w.trace ++ [Event.system true w.mem (os.system w.fs w.mem).1],
                 child := ChildPc.exited EXIT_SUCCESS }) := by
  have key : ∀ n, childRun os n w = served os w n := by
    intro n
    have h := childRun_served os w hc ha n 0
    simpa [served] using h
  refine ⟨?_, ?_, ?_⟩
  · rw [key]
    by_cases hr : (os.system w.fs w.mem).1 = 0 <;> simp [served, hr]
  · intro hr
    rw [key, served_done os w 5 hr (le_refl 5)]
  · intro hr n
    rw [key]
    simp [served, hr]

/-- Witness of C19: the archive update is in the buffer of the small environment. -/
theorem child_call_request_witness :
    childRun demoOS 5
        { demoWorld [] true with ack := CALL, mem := "ar -rv libmjit.a abc.co " } =
      { demoWorld [] true with
          fs := ["libmjit.a"], mem := "ar -rv libmjit.a abc.co ",
          trace := [Event.system true "ar -rv libmjit.a abc.co " 0],
          ack := ACK, child := ChildPc.wait } :=
  (child_call_request demoOS
    { demoWorld [] true with ack := CALL, mem := "ar -rv libmjit.a abc.co " } rfl rfl).2.1 rfl

/-- C20 (worker step on an exit request): let the worker stand at the head of its loop and
observe `EXIT`.  After three steps, and for ever after, it has exited its process with
`EXIT_SUCCESS` and nothing else has changed: no command was run, the file system and the
command buffer are as before, and the status word still reads `EXIT`. -/
theorem child_exit_request (os : OS FS) (w : World FS) (hc : w.child = ChildPc.wait)
    (ha : w.ack = EXIT) :
    (∀ n, childRun os (n + 3) w = { w with child := ChildPc.exited EXIT_SUCCESS }) ∧
    (∀ n, (childRun os (n + 3) w).ack = EXIT ∧ (childRun os (n + 3) w).trace = w.trace ∧
      (childRun os (n + 3) w).fs = w.fs) := by
  have h3 : childRun os 3 w = { w with child := ChildPc.exited EXIT_SUCCESS } := by
    obtain ⟨fs, ack, mem, size, command, child, mpi, clock, syncs, trace⟩ := w
    simp only at hc ha
    subst hc ha
    simp [childRun, childStep, EXIT_ne_ACK, Ne.symm CALL_ne_EXIT]
  have hall : ∀ n, childRun os (n + 3) w = { w with child := ChildPc.exited EXIT_SUCCESS } := by
    intro n
    rw [Nat.add_comm, childRun_add, h3]
    exact childRun_exited os n _ EXIT_SUCCESS rfl
  refine ⟨hall, fun n => ?_⟩
  rw [hall n]
  exact ⟨ha, rfl, rfl⟩

/-- Witness of C20. -/
theorem child_exit_request_witness :
    (∀ n, childRun demoOS (n + 3) { demoWorld [] true with ack := EXIT } =
      { demoWorld [] true with ack := EXIT, child := ChildPc.exited EXIT_SUCCESS }) ∧
    (∀ n, (childRun demoOS (n + 3) { demoWorld [] true with ack := EXIT }).ack = EXIT ∧
      (childRun demoOS (n + 3) { demoWorld [] true with ack := EXIT }).trace = [] ∧
      (childRun demoOS (n + 3) { demoWorld [] true with ack := EXIT }).fs = []) :=
  child_exit_request demoOS { demoWorld [] true with ack := EXIT } rfl rfl

end Worker

/-! # The toolchain options -/

section Toolchain

/-- C15 fails as stated: with the Linux-style linker the synthesized command is
`install --backup=none sym_ABC ./libmjit.so`, which asks that no backup be made; with the
Apple-style linker the command has no backup option at all. -/
theorem install_asks_no_backup :
    commandText (installTokens (demoCfg "c++" false) "sym_ABC") =
      "install --backup=none sym_ABC ./libmjit.so " ∧
    asksBackup (ARbackup (demoCfg "c++" false)) = false ∧
    commandText (installTokens { demoCfg "c++" false with APPLE := true } "sym_ABC") =
      "install  sym_ABC ./libmjit.so " ∧
    asksBackup (ARbackup { demoCfg "c++" false with APPLE := true }) = false := by
  decide

/-- C15 as amended: for every configuration the install command is `install`, the backup
option of the linker variant, the temporary image and `./libmjit.so`; the backup option is
`--backup=none` with the Linux-style linker and empty with the Apple-style one, and in
neither case does it ask for a backup. -/
theorem install_backup_option (cfg : Config) (symbol : String) :
    installTokens cfg symbol = ["install", ARbackup cfg, symbol, "./libmjit.so"] ∧
    ARbackup cfg = (if cfg.APPLE then "" else "--backup=none") ∧
    asksBackup (ARbackup cfg) = false := by
  refine ⟨rfl, ?_, ?_⟩
  · cases h : cfg.APPLE <;> simp [ARbackup, archive, Link.Backup, h]
  · cases h : cfg.APPLE
    · have e : ARbackup cfg = "--backup=none" := by simp [ARbackup, archive, Link.Backup, h]
      rw [e]; decide
    · have e : ARbackup cfg = "" := by simp [ARbackup, archive, Link.Backup, h]
      rw [e]; decide

end Toolchain

/-! # The command buffer -/

section Buffer

variable {FS : Type}

theorem Fits_refl (w : World FS) : Fits w w := ⟨rfl, Or.inl rfl⟩

theorem Fits_trans {u v w : World FS} (h1 : Fits u v) (h2 : Fits v w) : Fits u w := by
  obtain ⟨s1, m1⟩ := h1
  obtain ⟨s2, m2⟩ := h2
  refine ⟨s2.trans s1, ?_⟩
  rcases m2 with m2 | m2
  · rcases m1 with m1 | m1
    · exact Or.inl (m2.trans m1)
    · exact Or.inr (by rw [m2, s2]; exact m1)
  · exact Or.inr m2

theorem Fits_same {w v : World FS} (h1 : v.mem = w.mem) (h2 : v.size = w.size) : Fits w v :=
  ⟨h2, Or.inl h1⟩

theorem Fits_bind {α β : Type} {w : World FS} (o : Out (World FS) α)
    (f : α → World FS → Out (World FS) β) (h1 : Fits w o.world)
    (h2 : ∀ a v, Fits v (f a v).world) : Fits w (o.bind f).world := by
  cases o with
  | ret a v => exact Fits_trans h1 (h2 a v)
  | fatal m v => exact h1
  | spin v => exact h1

theorem childStep_chan (os : OS FS) (w : World FS) :
    (childStep os w).mem = w.mem ∧ (childStep os w).size = w.size := by
  obtain ⟨fs, ack, mem, size, command, child, mpi, clock, syncs, trace⟩ := w
  cases child <;> simp only [childStep] <;> (try split) <;>
    first
    | exact ⟨rfl, rfl⟩
    | simp

theorem childRun_chan (os : OS FS) (n : Nat) (w : World FS) :
    (childRun os n w).mem = w.mem ∧ (childRun os n w).size = w.size := by
  induction n generalizing w with
  | zero => exact ⟨rfl, rfl⟩
  | succ n ih =>
    obtain ⟨a, b⟩ := ih (childStep os w)
    obtain ⟨c, d⟩ := childStep_chan os w
    exact ⟨a.trans c, b.trans d⟩

theorem tick_chan (env : Env FS) (w : World FS) :
    (tick env w).mem = w.mem ∧ (tick env w).size = w.size :=
  childRun_chan env.os _ w

theorem AckLoop_chan (env : Env FS) (op : Int → Int → Bool) (xx : Int) (n : Nat)
    (w : World FS) :
    (AckLoop env op xx n w).world.mem = w.mem ∧ (AckLoop env op xx n w).world.size = w.size := by
  induction n generalizing w with
  | zero => exact ⟨rfl, rfl⟩
  | succ n ih =>
    simp only [AckLoop]
    obtain ⟨c, d⟩ := tick_chan env w
    split
    · obtain ⟨a, b⟩ := ih (tick env w)
      exact ⟨a.trans c, b.trans d⟩
    · exact ⟨c, d⟩

/-! ## Graded frames through `Lookup` -/

theorem Graded.bind {env : Env FS} {hash : Nat} {source : String}
    {R : Nat → World FS → World FS → Prop} (g : Graded env hash source R) {α β : Type}
    (a b : Nat) (w : World FS) (o : Out (World FS) α) (f : α → World FS → Out (World FS) β)
    (h1 : R a w o.world) (h2 : ∀ x v, R b v (f x v).world) : R (a + b) w (o.bind f).world := by
  cases o with
  | ret x v => exact g.add a b _ _ _ h1 (h2 x v)
  | fatal m v => exact g.mono a (a + b) _ _ (Nat.le_add_right a b) h1
  | spin v => exact g.mono a (a + b) _ _ (Nat.le_add_right a b) h1

theorem Graded.step {env : Env FS} {hash : Nat} {source : String}
    {R : Nat → World FS → World FS → Prop} (g : Graded env hash source R) {α β : Type}
    (n : Nat) (w : World FS) (o : Out (World FS) α) (f : α → World FS → Out (World FS) β)
    (h1 : R 0 w o.world) (h2 : ∀ x v, R n v (f x v).world) : R n w (o.bind f).world := by
  have h := g.bind 0 n w o f h1 h2
  rwa [Nat.zero_add] at h

theorem Graded.zero_trans {env : Env FS} {hash : Nat} {source : String}
    {R : Nat → World FS → World FS → Prop} (g : Graded env hash source R)
    {u v w : World FS} (n : Nat) (h1 : R 0 u v) (h2 : R n v w) : R n u w := by
  have h := g.add 0 n u v w h1 h2
  rwa [Nat.zero_add] at h

theorem RootCompile_graded {env : Env FS} {hash : Nat} {source : String}
    {R : Nat → World FS → World FS → Prop} (g : Graded env hash source R)
    (symbol : String) (w : World FS) :
    R 1 w (RootCompile env hash source symbol w).world := by
  unfold RootCompile
  cases env.os.ofstream w.fs (env.ToString hash ".cc") source with
  | none => exact g.mono 0 1 _ _ (by omega) (g.refl w)
  | some fs1 =>
    simp only []
    refine g.add 1 0 _ _ _ (g.src w fs1) ?_
    refine g.step 0 _ _ _ (g.call _ _) ?_
    intro s1 v1
    split
    · exact g.refl _
    refine g.step 0 _ _ _ (g.zero_trans 0 (g.rm _ v1) (g.call _ _)) ?_
    intro s2 v2
    split
    · exact g.refl _
    refine g.step 0 _ _ _ (g.zero_trans 0 (g.rm _ v2) (g.call _ _)) ?_
    intro s3 v3
    split
    · exact g.refl _
    refine g.step 0 _ _ _ (g.call _ _) ?_
    intro s4 v4
    split <;> exact g.refl _

theorem WorldCompile_graded {env : Env FS} {hash : Nat} {source : String}
    {R : Nat → World FS → World FS → Prop} (g : Graded env hash source R)
    (symbol : String) (w : World FS) :
    R 1 w (WorldCompile env hash source symbol w).world := by
  unfold WorldCompile
  refine g.bind 1 0 _ _ _ ?_ ?_
  · split
    · exact RootCompile_graded g symbol w
    · exact g.mono 0 1 _ _ (by omega) (g.refl w)
  intro status w1
  refine g.step 0 _ _ _ (g.sync status w1) ?_
  intro _ w2
  refine g.step 0 _ _ _ (g.zero_trans 0 (g.load _ w2) (g.sync _ _)) ?_
  intro _ w3
  split <;> exact g.refl _

theorem LookupCache_graded {env : Env FS} {hash : Nat} {source : String}
    {R : Nat → World FS → World FS → Prop} (g : Graded env hash source R) (w : World FS) :
    R 0 w (LookupCache env w).world := by
  unfold LookupCache
  have h0 : R 0 w (if env.os.fstream w.fs so = true then DLopen env so w else (none, w)).2 := by
    split
    · exact g.load so w
    · exact g.refl w
  simp only []
  generalize (if env.os.fstream w.fs so = true then DLopen env so w else (none, w)) = r at h0 ⊢
  split
  · refine g.zero_trans 0 h0 (g.step 0 _ _ _ ?_ ?_)
    · split
      · exact g.call _ _
      · exact g.refl _
    intro status w1
    refine g.step 0 _ _ _ (g.sync status w1) ?_
    intro _ w2
    split <;> exact g.load so w2
  · exact h0

theorem Lookup_graded {env : Env FS} {hash : Nat} {source : String}
    {R : Nat → World FS → World FS → Prop} (g : Graded env hash source R)
    (symbol : String) (w : World FS) :
    R 2 w (Lookup env hash source symbol w).world := by
  unfold Lookup
  refine g.step 2 _ _ _ (LookupCache_graded g w) ?_
  intro handle0 w1
  refine g.bind 1 1 _ _ _ ?_ ?_
  · split
    · exact g.bind 1 0 _ _ _ (WorldCompile_graded g symbol w1) (fun _ _ => g.refl _)
    · exact g.mono 0 1 _ _ (by omega) (g.refl w1)
  intro handle1 w2
  split
  · exact g.mono 0 1 _ _ (by omega) (g.refl w2)
  refine g.bind 1 0 _ _ _ ?_ ?_
  · split
    · exact g.bind 1 0 _ _ _ (WorldCompile_graded g symbol w2) (fun _ _ => g.refl _)
    · exact g.mono 0 1 _ _ (by omega) (g.refl w2)
  intro kernel w3
  split
  · exact g.refl _
  · exact g.rm symbol w3

/-! ## The buffer is written in `Call` only, after the length check -/

theorem Write_chan (env : Env FS) (xx : Int) (w : World FS) :
    (Write env xx w).mem = w.mem ∧ (Write env xx w).size = w.size :=
  tick_chan env w

theorem Send_chan (env : Env FS) (xx : Int) (w : World FS) :
    (Send env xx w).world.mem = w.mem ∧ (Send env xx w).world.size = w.size := by
  obtain ⟨a1, b1⟩ := Write_chan env xx w
  obtain ⟨a2, b2⟩ := tick_chan env (Write env xx w)
  obtain ⟨a3, b3⟩ := AckLoop_chan env (fun a b => a != b) (Read env (Write env xx w)).1
    env.fuel (Read env (Write env xx w)).2
  exact ⟨(a3.trans a2).trans a1, (b3.trans b2).trans b1⟩

theorem Call_buffer (env : Env FS) (c : String) (w : World FS) :
    (Call env c w).world.size = w.size ∧
    ((Call env c w).world.mem = w.mem ∨
      (1 + strlen c < w.size ∧ (Call env c w).world.mem = c)) := by
  by_cases hroot : mpi.Root env w = true
  swap
  · rw [Call_not_root env c w (by simpa using hroot)]
    exact ⟨rfl, Or.inl rfl⟩
  by_cases hinit : mpi.IsInitialized env w = true
  swap
  · rw [Call_serial env c w (by simpa using hinit)]
    exact ⟨rfl, Or.inl rfl⟩
  by_cases hfit : 1 + strlen c < w.size
  swap
  · rw [Call_too_long env c w hroot hinit hfit]
    exact ⟨rfl, Or.inl rfl⟩
  have hinit' : mpi.IsInitialized env { w with trace := w.trace ++ [Event.warning c] } = true :=
    hinit
  simp only [Call, hroot, hinit', hfit, Bool.not_true, Bool.false_eq_true, if_false,
    decide_True, Wait, AckNE]
  have hm : (Memcpy env c { w with trace := w.trace ++ [Event.warning c] }).mem = c ∧
      (Memcpy env c { w with trace := w.trace ++ [Event.warning c] }).size = w.size :=
    ⟨rfl, (tick_chan env _).2⟩
  generalize Memcpy env c { w with trace := w.trace ++ [Event.warning c] } = x at hm ⊢
  have a1 : x.mem = x.mem := rfl
  have b1 : x.size = x.size := rfl
  obtain ⟨a2, b2⟩ := Send_chan env CALL x
  cases h2 : Send env CALL x with
  | ret u v =>
    rw [h2] at a2 b2
    simp only [Out.world] at a2 b2
    obtain ⟨a3, b3⟩ := AckLoop_chan env (fun a b => a != b) ACK env.fuel v
    simp only [Out.bind_ret]
    cases h3 : AckLoop env (fun a b => a != b) ACK env.fuel v with
    | ret u' v' =>
      rw [h3] at a3 b3
      simp only [Out.world] at a3 b3
      simp only [Out.bind_ret, Out.world]
      exact ⟨((b3.trans b2).trans b1).trans hm.2,
        Or.inr ⟨trivial, ((a3.trans a2).trans a1).trans hm.1⟩⟩
    | fatal m v' =>
      rw [h3] at a3 b3
      simp only [Out.world] at a3 b3
      simp only [Out.bind_fatal, Out.world]
      exact ⟨((b3.trans b2).trans b1).trans hm.2,
        Or.inr ⟨trivial, ((a3.trans a2).trans a1).trans hm.1⟩⟩
    | spin v' =>
      rw [h3] at a3 b3
      simp only [Out.world] at a3 b3
      simp only [Out.bind_spin, Out.world]
      exact ⟨((b3.trans b2).trans b1).trans hm.2,
        Or.inr ⟨trivial, ((a3.trans a2).trans a1).trans hm.1⟩⟩
  | fatal m v =>
    rw [h2] at a2 b2
    simp only [Out.world] at a2 b2
    simp only [Out.bind_fatal, Out.world]
    exact ⟨(b2.trans b1).trans hm.2, Or.inr ⟨trivial, (a2.trans a1).trans hm.1⟩⟩
  | spin v =>
    rw [h2] at a2 b2
    simp only [Out.world] at a2 b2
    simp only [Out.bind_spin, Out.world]
    exact ⟨(b2.trans b1).trans hm.2, Or.inr ⟨trivial, (a2.trans a1).trans hm.1⟩⟩

theorem Sync_chan (env : Env FS) (status : Int) (w : World FS) :
    (mpi.Sync env status w).world.mem = w.mem ∧ (mpi.Sync env status w).world.size = w.size := by
  by_cases h : mpi.IsInitialized env w = true
  · rw [Sync_mpi env status w h]
    split <;> exact ⟨rfl, rfl⟩
  · rw [Sync_serial env status w (by simpa using h)]
    split <;> exact ⟨rfl, rfl⟩

theorem Fits_graded (env : Env FS) (hash : Nat) (source : String) :
    Graded env hash source (fun _ w v => Fits w v) where
  refl := Fits_refl
  add := fun _ _ _ _ _ h1 h2 => Fits_trans h1 h2
  mono := fun _ _ _ _ _ h => h
  call := by
    intro toks v
    obtain ⟨hs, hm⟩ := Call_buffer env (Command.pushAll toks v).command
      { Command.pushAll toks v with command := "" }
    have e1 : ({ Command.pushAll toks v with command := "" } : World FS).size = v.size := by
      rw [pushAll_eq]
    have e2 : ({ Command.pushAll toks v with command := "" } : World FS).mem = v.mem := by
      rw [pushAll_eq]
    refine ⟨hs.trans e1, ?_⟩
    rcases hm with hm | ⟨hfit, hm⟩
    · exact Or.inl (hm.trans e2)
    · refine Or.inr ?_
      show 1 + strlen (Call env _ _).world.mem ≤ (Call env _ _).world.size
      rw [hm, hs]
      exact Nat.le_of_lt hfit
  rm := fun _ _ => Fits_same rfl rfl
  sync := fun s v => Fits_same (Sync_chan env s v).1 (Sync_chan env s v).2
  load := fun _ _ => Fits_same rfl rfl
  src := fun _ _ => Fits_same rfl rfl

/-- C18 (channel invariant): `Call` leaves the size of the buffer alone, and either leaves its
text alone or has written the command `c` into it after checking `1 + strlen(c) < Size()`,
so that the text and its terminator fit.  `Lookup` writes the buffer through `Call` only:
after it, whatever its outcome, the buffer holds the text it held before or a text that fits
with its terminator. -/
theorem buffer_write_fits (env : Env FS) (hash : Nat) (source symbol : String) (w : World FS) :
    (∀ c, (Call env c w).world.size = w.size ∧
      ((Call env c w).world.mem = w.mem ∨
        (1 + strlen c ≤ w.size ∧ (Call env c w).world.mem = c))) ∧
    (Lookup env hash source symbol w).world.size = w.size ∧
    ((Lookup env hash source symbol w).world.mem = w.mem ∨
      1 + strlen (Lookup env hash source symbol w).world.mem ≤
        (Lookup env hash source symbol w).world.size) := by
  refine ⟨fun c => ?_, Lookup_graded (Fits_graded env hash source) symbol w⟩
  obtain ⟨hs, hm⟩ := Call_buffer env c w
  refine ⟨hs, ?_⟩
  rcases hm with hm | ⟨hfit, hm⟩
  · exact Or.inl hm
  · exact Or.inr ⟨Nat.le_of_lt hfit, hm⟩

end Buffer

/-! # Runs of `Lookup` that return -/

section Returns

variable {FS : Type}

theorem written_callEvent (l : List Event) (h : ∀ e ∈ l, ∃ b, CallEvent b e) :
    written l = [] ∧ opened l = [] := by
  induction l with
  | nil => exact ⟨rfl, rfl⟩
  | cons e l ih =>
    have hl := ih (fun x hx => h x (List.mem_cons_of_mem _ hx))
    obtain ⟨b, hb⟩ := h e (List.mem_cons_self _ _)
    rcases hb with ⟨c, rfl⟩ | ⟨c, st, rfl⟩ <;> simpa [written, opened] using hl

theorem written_allreduce (l : List Event) (h : ∀ e ∈ l, ∃ s, e = Event.allreduce s) :
    written l = [] ∧ opened l = [] := by
  induction l with
  | nil => exact ⟨rfl, rfl⟩
  | cons e l ih =>
    have hl := ih (fun x hx => h x (List.mem_cons_of_mem _ hx))
    obtain ⟨s, rfl⟩ := h e (List.mem_cons_self _ _)
    simpa [written, opened] using hl

theorem Sync_ret (env : Env FS) (status : Int) (w v : World FS)
    (h : mpi.Sync env status w = .ret () v) :
    status = EXIT_SUCCESS ∧ v.mpiInitialized = w.mpiInitialized ∧
    ∃ n, v.trace = w.trace ++ n ∧ ∀ e ∈ n, ∃ s, e = Event.allreduce s := by
  by_cases hi : mpi.IsInitialized env w = true
  · rw [Sync_mpi env status w hi] at h
    split at h
    · rename_i hz
      simp only [Out.ret.injEq, true_and] at h
      subst h
      exact ⟨((MPI_Allreduce_LOR_eq_zero _ _).mp hz).1, rfl, [_], rfl, by simp⟩
    · exact absurd h (by simp)
  · rw [Sync_serial env status w (by simpa using hi)] at h
    split at h
    · rename_i hz
      simp only [Out.ret.injEq, true_and] at h
      subst h
      exact ⟨hz, rfl, [], by simp, by simp⟩
    · exact absurd h (by simp)

theorem CallCommand_ret (env : Env FS) (toks : List String) (x v : World FS) (s : Int)
    (h : CallCommand env (Command.pushAll toks x) = .ret s v) :
    v.mpiInitialized = x.mpiInitialized ∧
    ∃ n, v.trace = x.trace ++ n ∧ written n = [] ∧ opened n = [] := by
  have e := (pushAll_ext (CallEvent (mpi.IsInitialized env (Command.pushAll toks x))) toks x).trans
    (CallCommand_ext env (Command.pushAll toks x))
  rw [h] at e
  obtain ⟨hi, n, ht, hn⟩ := e
  obtain ⟨a, b⟩ := written_callEvent n (fun e he => ⟨_, hn e he⟩)
  exact ⟨hi, n, ht, a, b⟩

/-- A run of `RootCompile` that returns has failed, or has written the source file once and
removed both intermediate files, in this order, with nothing loaded. -/
theorem RootCompile_ret (env : Env FS) (hash : Nat) (source symbol : String) (w v : World FS)
    (s : Int) (h : RootCompile env hash source symbol w = .ret s v) :
    v.mpiInitialized = w.mpiInitialized ∧
    (s = EXIT_FAILURE ∨
     (s = EXIT_SUCCESS ∧ ∃ n1 n2 n3,
        v.trace = w.trace ++ (Event.ofstream (env.ToString hash ".cc") source :: n1 ++
          Event.remove (env.ToString hash ".cc") :: (n2 ++
          Event.remove (env.ToString hash ".co") :: n3)) ∧
        written n1 = [] ∧ opened n1 = [] ∧ written n2 = [] ∧ opened n2 = [] ∧
        written n3 = [] ∧ opened n3 = [])) := by
  unfold RootCompile at h
  cases hsrc : env.os.ofstream w.fs (env.ToString hash ".cc") source with
  | none => rw [hsrc] at h; exact absurd h (by simp)
  | some fs1 =>
    rw [hsrc] at h
    simp only [] at h
    cases c1 : CallCommand env (Command.pushAll (compileTokens env hash)
        { w with fs := fs1, trace := w.trace ++
          [Event.ofstream (env.ToString hash ".cc") source] }) with
    | fatal m u => rw [c1] at h; exact absurd h (by simp)
    | spin u => rw [c1] at h; exact absurd h (by simp)
    | ret s1 v1 =>
      rw [c1] at h
      simp only [Out.bind_ret] at h
      obtain ⟨i1, n1, t1, a1, b1⟩ := CallCommand_ret env _ _ _ _ c1
      by_cases hs1 : (s1 != 0) = true
      · rw [if_pos hs1] at h
        simp only [Out.ret.injEq] at h
        obtain ⟨rfl, rfl⟩ := h
        exact ⟨i1, Or.inl rfl⟩
      rw [if_neg hs1] at h
      cases c2 : CallCommand env (Command.pushAll (archiveTokens env hash)
          (stdRemove env (env.ToString hash ".cc") v1)) with
      | fatal m u => rw [c2] at h; exact absurd h (by simp)
      | spin u => rw [c2] at h; exact absurd h (by simp)
      | ret s2 v2 =>
        rw [c2] at h
        simp only [Out.bind_ret] at h
        obtain ⟨i2, n2, t2, a2, b2⟩ := CallCommand_ret env _ _ _ _ c2
        by_cases hs2 : (s2 != 0) = true
        · rw [if_pos hs2] at h
          simp only [Out.ret.injEq] at h
          obtain ⟨rfl, rfl⟩ := h
          exact ⟨i2.trans i1, Or.inl rfl⟩
        rw [if_neg hs2] at h
        cases c3 : CallCommand env (Command.pushAll (linkTokens env.cfg symbol)
            (stdRemove env (env.ToString hash ".co") v2)) with
        | fatal m u => rw [c3] at h; exact absurd h (by simp)
        | spin u => rw [c3] at h; exact absurd h (by simp)
        | ret s3 v3 =>
          rw [c3] at h
          simp only [Out.bind_ret] at h
          obtain ⟨i3, n3, t3, a3, b3⟩ := CallCommand_ret env _ _ _ _ c3
          by_cases hs3 : (s3 != 0) = true
          · rw [if_pos hs3] at h
            simp only [Out.ret.injEq] at h
            obtain ⟨rfl, rfl⟩ := h
            exact ⟨i3.trans (i2.trans i1), Or.inl rfl⟩
          rw [if_neg hs3] at h
          cases c4 : CallCommand env (Command.pushAll (installTokens env.cfg symbol) v3) with
          | fatal m u => rw [c4] at h; exact absurd h (by simp)
          | spin u => rw [c4] at h; exact absurd h (by simp)
          | ret s4 v4 =>
            rw [c4] at h
            simp only [Out.bind_ret] at h
            obtain ⟨i4, n4, t4, a4, b4⟩ := CallCommand_ret env _ _ _ _ c4
            by_cases hs4 : (s4 != 0) = true
            · rw [if_pos hs4] at h
              simp only [Out.ret.injEq] at h
              obtain ⟨rfl, rfl⟩ := h
              exact ⟨i4.trans (i3.trans (i2.trans i1)), Or.inl rfl⟩
            rw [if_neg hs4] at h
            simp only [Out.ret.injEq] at h
            obtain ⟨rfl, rfl⟩ := h
            refine ⟨i4.trans (i3.trans (i2.trans i1)), Or.inr ⟨rfl, n1, n2, n3 ++ n4, ?_,
              a1, b1, a2, b2, ?_, ?_⟩⟩
            · simp only [stdRemove] at t2 t3
              rw [t4, t3, t2, t1]
              simp
            · rw [written_append, a3, a4]; rfl
            · rw [opened_append, b3, b4]; rfl

theorem Wrote.of_quiet {env : Env FS} {hash : Nat} {w v : World FS}
    (hi : v.mpiInitialized = w.mpiInitialized) (new : List Event)
    (ht : v.trace = w.trace ++ new) (hw : written new = []) : Wrote env hash 0 w v :=
  ⟨hi, new, ht, 0, le_refl 0, by rw [hw]; rfl⟩

theorem Wrote_graded (env : Env FS) (hash : Nat) (source : String) :
    Graded env hash source (Wrote env hash) where
  refl w := Wrote.of_quiet rfl [] (by simp) rfl
  add a b u v w h1 h2 := by
    obtain ⟨i1, n1, t1, k1, l1, w1⟩ := h1
    obtain ⟨i2, n2, t2, k2, l2, w2⟩ := h2
    refine ⟨i2.trans i1, n1 ++ n2, ?_, k1 + k2, by omega, ?_⟩
    · rw [t2, t1, List.append_assoc]
    · rw [written_append, w1, w2, List.replicate_add]
  mono a b u v hab h := by
    obtain ⟨i1, n1, t1, k1, l1, w1⟩ := h
    exact ⟨i1, n1, t1, k1, by omega, w1⟩
  call toks v := by
    have e := (pushAll_ext (CallEvent (mpi.IsInitialized env (Command.pushAll toks v))) toks
      v).trans (CallCommand_ext env (Command.pushAll toks v))
    obtain ⟨hi, n, ht, hn⟩ := e
    exact Wrote.of_quiet hi n ht (written_callEvent n (fun e he => ⟨_, hn e he⟩)).1
  rm p v := Wrote.of_quiet rfl [Event.remove p] rfl rfl
  sync s v := by
    by_cases h : mpi.IsInitialized env v = true
    · rw [Sync_mpi env s v h]
      split <;> exact Wrote.of_quiet rfl [Event.allreduce s] rfl rfl
    · rw [Sync_serial env s v (by simpa using h)]
      split <;> exact Wrote.of_quiet rfl [] (by simp [Out.world]) rfl
  load p v := Wrote.of_quiet rfl [Event.dlopen p] rfl rfl
  src w fs1 := ⟨rfl, [_], rfl, 1, le_refl 1, rfl⟩

/-- The handle `WorldCompile` returns comes from loading the temporary image. -/
theorem WorldCompile_handle (env : Env FS) (hash : Nat) (source symbol : String)
    (w v : World FS) (h : Nat) (hret : WorldCompile env hash source symbol w = .ret h v) :
    ∃ fs, env.os.dlopen fs ("./" ++ symbol) = some h := by
  unfold WorldCompile at hret
  cases hrc : (if mpi.Root env w = true then RootCompile env hash source symbol w
      else Out.ret EXIT_SUCCESS w) with
  | fatal m u => rw [hrc] at hret; exact absurd hret (by simp)
  | spin u => rw [hrc] at hret; exact absurd hret (by simp)
  | ret s v1 =>
    rw [hrc] at hret
    simp only [Out.bind_ret] at hret
    cases hs1 : mpi.Sync env s v1 with
    | fatal m u => rw [hs1] at hret; exact absurd hret (by simp)
    | spin u => rw [hs1] at hret; exact absurd hret (by simp)
    | ret u1 w2 =>
      rw [hs1] at hret
      simp only [Out.bind_ret] at hret
      cases hs2 : mpi.Sync env EXIT_SUCCESS (DLopen env ("./" ++ symbol) w2).2 with
      | fatal m u => rw [hs2] at hret; exact absurd hret (by simp)
      | spin u => rw [hs2] at hret; exact absurd hret (by simp)
      | ret u2 w3 =>
        rw [hs2] at hret
        simp only [Out.bind_ret] at hret
        split at hret
        · exact absurd hret (by simp)
        · rename_i h1 hd
          simp only [Out.ret.injEq] at hret
          exact ⟨w2.fs, by rw [← hret.1]; exact hd⟩

/-- A run of `WorldCompile` that returns has loaded the temporary image once, after the
build (if the process is the root) and before the second reduction. -/
theorem WorldCompile_ret (env : Env FS) (hash : Nat) (source symbol : String)
    (w v : World FS) (h : Nat) (hret : WorldCompile env hash source symbol w = .ret h v) :
    v.mpiInitialized = w.mpiInitialized ∧
    ∃ pre post, v.trace = w.trace ++ (pre ++ Event.dlopen ("./" ++ symbol) :: post) ∧
      opened pre = [] ∧ written post = [] ∧ opened post = [] ∧
      (mpi.Root env w = true → Cleaned env hash pre) ∧
      (mpi.Root env w = false → written pre = []) := by
  unfold WorldCompile at hret
  cases hrc : (if mpi.Root env w = true then RootCompile env hash source symbol w
      else Out.ret EXIT_SUCCESS w) with
  | fatal m u => rw [hrc] at hret; exact absurd hret (by simp)
  | spin u => rw [hrc] at hret; exact absurd hret (by simp)
  | ret s v1 =>
    rw [hrc] at hret
    simp only [Out.bind_ret] at hret
    cases hs1 : mpi.Sync env s v1 with
    | fatal m u => rw [hs1] at hret; exact absurd hret (by simp)
    | spin u => rw [hs1] at hret; exact absurd hret (by simp)
    | ret u1 w2 =>
      rw [hs1] at hret
      simp only [Out.bind_ret] at hret
      obtain ⟨hs, j1, m1, t1, a1⟩ := Sync_ret env s v1 w2 hs1
      obtain ⟨wa1, oa1⟩ := written_allreduce m1 a1
      cases hs2 : mpi.Sync env EXIT_SUCCESS (DLopen env ("./" ++ symbol) w2).2 with
      | fatal m u => rw [hs2] at hret; exact absurd hret (by simp)
      | spin u => rw [hs2] at hret; exact absurd hret (by simp)
      | ret u2 w3 =>
        rw [hs2] at hret
        simp only [Out.bind_ret] at hret
        obtain ⟨-, j2, m2, t2, a2⟩ := Sync_ret env _ _ w3 hs2
        obtain ⟨wa2, oa2⟩ := written_allreduce m2 a2
        simp only [DLopen] at t2 j2
        split at hret
        · exact absurd hret (by simp)
        simp only [Out.ret.injEq] at hret
        obtain ⟨-, rfl⟩ := hret
        by_cases hroot : mpi.Root env w = true
        · rw [if_pos hroot] at hrc
          obtain ⟨j0, hcase⟩ := RootCompile_ret env hash source symbol w v1 s hrc
          rcases hcase with hf | ⟨-, n1, n2, n3, t0, x1, y1, x2, y2, x3, y3⟩
          · rw [hf] at hs; exact absurd hs (by decide)
          refine ⟨j2.trans (j1.trans j0),
            (Event.ofstream (env.ToString hash ".cc") source :: n1) ++
              Event.remove (env.ToString hash ".cc") ::
                (n2 ++ Event.remove (env.ToString hash ".co") :: (n3 ++ m1)),
            m2, ?_, ?_, wa2, oa2, ?_, ?_⟩
          · rw [t2, t1, t0]
            simp
          · simp [opened_append, opened, y1, y2, y3, oa1]
          · intro _
            exact ⟨_, n2, n3 ++ m1, rfl, x2, by rw [written_append, x3, wa1]; rfl⟩
          · intro hn; rw [hroot] at hn; exact absurd hn (by simp)
        · rw [if_neg hroot] at hrc
          simp only [Out.ret.injEq] at hrc
          obtain ⟨-, rfl⟩ := hrc
          refine ⟨j2.trans j1, m1, m2, ?_, oa1, wa2, oa2, ?_, ?_⟩
          · rw [t2, t1]; simp
          · intro hr; exact absurd hr hroot
          · intro _; exact wa1

theorem Lookup_resolve_ret (env : Env FS) (hash : Nat) (source symbol : String)
    (h1 : Nat) (w2 v : World FS) (k : Nat)
    (hret : ((match env.os.dlsym h1 symbol with
        | none => (WorldCompile env hash source symbol w2).bind fun h2 v =>
                    .ret (env.os.dlsym h2 symbol) v
        | some k => .ret (some k) w2 : Out (World FS) (Option Nat)).bind fun kernel w3 =>
        match kernel with
        | none => .fatal "[JIT] No kernel could be found!" w3
        | some k => .ret k (stdRemove env symbol w3)) = .ret k v) :
    Resolves env hash source symbol k v h1 w2 := by
  cases hd : env.os.dlsym h1 symbol with
  | some k1 =>
    rw [hd] at hret
    simp only [Out.bind_ret, Out.ret.injEq] at hret
    obtain ⟨rfl, rfl⟩ := hret
    exact Or.inl ⟨hd, rfl⟩
  | none =>
    rw [hd] at hret
    simp only [] at hret
    cases hwc : WorldCompile env hash source symbol w2 with
    | fatal m u => rw [hwc] at hret; exact absurd hret (by simp)
    | spin u => rw [hwc] at hret; exact absurd hret (by simp)
    | ret h2 v2 =>
      rw [hwc] at hret
      simp only [Out.bind_ret] at hret
      cases hd2 : env.os.dlsym h2 symbol with
      | none => rw [hd2] at hret; exact absurd hret (by simp)
      | some k2 =>
        rw [hd2] at hret
        simp only [Out.ret.injEq] at hret
        obtain ⟨rfl, rfl⟩ := hret
        exact Or.inr ⟨hd, h2, v2, hwc, hd2, rfl⟩

/-- The ways in which `Lookup` returns: the cache gives no handle and `WorldCompile` gives
one, or the cache gives one; then the symbol is resolved. -/
theorem Lookup_ret_cases (env : Env FS) (hash : Nat) (source symbol : String)
    (w v : World FS) (k : Nat) (hret : Lookup env hash source symbol w = .ret k v) :
    ∃ handle0 w1, LookupCache env w = .ret handle0 w1 ∧
      ((handle0 = none ∧ ∃ h1 v1, WorldCompile env hash source symbol w1 = .ret h1 v1 ∧
          Resolves env hash source symbol k v h1 v1) ∨
       (∃ h1, handle0 = some h1 ∧ Resolves env hash source symbol k v h1 w1)) := by
  unfold Lookup at hret
  cases hc : LookupCache env w with
  | fatal m u => rw [hc] at hret; exact absurd hret (by simp)
  | spin u => rw [hc] at hret; exact absurd hret (by simp)
  | ret handle0 w1 =>
    rw [hc] at hret
    simp only [Out.bind_ret] at hret
    refine ⟨handle0, w1, rfl, ?_⟩
    cases handle0 with
    | some h1 =>
      simp only [Out.bind_ret] at hret
      exact Or.inr ⟨h1, rfl, Lookup_resolve_ret env hash source symbol h1 w1 v k hret⟩
    | none =>
      simp only [] at hret
      cases hwc : WorldCompile env hash source symbol w1 with
      | fatal m u => rw [hwc] at hret; exact absurd hret (by simp)
      | spin u => rw [hwc] at hret; exact absurd hret (by simp)
      | ret h1 v1 =>
        rw [hwc] at hret
        simp only [Out.bind_ret] at hret
        exact Or.inl ⟨rfl, h1, v1, rfl,
          Lookup_resolve_ret env hash source symbol h1 v1 v k hret⟩

theorem Cleaned.append_left {env : Env FS} {hash : Nat} {new : List Event}
    (h : Cleaned env hash new) (pfx : List Event) : Cleaned env hash (pfx ++ new) := by
  obtain ⟨a, b, c, rfl, hb, hc⟩ := h
  exact ⟨pfx ++ a, b, c, by simp, hb, hc⟩

theorem Cleaned.append_right {env : Env FS} {hash : Nat} {new : List Event}
    (h : Cleaned env hash new) (sfx : List Event) (hs : written sfx = []) :
    Cleaned env hash (new ++ sfx) := by
  obtain ⟨a, b, c, rfl, hb, hc⟩ := h
  exact ⟨a, b, c ++ sfx, by simp, hb, by rw [written_append, hc, hs]; rfl⟩

theorem Cleaned_or_append {env : Env FS} {hash : Nat} {a b : List Event}
    (ha : Cleaned env hash a ∨ written a = [])
    (hb : Cleaned env hash b ∨ written b = []) :
    Cleaned env hash (a ++ b) ∨ written (a ++ b) = [] := by
  rcases hb with hb | hb
  · exact Or.inl (hb.append_left a)
  · rcases ha with ha | ha
    · exact Or.inl (ha.append_right b hb)
    · exact Or.inr (by rw [written_append, ha, hb]; rfl)

/-- The events of a run of `WorldCompile` that returns: one load, of the temporary image, and
either a complete build with both intermediate files removed or no write at all. -/
theorem WorldCompile_ret_trace (env : Env FS) (hash : Nat) (source symbol : String)
    (w v : World FS) (h : Nat) (hret : WorldCompile env hash source symbol w = .ret h v) :
    ∃ new, v.trace = w.trace ++ new ∧ opened new = ["./" ++ symbol] ∧
      (Cleaned env hash new ∨ written new = []) := by
  obtain ⟨-, pre, post, ht, hop, hwp, hoq, hroot, hnot⟩ :=
    WorldCompile_ret env hash source symbol w v h hret
  refine ⟨_, ht, ?_, ?_⟩
  · rw [opened_append, hop]
    simp [opened, hoq]
  · have hq : written (Event.dlopen ("./" ++ symbol) :: post) = [] := by
      simpa [written] using hwp
    cases hr : mpi.Root env w with
    | true => exact Or.inl ((hroot hr).append_right _ hq)
    | false => exact Or.inr (by rw [written_append, hnot hr, hq]; rfl)

/-- The events of the cache step of `Lookup`: no write. -/
theorem LookupCache_ret_trace (env : Env FS) (hash : Nat) (w w1 : World FS)
    (handle0 : Option Nat) (hc : LookupCache env w = .ret handle0 w1) :
    ∃ new, w1.trace = w.trace ++ new ∧ written new = [] := by
  have g := LookupCache_graded (Wrote_graded env hash "") w
  rw [hc] at g
  obtain ⟨-, new, ht, k, hk, hw⟩ := g
  have hk0 : k = 0 := by omega
  subst hk0
  exact ⟨new, ht, hw⟩

theorem Resolves_trace (env : Env FS) (hash : Nat) (source symbol : String) (k : Nat)
    (v : World FS) (h1 : Nat) (w2 : World FS)
    (hres : Resolves env hash source symbol k v h1 w2) :
    ∃ mid, v.trace = w2.trace ++ (mid ++ [Event.remove symbol]) ∧
      (Cleaned env hash mid ∨ written mid = []) ∧
      (∀ p ∈ opened mid, p = "./" ++ symbol) ∧
      ((env.os.dlsym h1 symbol = some k ∧ mid = []) ∨
       (env.os.dlsym h1 symbol = none ∧ opened mid = ["./" ++ symbol] ∧
          ∃ h2 fs, env.os.dlopen fs ("./" ++ symbol) = some h2 ∧
            env.os.dlsym h2 symbol = some k)) := by
  rcases hres with ⟨hd, rfl⟩ | ⟨hd, h2, v2, hwc, hd2, rfl⟩
  · exact ⟨[], by simp [stdRemove], Or.inr rfl, by simp [opened], Or.inl ⟨hd, rfl⟩⟩
  · obtain ⟨new, ht, hop, hcl⟩ := WorldCompile_ret_trace env hash source symbol w2 v2 h2 hwc
    obtain ⟨fs, hfs⟩ := WorldCompile_handle env hash source symbol w2 v2 h2 hwc
    refine ⟨new, ?_, hcl, ?_, Or.inr ⟨hd, hop, h2, fs, hfs, hd2⟩⟩
    · simp only [stdRemove]; rw [ht, List.append_assoc]
    · intro p hp; rw [hop] at hp; simpa using hp

/-- The events of a run of `Lookup` that returns: a complete build with both intermediate
files removed or no write at all, and the removal of the temporary image last. -/
theorem Lookup_ret_trace (env : Env FS) (hash : Nat) (source symbol : String)
    (w v : World FS) (k : Nat) (hret : Lookup env hash source symbol w = .ret k v) :
    ∃ body, v.trace = w.trace ++ (body ++ [Event.remove symbol]) ∧
      (Cleaned env hash body ∨ written body = []) := by
  obtain ⟨handle0, w1, hc, hcase⟩ := Lookup_ret_cases env hash source symbol w v k hret
  obtain ⟨c, tc, wc⟩ := LookupCache_ret_trace env hash w w1 handle0 hc
  rcases hcase with ⟨-, h1, v1, hwc, hres⟩ | ⟨h1, -, hres⟩
  · obtain ⟨n1, t1, -, cl1⟩ := WorldCompile_ret_trace env hash source symbol w1 v1 h1 hwc
    obtain ⟨mid, tm, clm, -, -⟩ := Resolves_trace env hash source symbol k v h1 v1 hres
    refine ⟨c ++ (n1 ++ mid), ?_, Cleaned_or_append (Or.inr wc) (Cleaned_or_append cl1 clm)⟩
    rw [tm, t1, tc]
    simp
  · obtain ⟨mid, tm, clm, -, -⟩ := Resolves_trace env hash source symbol k v h1 w1 hres
    refine ⟨c ++ mid, ?_, Cleaned_or_append (Or.inr wc) clm⟩
    rw [tm, tc]
    simp

/-- When every image loaded from the temporary path exports the symbol, `Lookup` writes at
most one source file. -/
theorem Lookup_wrote_once (env : Env FS) (hash : Nat) (source symbol : String) (w : World FS)
    (hexp : ∀ fs h, env.os.dlopen fs ("./" ++ symbol) = some h →
      ∃ a, env.os.dlsym h symbol = some a) :
    Wrote env hash 1 w (Lookup env hash source symbol w).world := by
  have g := Wrote_graded env hash source
  have g0 := LookupCache_graded g w
  unfold Lookup
  cases hc : LookupCache env w with
  | fatal m u => rw [hc] at g0; exact g.mono 0 1 _ _ (by omega) g0
  | spin u => rw [hc] at g0; exact g.mono 0 1 _ _ (by omega) g0
  | ret handle0 w1 =>
    rw [hc] at g0
    simp only [Out.bind_ret]
    cases handle0 with
    | none =>
      simp only []
      have g1 := WorldCompile_graded g symbol w1
      cases hwc : WorldCompile env hash source symbol w1 with
      | fatal m u => rw [hwc] at g1; exact g.add 0 1 _ _ _ g0 g1
      | spin u => rw [hwc] at g1; exact g.add 0 1 _ _ _ g0 g1
      | ret h1 v1 =>
        rw [hwc] at g1
        obtain ⟨fs, hfs⟩ := WorldCompile_handle env hash source symbol w1 v1 h1 hwc
        obtain ⟨a, ha⟩ := hexp fs h1 hfs
        simp only [Out.bind_ret, ha]
        exact g.add 0 1 _ _ _ g0 (g.add 1 0 _ _ _ g1 (g.rm symbol v1))
    | some h1 =>
      simp only [Out.bind_ret]
      cases hd : env.os.dlsym h1 symbol with
      | some a =>
        simp only [Out.bind_ret]
        exact g.mono 0 1 _ _ (by omega) (g.add 0 0 _ _ _ g0 (g.rm symbol w1))
      | none =>
        simp only []
        have g1 := WorldCompile_graded g symbol w1
        cases hwc : WorldCompile env hash source symbol w1 with
        | fatal m u => rw [hwc] at g1; exact g.add 0 1 _ _ _ g0 g1
        | spin u => rw [hwc] at g1; exact g.add 0 1 _ _ _ g0 g1
        | ret h2 v2 =>
          rw [hwc] at g1
          simp only [Out.bind_ret]
          cases env.os.dlsym h2 symbol with
          | none => exact g.add 0 1 _ _ _ g0 g1
          | some a => exact g.add 0 1 _ _ _ g0 (g.add 1 0 _ _ _ g1 (g.rm symbol v2))

end Returns

/-! # The images `Lookup` loads, and what a build leaves -/

section Images

variable {FS : Type}

/-- C12 fails as stated: `Lookup` on an empty directory, without MPI, goes through the whole
compile-and-install sequence and returns the kernel, and the only image it has loaded is the
temporary one named by the symbol; `./libmjit.so` is never loaded. -/
theorem Lookup_never_reloads_library :
    Lookup (demoEnv "c++" false 0 (fun _ => 1) 5) 0xABC demoSource "sym_ABC"
        (demoWorld [] false) =
      .ret 42 (Lookup (demoEnv "c++" false 0 (fun _ => 1) 5) 0xABC demoSource "sym_ABC"
        (demoWorld [] false)).world ∧
    (issued (Lookup (demoEnv "c++" false 0 (fun _ => 1) 5) 0xABC demoSource "sym_ABC"
        (demoWorld [] false)).world.trace).length = 4 ∧
    opened (Lookup (demoEnv "c++" false 0 (fun _ => 1) 5) 0xABC demoSource "sym_ABC"
        (demoWorld [] false)).world.trace = ["./sym_ABC"] ∧
    so ∉ opened (Lookup (demoEnv "c++" false 0 (fun _ => 1) 5) 0xABC demoSource "sym_ABC"
        (demoWorld [] false)).world.trace :=
  ⟨rfl, by decide, by decide, by decide⟩

/-- C12 as amended: when the cache step of `Lookup` gives no handle, or one in which the
symbol is not found, and `Lookup` returns the kernel `k`, then every image loaded after the
cache step (there is at least one) is the temporary image at `./` followed by the symbol, and
`k` is the address of the symbol in a handle obtained by loading that path. -/
theorem Lookup_resolves_in_temporary_image (env : Env FS) (hash : Nat)
    (source symbol : String) (w w1 v : World FS) (handle0 : Option Nat) (k : Nat)
    (hcache : LookupCache env w = .ret handle0 w1)
    (hmiss : ∀ h0, handle0 = some h0 → env.os.dlsym h0 symbol = none)
    (hret : Lookup env hash source symbol w = .ret k v) :
    ∃ new, v.trace = w1.trace ++ new ∧ opened new ≠ [] ∧
      (∀ p ∈ opened new, p = "./" ++ symbol) ∧
      ∃ h fs, env.os.dlopen fs ("./" ++ symbol) = some h ∧ env.os.dlsym h symbol = some k := by
  obtain ⟨handle0', w1', hc, hcase⟩ := Lookup_ret_cases env hash source symbol w v k hret
  rw [hcache] at hc
  simp only [Out.ret.injEq] at hc
  obtain ⟨rfl, rfl⟩ := hc
  rcases hcase with ⟨-, h1, v1, hwc, hres⟩ | ⟨h1, rfl, hres⟩
  · obtain ⟨n1, t1, o1, -⟩ := WorldCompile_ret_trace env hash source symbol w1 v1 h1 hwc
    obtain ⟨fs1, hfs1⟩ := WorldCompile_handle env hash source symbol w1 v1 h1 hwc
    obtain ⟨mid, tm, -, om, hk⟩ := Resolves_trace env hash source symbol k v h1 v1 hres
    refine ⟨n1 ++ (mid ++ [Event.remove symbol]), by rw [tm, t1, List.append_assoc], ?_, ?_, ?_⟩
    · rw [opened_append, o1]; simp
    · intro p hp
      rw [opened_append, o1, opened_append] at hp
      simp only [List.mem_append, List.mem_singleton] at hp
      rcases hp with rfl | hp | hp
      · rfl
      · exact om p hp
      · simp [opened] at hp
    · rcases hk with ⟨hd, -⟩ | ⟨-, -, h2, fs2, hfs2, hd2⟩
      · exact ⟨h1, fs1, hfs1, hd⟩
      · exact ⟨h2, fs2, hfs2, hd2⟩
  · obtain ⟨mid, tm, -, om, hk⟩ := Resolves_trace env hash source symbol k v h1 w1 hres
    rcases hk with ⟨hd, -⟩ | ⟨-, o2, h2, fs2, hfs2, hd2⟩
    · rw [hmiss h1 rfl] at hd; exact absurd hd (by simp)
    refine ⟨mid ++ [Event.remove symbol], tm, ?_, ?_, h2, fs2, hfs2, hd2⟩
    · rw [opened_append, o2]; simp
    · intro p hp
      rw [opened_append, o2] at hp
      simp only [List.mem_append, List.mem_singleton] at hp
      rcases hp with rfl | hp
      · rfl
      · simp [opened] at hp

/-- Witness of the amended C12: a lookup on an empty directory without MPI. -/
theorem Lookup_resolves_in_temporary_image_witness :
    ∃ new, (Lookup (demoEnv "c++" false 0 (fun _ => 1) 5) 0xABC demoSource "sym_ABC"
        (demoWorld [] false)).world.trace = (demoWorld [] false).trace ++ new ∧
      opened new ≠ [] ∧ (∀ p ∈ opened new, p = "./" ++ "sym_ABC") ∧
      ∃ h fs, demoOS.dlopen fs ("./" ++ "sym_ABC") = some h ∧
        demoOS.dlsym h "sym_ABC" = some 42 :=
  Lookup_resolves_in_temporary_image (demoEnv "c++" false 0 (fun _ => 1) 5) 0xABC demoSource
    "sym_ABC" (demoWorld [] false) (demoWorld [] false) _ none 42 rfl
    (fun h0 h => absurd h (by simp)) rfl

/-- C13 fails as stated: when the image built from the source does not export the symbol,
one call of `Lookup` on an empty directory runs the compile-and-install sequence twice (two
source files written, eight commands, the compiler among them twice) before it ends in a
fatal error. -/
theorem Lookup_compiles_twice :
    written (Lookup demoEnvNoSymbol 0xABC demoSource "sym_ABC"
        (demoWorld [] false)).world.trace = ["abc.cc", "abc.cc"] ∧
    issued (Lookup demoEnvNoSymbol 0xABC demoSource "sym_ABC"
        (demoWorld [] false)).world.trace =
      ["c++ -O3 -I /mfem -I /mfem/install  -fPIC -pipe -c -o abc.co abc.cc  ",
       "ar -rv libmjit.a abc.co ",
       "c++ -shared -o sym_ABC -Wl,--whole-archive libmjit.a -Wl,--no-whole-archive ",
       "install --backup=none sym_ABC ./libmjit.so ",
       "c++ -O3 -I /mfem -I /mfem/install  -fPIC -pipe -c -o abc.co abc.cc  ",
       "ar -rv libmjit.a abc.co ",
       "c++ -shared -o sym_ABC -Wl,--whole-archive libmjit.a -Wl,--no-whole-archive ",
       "install --backup=none sym_ABC ./libmjit.so "] ∧
    opened (Lookup demoEnvNoSymbol 0xABC demoSource "sym_ABC"
        (demoWorld [] false)).world.trace = ["./sym_ABC", "./sym_ABC"] ∧
    (Lookup demoEnvNoSymbol 0xABC demoSource "sym_ABC" (demoWorld [] false)).isFatal = true := by
  decide

/-- C13 as amended: one call of `Lookup` writes the hash-named source file, with which every
compile-and-install sequence starts, at most twice (once when no image could be loaded from
the cache, once more when the symbol is not found in the image then loaded), and at most
once when every image that can be loaded from the temporary path exports the symbol. -/
theorem Lookup_compiles_at_most_twice (env : Env FS) (hash : Nat) (source symbol : String)
    (w : World FS) :
    (∃ new k, (Lookup env hash source symbol w).world.trace = w.trace ++ new ∧
      written new = List.replicate k (env.ToString hash ".cc") ∧ k ≤ 2) ∧
    ((∀ fs h, env.os.dlopen fs ("./" ++ symbol) = some h →
        ∃ a, env.os.dlsym h symbol = some a) →
      ∃ new k, (Lookup env hash source symbol w).world.trace = w.trace ++ new ∧
        written new = List.replicate k (env.ToString hash ".cc") ∧ k ≤ 1) := by
  constructor
  · obtain ⟨-, new, ht, k, hk, hw⟩ := Lookup_graded (Wrote_graded env hash source) symbol w
    exact ⟨new, k, ht, hw, hk⟩
  · intro hexp
    obtain ⟨-, new, ht, k, hk, hw⟩ := Lookup_wrote_once env hash source symbol w hexp
    exact ⟨new, k, ht, hw, hk⟩

/-- Witness of the amended C13: in the small environment every library exports the symbol,
and a lookup on an empty directory writes the source file once. -/
theorem Lookup_compiles_at_most_twice_witness :
    (∀ fs h, demoOS.dlopen fs ("./" ++ "sym_ABC") = some h →
        ∃ a, demoOS.dlsym h "sym_ABC" = some a) ∧
    (∃ new k, (Lookup (demoEnv "c++" false 0 (fun _ => 1) 5) 0xABC demoSource "sym_ABC"
        (demoWorld [] false)).world.trace = (demoWorld [] false).trace ++ new ∧
      written new = List.replicate k "abc.cc" ∧ k ≤ 1) ∧
    written (Lookup (demoEnv "c++" false 0 (fun _ => 1) 5) 0xABC demoSource "sym_ABC"
        (demoWorld [] false)).world.trace = ["abc.cc"] :=
  have hexp : ∀ fs h, demoOS.dlopen fs ("./" ++ "sym_ABC") = some h →
      ∃ a, demoOS.dlsym h "sym_ABC" = some a := by
    intro fs h hd
    simp only [demoOS] at hd ⊢
    split at hd
    · simp only [Option.some.injEq] at hd
      subst hd
      exact ⟨42, rfl⟩
    · exact absurd hd (by simp)
  ⟨hexp,
   (Lookup_compiles_at_most_twice (demoEnv "c++" false 0 (fun _ => 1) 5) 0xABC demoSource
      "sym_ABC" (demoWorld [] false)).2 hexp,
   by decide⟩

/-- C14: when `Lookup` returns after a build (it wrote a source file), then among the events
of the call the hash-named source file is removed, later the hash-named object file is
removed, no source file is written after either removal (so no later build brings them
back), the last event is the removal of the temporary image named by the symbol, and the
only file `Lookup` itself wrote is the hash-named source file: what remains is what the
commands `ar` and `install` produced. -/
theorem Lookup_removes_intermediates (env : Env FS) (hash : Nat) (source symbol : String)
    (w v : World FS) (k : Nat) (new : List Event)
    (hret : Lookup env hash source symbol w = .ret k v)
    (hnew : v.trace = w.trace ++ new) (hwrote : written new ≠ []) :
    (∃ a b c, new = a ++ Event.remove (env.ToString hash ".cc") ::
        (b ++ Event.remove (env.ToString hash ".co") :: c) ∧
      written b = [] ∧ written c = []) ∧
    new.getLast? = some (Event.remove symbol) ∧
    (∀ p ∈ written new, p = env.ToString hash ".cc") := by
  obtain ⟨body, ht, hcl⟩ := Lookup_ret_trace env hash source symbol w v k hret
  have hn : new = body ++ [Event.remove symbol] :=
    List.append_cancel_left (hnew.symm.trans ht)
  have hq : written [Event.remove symbol] = [] := rfl
  subst hn
  refine ⟨?_, by simp, ?_⟩
  · rcases hcl with hcl | hcl
    · exact hcl.append_right _ hq
    · exact absurd (by rw [written_append, hcl, hq]; rfl) hwrote
  · obtain ⟨-, new2, ht2, j, -, hw⟩ := Lookup_graded (Wrote_graded env hash source) symbol w
    rw [hret] at ht2
    have hn2 : new2 = body ++ [Event.remove symbol] :=
      List.append_cancel_left (ht2.symm.trans ht)
    subst hn2
    intro p hp
    rw [hw] at hp
    exact (List.mem_replicate.mp hp).2

/-- Witness of C14: a lookup on an empty directory without MPI; the archive and the
canonical shared library are the files left. -/
theorem Lookup_removes_intermediates_witness :
    ((∃ a b c, (Lookup (demoEnv "c++" false 0 (fun _ => 1) 5) 0xABC demoSource "sym_ABC"
          (demoWorld [] false)).world.trace = a ++ Event.remove "abc.cc" ::
          (b ++ Event.remove "abc.co" :: c) ∧ written b = [] ∧ written c = []) ∧
      (Lookup (demoEnv "c++" false 0 (fun _ => 1) 5) 0xABC demoSource "sym_ABC"
          (demoWorld [] false)).world.trace.getLast? = some (Event.remove "sym_ABC") ∧
      (∀ p ∈ written (Lookup (demoEnv "c++" false 0 (fun _ => 1) 5) 0xABC demoSource "sym_ABC"
          (demoWorld [] false)).world.trace, p = "abc.cc")) ∧
    (Lookup (demoEnv "c++" false 0 (fun _ => 1) 5) 0xABC demoSource "sym_ABC"
        (demoWorld [] false)).world.fs = ["./libmjit.so", "libmjit.a"] :=
  ⟨Lookup_removes_intermediates (demoEnv "c++" false 0 (fun _ => 1) 5) 0xABC demoSource
    "sym_ABC" (demoWorld [] false) _ 42 _ rfl rfl (by decide), by decide⟩

end Images

/-! # The rank handshake of `Init` -/

section Handshake

variable {FS : Type}

theorem childRun_inv (os : OS FS) (P : World FS → Prop)
    (hs : ∀ w, P w → P (childStep os w)) (n : Nat) (w : World FS) (h : P w) :
    P (childRun os n w) := by
  induction n generalizing w with
  | zero => exact h
  | succ n ih => exact ih _ (hs w h)

theorem tick_inv (env : Env FS) (P : World FS → Prop)
    (hs : ∀ w, P w → P (childStep env.os w)) (hc : ∀ w c, P w → P (w.setClock c))
    (w : World FS) (h : P w) : P (tick env w) :=
  hc _ _ (childRun_inv env.os P hs _ w h)

theorem AckLoop_inv (env : Env FS) (P : World FS → Prop)
    (hs : ∀ w, P w → P (childStep env.os w)) (hc : ∀ w c, P w → P (w.setClock c))
    (op : Int → Int → Bool) (xx : Int) (n : Nat) (w : World FS) (h : P w) :
    P (AckLoop env op xx n w).world := by
  induction n generalizing w with
  | zero => exact h
  | succ n ih =>
    simp only [AckLoop]
    split
    · exact ih _ (tick_inv env P hs hc w h)
    · exact tick_inv env P hs hc w h

/-- A polling loop returns in a state in which its condition is false. -/
theorem AckLoop_ret_op (env : Env FS) (op : Int → Int → Bool) (xx : Int) (n : Nat)
    (w v : World FS) (h : AckLoop env op xx n w = .ret () v) : op v.ack xx = false := by
  induction n generalizing w with
  | zero => exact absurd h (by simp [AckLoop])
  | succ n ih =>
    simp only [AckLoop] at h
    split at h
    · exact ih _ h
    · rename_i hop
      simp only [Out.ret.injEq, true_and] at h
      subst h
      simpa using hop

theorem SameBut_refl (x : World FS) : SameBut x x := ⟨rfl, rfl, rfl, rfl, rfl, rfl, rfl⟩

theorem childStep_forked (os : OS FS) (x w : World FS) (h : Forked x w) :
    Forked x (childStep os w) := by
  obtain ⟨fs, ack, mem, size, command, child, mpi, clock, syncs, trace⟩ := w
  obtain ⟨hf, ha, hc⟩ := h
  simp only at ha hc
  subst ha
  rcases hc with hc | hc | hc <;> subst hc <;>
    simp [childStep, Forked, SameBut] <;> exact hf

theorem setClock_forked (x w : World FS) (c : Nat) (h : Forked x w) :
    Forked x (w.setClock c) := h

theorem childStep_shake (os : OS FS) (rank : Int) (hr : rank ≠ ACK) (x w : World FS)
    (h : Shake rank x w) : Shake rank x (childStep os w) := by
  obtain ⟨fs, ack, mem, size, command, child, mpi, clock, syncs, trace⟩ := w
  obtain ⟨hf, hcase⟩ := h
  rcases hcase with ⟨ha, hc⟩ | ⟨ha, hc⟩
  · simp only at ha hc
    subst ha
    rcases hc with hc | hc | hc | hc | hc | hc <;> subst hc
    · exact ⟨hf, Or.inl ⟨rfl, Or.inl rfl⟩⟩
    · refine ⟨?_, Or.inl ⟨?_, Or.inr (Or.inr (Or.inl ?_))⟩⟩ <;>
        (simp [childStep, hr]; try exact hf)
    · exact ⟨hf, Or.inl ⟨rfl, Or.inr (Or.inr (Or.inl rfl))⟩⟩
    · refine ⟨?_, Or.inl ⟨?_, Or.inr (Or.inr (Or.inr (Or.inr (Or.inl ?_))))⟩⟩ <;>
        (simp [childStep, hr]; try exact hf)
    · exact ⟨hf, Or.inl ⟨rfl, Or.inr (Or.inr (Or.inr (Or.inr (Or.inr rfl))))⟩⟩
    · refine ⟨hf, Or.inr ⟨rfl, ?_⟩⟩
      by_cases h0 : ack = 0 <;> simp [childStep, h0]
  · simp only at ha hc
    subst ha
    by_cases h0 : rank = 0
    · rw [if_pos h0] at hc
      subst hc
      refine ⟨?_, Or.inr ⟨?_, ?_⟩⟩ <;> (simp [childStep, h0]; try exact hf)
    · rw [if_neg h0] at hc
      subst hc
      refine ⟨?_, Or.inr ⟨?_, ?_⟩⟩ <;> (simp [childStep, h0]; try exact hf)

theorem setClock_shake (rank : Int) (x w : World FS) (c : Nat) (h : Shake rank x w) :
    Shake rank x (w.setClock c) := h

theorem rank_ne_ACK (rank : Nat) : (rank : Int) ≠ ACK := by
  rw [ACK_eq]; omega

theorem childStep_unborn (os : OS FS) (w : World FS) (h : w.child = ChildPc.unborn) :
    childStep os w = w := by
  simp [childStep, h]

theorem tick_unborn (env : Env FS) (w : World FS) (h : w.child = ChildPc.unborn) :
    (tick env w).child = ChildPc.unborn :=
  tick_inv env (fun u => u.child = ChildPc.unborn)
    (fun u hu => by rw [childStep_unborn env.os u hu]; exact hu) (fun _ _ hu => hu) w h

theorem AckLoop_unborn (env : Env FS) (op : Int → Int → Bool) (xx : Int) (n : Nat)
    (w : World FS) (h : w.child = ChildPc.unborn) :
    (AckLoop env op xx n w).world.child = ChildPc.unborn :=
  AckLoop_inv env (fun u => u.child = ChildPc.unborn)
    (fun u hu => by rw [childStep_unborn env.os u hu]; exact hu) (fun _ _ hu => hu)
    op xx n w h

/-- The rank handshake of `Init`, seen from the parent: if the wait after the write of the
rank returns, a child was there, it has acknowledged, and it stands at the head of its loop
(rank 0) or has exited with `EXIT_SUCCESS` (any other rank); nothing else has changed. -/
theorem handshake_ret (env : Env FS) (rank : Nat) (w v : World FS) (hack : w.ack = ACK)
    (hchild : w.child = ChildPc.unborn ∨ w.child = ChildPc.verifyAck)
    (h : Wait env false (Write env rank w) = .ret () v) :
    w.child = ChildPc.verifyAck ∧ SameBut w v ∧ v.ack = ACK ∧
    v.child = if (rank : Int) = 0 then ChildPc.wait else ChildPc.exited EXIT_SUCCESS := by
  have hr := rank_ne_ACK rank
  have h0 : Forked w w := ⟨SameBut_refl w, hack, by
    rcases hchild with hc | hc
    · exact Or.inl hc
    · exact Or.inr (Or.inl hc)⟩
  have h1 : Forked w (tick env w) :=
    tick_inv env (Forked w) (childStep_forked env.os w) (setClock_forked w) w h0
  have h2 : Shake rank w (Write env rank w) := by
    obtain ⟨hf, -, hc⟩ := h1
    refine ⟨hf, Or.inl ⟨rfl, ?_⟩⟩
    rcases hc with hc | hc | hc
    · exact Or.inl hc
    · exact Or.inr (Or.inl hc)
    · exact Or.inr (Or.inr (Or.inr (Or.inl hc)))
  simp only [Wait, AckNE, Bool.false_eq_true, if_false] at h
  have h3 := AckLoop_inv env (Shake rank w) (childStep_shake env.os rank hr w)
    (setClock_shake rank w) (fun a b => a != b) ACK env.fuel (Write env rank w) h2
  have h4 := AckLoop_ret_op env _ ACK env.fuel _ v h
  rw [h] at h3
  simp only [Out.world] at h3
  have hva : v.ack = ACK := by simpa using h4
  obtain ⟨hf, hcase⟩ := h3
  rcases hcase with ⟨ha, -⟩ | ⟨-, hc⟩
  · rw [hva] at ha; exact absurd ha.symm hr
  refine ⟨?_, hf, hva, hc⟩
  rcases hchild with hu | hb
  · have hu2 : (Write env rank w).child = ChildPc.unborn := tick_unborn env w hu
    have hu3 := AckLoop_unborn env (fun a b => a != b) ACK env.fuel _ hu2
    rw [h] at hu3
    simp only [Out.world] at hu3
    rw [hu3] at hc
    split at hc <;> exact absurd hc (by simp)
  · exact hb

theorem Fork_pid (sys : Sys) (m : Proc FS) : (Fork sys m).pid ≠ 0 := by
  unfold Fork
  cases sys.fork with
  | none => simp
  | some p => simp only []; omega

theorem MPI_Init_pid (env : Env FS) (m : Proc FS) : (MPI_Init env m).pid = m.pid := by
  unfold MPI_Init
  split <;> rfl

/-- `Init` when the status word is mapped: the final check on `pid` never fails in the
parent, and what remains is the wait for the acknowledgment of the child. -/
theorem Init_eq (env : Env FS) (sys : Sys) (m : Proc FS) (hmap : sys.mmap .s_ack = true) :
    Init env sys m =
      Out.lift (Store env (mpi.Rank env (MPI_Init env (Fork sys (Store env ACK (Mmap sys m)))).world)
          (MPI_Init env (Fork sys (Store env ACK (Mmap sys m)))))
        (Wait env false (Store env
          (mpi.Rank env (MPI_Init env (Fork sys (Store env ACK (Mmap sys m)))).world)
          (MPI_Init env (Fork sys (Store env ACK (Mmap sys m))))).world) := by
  have h1 : (Mmap sys m).ackMapped = true := hmap
  have h2 := Fork_pid sys (Store env ACK (Mmap sys m))
  have h3 : (Store env (mpi.Rank env (MPI_Init env (Fork sys (Store env ACK (Mmap sys m)))).world)
      (MPI_Init env (Fork sys (Store env ACK (Mmap sys m))))).pid ≠ 0 := by
    show (MPI_Init env (Fork sys (Store env ACK (Mmap sys m)))).pid ≠ 0
    rw [MPI_Init_pid]; exact h2
  unfold Init
  simp only [h1, Bool.not_true, Bool.false_eq_true, if_false]
  rw [if_pos (by simpa using h2)]
  generalize (Store env (mpi.Rank env (MPI_Init env (Fork sys (Store env ACK (Mmap sys m)))).world)
      (MPI_Init env (Fork sys (Store env ACK (Mmap sys m))))) = S at h3 ⊢
  cases Wait env false S.world <;> simp [Out.lift, Out.bind, Proc.setWorld, h3]

theorem Init_unmapped (env : Env FS) (sys : Sys) (m : Proc FS)
    (hmap : sys.mmap .s_ack = false) : Init env sys m = .fatal SIGSEGV (Mmap sys m) := by
  have h1 : (Mmap sys m).ackMapped = false := hmap
  unfold Init
  simp [h1]

theorem tick_unborn_eq (env : Env FS) (w : World FS) (h : w.child = ChildPc.unborn) :
    tick env w = w.setClock (w.clock + 1) := by
  have hr : ∀ n, childRun env.os n w = w := by
    intro n
    induction n with
    | zero => rfl
    | succ n ih => simp only [childRun]; rw [childStep_unborn env.os w h, ih]
  simp only [tick, hr]

/-- The state in which the parent writes its rank in `Init`, entered without a child. -/
theorem Init_forked (env : Env FS) (sys : Sys) (m : Proc FS)
    (hfresh : m.world.child = ChildPc.unborn) :
    (MPI_Init env (Fork sys (Store env ACK (Mmap sys m)))).world.ack = ACK ∧
    (MPI_Init env (Fork sys (Store env ACK (Mmap sys m)))).world.child =
      (if sys.fork.isSome then ChildPc.verifyAck else ChildPc.unborn) ∧
    (MPI_Init env (Fork sys (Store env ACK (Mmap sys m)))).world.fs = m.world.fs ∧
    (MPI_Init env (Fork sys (Store env ACK (Mmap sys m)))).world.trace = m.world.trace ∧
    (MPI_Init env (Fork sys (Store env ACK (Mmap sys m)))).world.size = sys.pageSize ∧
    (MPI_Init env (Fork sys (Store env ACK (Mmap sys m)))).world.mem = "" ∧
    mpi.Rank env (MPI_Init env (Fork sys (Store env ACK (Mmap sys m)))).world =
      (if env.cfg.MFEM_USE_MPI then env.worldRank else 0) ∧
    (MPI_Init env (Fork sys (Store env ACK (Mmap sys m)))).pid =
      (match sys.fork with | some p => (p : Int) + 1 | none => -1) ∧
    (MPI_Init env (Fork sys (Store env ACK (Mmap sys m)))).ackMapped = sys.mmap .s_ack ∧
    (MPI_Init env (Fork sys (Store env ACK (Mmap sys m)))).memMapped = sys.mmap .s_mem ∧
    (MPI_Init env (Fork sys (Store env ACK (Mmap sys m)))).log =
      m.log ++ [Act.mmap .s_ack (sys.mmap .s_ack), Act.mmap .s_mem (sys.mmap .s_mem),
        Act.write ACK,
        Act.fork (match sys.fork with | some p => (p : Int) + 1 | none => -1)] ++
        (if env.cfg.MFEM_USE_MPI then [Act.MPI_Init] else []) := by
  have hw : ∀ w : World FS, w.child = ChildPc.unborn →
      Write env ACK w = { w.setClock (w.clock + 1) with ack := ACK } := by
    intro w hu
    simp only [Write, tick_unborn_eq env _ hu]
  cases hf : sys.fork <;> cases hm : env.cfg.MFEM_USE_MPI <;>
    simp [MPI_Init, Fork, hf, hm, hw, hfresh, mpi.Rank, Store, Mmap, World.setClock]

/-- A run of `Init` that returns, entered without a child: the status word was mapped, the
child was created and has acknowledged the rank; it stands at the head of its loop when the
rank is 0 and has exited with `EXIT_SUCCESS` otherwise.  No command was run. -/
theorem Init_ret (env : Env FS) (sys : Sys) (m v : Proc FS)
    (hfresh : m.world.child = ChildPc.unborn) (h : Init env sys m = .ret () v) :
    sys.mmap .s_ack = true ∧
    (∃ p, sys.fork = some p ∧ v.pid = (p : Int) + 1 ∧
      v.log = m.log ++ [Act.mmap .s_ack true, Act.mmap .s_mem (sys.mmap .s_mem),
          Act.write ACK, Act.fork ((p : Int) + 1)] ++
        (if env.cfg.MFEM_USE_MPI then [Act.MPI_Init] else []) ++
        [Act.write ((if env.cfg.MFEM_USE_MPI then env.worldRank else 0 : Nat) : Int)]) ∧
    v.ackMapped = true ∧ v.memMapped = sys.mmap .s_mem ∧
    v.world.ack = ACK ∧
    v.world.child = (if ((if env.cfg.MFEM_USE_MPI then env.worldRank else 0 : Nat) : Int) = 0
      then ChildPc.wait else ChildPc.exited EXIT_SUCCESS) ∧
    v.world.fs = m.world.fs ∧ v.world.trace = m.world.trace ∧
    v.world.size = sys.pageSize ∧ v.world.mem = "" ∧
    mpi.Rank env v.world = (if env.cfg.MFEM_USE_MPI then env.worldRank else 0) := by
  cases hmap : sys.mmap .s_ack with
  | false => rw [Init_unmapped env sys m hmap] at h; exact absurd h (by simp)
  | true =>
    rw [Init_eq env sys m hmap] at h
    obtain ⟨a, c, f, t, sz, me, rk, pid, am, mm, lg⟩ := Init_forked env sys m hfresh
    generalize MPI_Init env (Fork sys (Store env ACK (Mmap sys m))) = X at *
    rw [rk] at h
    cases hw : Wait env false
        (Store env ((if env.cfg.MFEM_USE_MPI then env.worldRank else 0 : Nat) : Int) X).world with
    | fatal msg u => rw [hw] at h; exact absurd h (by simp [Out.lift])
    | spin u => rw [hw] at h; exact absurd h (by simp [Out.lift])
    | ret u v6 =>
      rw [hw] at h
      simp only [Out.lift, Out.ret.injEq, true_and] at h
      subst h
      have hc : X.world.child = ChildPc.unborn ∨ X.world.child = ChildPc.verifyAck := by
        rw [c]; split
        · exact Or.inr rfl
        · exact Or.inl rfl
      obtain ⟨hb, hs, hva, hvc⟩ := handshake_ret env _ X.world v6 a hc hw
      rw [c] at hb
      cases hf : sys.fork with
      | none => rw [hf] at hb; exact absurd hb (by simp)
      | some p =>
        rw [hf] at pid lg
        obtain ⟨s1, s2, s3, s4, s5, s6, s7⟩ := hs
        refine ⟨rfl, ⟨p, rfl, pid, ?_⟩, ?_, mm, hva, hvc, s1.trans f, s7.trans t, s3.trans sz,
          s2.trans me, ?_⟩
        rotate_left 2
        · rw [← rk]
          show mpi.Rank env v6 = mpi.Rank env X.world
          simp only [mpi.Rank, s5]
        · show X.log ++ [_] = _
          rw [lg, hmap]
        · show X.ackMapped = true
          rw [am, hmap]

end Handshake

/-! # The end of the child: `Finalize` -/

section Teardown

variable {FS : Type}

theorem childStep_born (os : OS FS) (w : World FS) (h : w.child ≠ ChildPc.unborn) :
    (childStep os w).child ≠ ChildPc.unborn := by
  obtain ⟨fs, ack, mem, size, command, child, mpi, clock, syncs, trace⟩ := w
  cases child <;> simp only [childStep] <;> (try split) <;> simp at h ⊢

/-- The value `waitpid` leaves in `status` when there is a child: the exit code in the second
byte, or the abort signal. -/
theorem waitpid_some (env : Env FS) (sys : Sys) (n : Nat) (w w2 : World FS) (st : Int)
    (hb : w.child ≠ ChildPc.unborn) (h : waitpid env sys n w = some (st, w2)) :
    (∃ c, w2.child = ChildPc.exited c ∧ st = c % 256 * 256) ∨
    (w2.child = ChildPc.aborted ∧ st = 134) := by
  induction n generalizing w with
  | zero => exact absurd h (by simp [waitpid])
  | succ n ih =>
    have hstep := ih (childStep env.os w) (childStep_born env.os w hb)
    cases hc : w.child <;> simp only [waitpid, hc] at h <;> try exact hstep h
    · exact absurd hc hb
    · simp only [Option.some.injEq, Prod.mk.injEq] at h
      obtain ⟨rfl, rfl⟩ := h
      exact Or.inl ⟨_, hc, rfl⟩
    · simp only [Option.some.injEq, Prod.mk.injEq] at h
      obtain ⟨rfl, rfl⟩ := h
      exact Or.inr ⟨hc, rfl⟩

/-- `Send` returns with the status word equal to the value read back after the store. -/
theorem Send_ret_ack (env : Env FS) (xx : Int) (w v : World FS)
    (h : Send env xx w = .ret () v) : v.ack = (Read env (Write env xx w)).1 := by
  have h1 := AckLoop_ret_op env _ _ env.fuel _ v h
  simpa using h1

theorem childStep_ack_or (os : OS FS) (xx : Int) (w : World FS)
    (h : w.ack = xx ∨ w.ack = ACK) : (childStep os w).ack = xx ∨ (childStep os w).ack = ACK := by
  obtain ⟨fs, ack, mem, size, command, child, mpi, clock, syncs, trace⟩ := w
  cases child <;> simp only [childStep] <;> (try split) <;>
    first | exact h | simp

/-- The value read back after the store of `xx`: `xx`, or `ACK` written by the child in
between. -/
theorem readback_values (env : Env FS) (xx : Int) (w : World FS) :
    (Read env (Write env xx w)).1 = xx ∨ (Read env (Write env xx w)).1 = ACK :=
  tick_inv env (fun u => u.ack = xx ∨ u.ack = ACK) (childStep_ack_or env.os xx)
    (fun _ _ hu => hu) (Write env xx w) (Or.inl rfl)

theorem Send_born (env : Env FS) (xx : Int) (w : World FS) (h : w.child ≠ ChildPc.unborn) :
    (Send env xx w).world.child ≠ ChildPc.unborn := by
  have h1 : (Write env xx w).child ≠ ChildPc.unborn :=
    tick_inv env (fun u => u.child ≠ ChildPc.unborn) (childStep_born env.os)
      (fun _ _ hu => hu) w h
  have h2 : (Read env (Write env xx w)).2.child ≠ ChildPc.unborn :=
    tick_inv env (fun u => u.child ≠ ChildPc.unborn) (childStep_born env.os)
      (fun _ _ hu => hu) _ h1
  exact AckLoop_inv env (fun u => u.child ≠ ChildPc.unborn) (childStep_born env.os)
    (fun _ _ hu => hu) _ _ env.fuel _ h2

theorem Read_born (env : Env FS) (w : World FS) (h : w.child ≠ ChildPc.unborn) :
    (Read env w).2.child ≠ ChildPc.unborn :=
  tick_inv env (fun u => u.child ≠ ChildPc.unborn) (childStep_born env.os)
    (fun _ _ hu => hu) w h

/-- `Finalize` once the acknowledgment check has passed, `Send(EXIT)` has returned in state
`w1` and `waitpid` has left `st` in `status`. -/
theorem Finalize_eq (env : Env FS) (sys : Sys) (m : Proc FS) (w1 w2 : World FS) (st : Int)
    (hmap : m.ackMapped = true) (hack : (Read env m.world).1 = ACK)
    (hsend : Send env EXIT (Read env m.world).2 = .ret () w1)
    (hwait : waitpid env sys env.fuel w1 = some (st, w2)) :
    Finalize env sys m =
      if st != 0 then .fatal "[JIT] Error with the compiler thread"
        ((((m.note (Act.write EXIT)).setWorld w1).setWorld w2).note (Act.waitpid m.pid st))
      else if sys.munmap .s_mem != 0 then .fatal "[JIT] Finalize memory error!"
        (Munmap sys .s_mem
          ((((m.note (Act.write EXIT)).setWorld w1).setWorld w2).note (Act.waitpid m.pid st)))
      else if sys.munmap .s_ack != 0 then .fatal "[JIT] Finalize memory error!"
        (Munmap sys .s_ack (Munmap sys .s_mem
          ((((m.note (Act.write EXIT)).setWorld w1).setWorld w2).note (Act.waitpid m.pid st))))
      else .ret () (Munmap sys .s_ack (Munmap sys .s_mem
          ((((m.note (Act.write EXIT)).setWorld w1).setWorld w2).note (Act.waitpid m.pid st)))) := by
  unfold Finalize
  simp only [hmap, hack, hsend, Out.lift, Out.bind_ret, Bool.not_true, Bool.false_eq_true,
    if_false, bne_self_eq_false]
  have hw : waitpid env sys env.fuel ((m.note (Act.write EXIT)).setWorld w1).world =
      some (st, w2) := hwait
  rw [hw]
  rfl

/-- The ways in which `Finalize` does not reach `waitpid`'s result. -/
theorem Finalize_ret_inv (env : Env FS) (sys : Sys) (m v : Proc FS)
    (h : Finalize env sys m = .ret () v) :
    m.ackMapped = true ∧ (Read env m.world).1 = ACK ∧
    ∃ w1 st w2, Send env EXIT (Read env m.world).2 = .ret () w1 ∧
      waitpid env sys env.fuel w1 = some (st, w2) := by
  unfold Finalize at h
  cases hmap : m.ackMapped with
  | false => simp [hmap] at h
  | true =>
    simp only [hmap, Bool.not_true, Bool.false_eq_true, if_false] at h
    by_cases hack : (Read env m.world).1 = ACK
    swap
    · rw [if_pos (by simpa using hack)] at h
      exact absurd h (by simp)
    rw [if_neg (by simpa using hack)] at h
    cases hsend : Send env EXIT (Read env m.world).2 with
    | fatal msg u => rw [hsend] at h; exact absurd h (by simp [Out.lift])
    | spin u => rw [hsend] at h; exact absurd h (by simp [Out.lift])
    | ret u w1 =>
      rw [hsend] at h
      simp only [Out.lift, Out.bind_ret] at h
      cases hwait : waitpid env sys env.fuel w1 with
      | none =>
        have hw : waitpid env sys env.fuel ((m.note (Act.write EXIT)).setWorld w1).world =
          none := hwait
        rw [hw] at h
        exact absurd h (by simp)
      | some r => exact ⟨rfl, hack, w1, r.1, r.2, rfl, hwait⟩

theorem childStep_leaving (os : OS FS) (w : World FS)
    (h : w.ack = EXIT ∧ (w.child = ChildPc.wait ∨ w.child = ChildPc.isCall ∨
      w.child = ChildPc.isExit ∨ w.child = ChildPc.exited EXIT_SUCCESS)) :
    (childStep os w).ack = EXIT ∧ ((childStep os w).child = ChildPc.wait ∨
      (childStep os w).child = ChildPc.isCall ∨ (childStep os w).child = ChildPc.isExit ∨
      (childStep os w).child = ChildPc.exited EXIT_SUCCESS) := by
  obtain ⟨fs, ack, mem, size, command, child, mpi, clock, syncs, trace⟩ := w
  obtain ⟨ha, hc⟩ := h
  simp only at ha hc
  subst ha
  rcases hc with hc | hc | hc | hc <;> subst hc <;>
    simp [childStep, EXIT_ne_ACK, Ne.symm CALL_ne_EXIT]

theorem waitpid_leaving (env : Env FS) (sys : Sys) (n : Nat) (w : World FS)
    (h : w.ack = EXIT ∧ (w.child = ChildPc.wait ∨ w.child = ChildPc.isCall ∨
      w.child = ChildPc.isExit ∨ w.child = ChildPc.exited EXIT_SUCCESS)) :
    ∃ w2, waitpid env sys (n + 4) w = some (0, w2) := by
  obtain ⟨fs, ack, mem, size, command, child, mpi, clock, syncs, trace⟩ := w
  obtain ⟨ha, hc⟩ := h
  simp only at ha hc
  subst ha
  rcases hc with hc | hc | hc | hc <;> subst hc <;>
    simp [waitpid, childStep, EXIT_ne_ACK, Ne.symm CALL_ne_EXIT, EXIT_SUCCESS]

/-- From the state of rest, `Send(EXIT)` reads `EXIT` back, and whatever its outcome the
status word is `EXIT` and the child is on its way out. -/
theorem Send_exit_leaving (env : Env FS) (w : World FS) (hc : w.child = ChildPc.wait)
    (ha : w.ack = ACK) :
    (Read env (Write env EXIT w)).1 = EXIT ∧
    (Send env EXIT w).world.ack = EXIT ∧
    ((Send env EXIT w).world.child = ChildPc.wait ∨
     (Send env EXIT w).world.child = ChildPc.isCall ∨
     (Send env EXIT w).world.child = ChildPc.isExit ∨
     (Send env EXIT w).world.child = ChildPc.exited EXIT_SUCCESS) := by
  have hx : (Write env EXIT w).ack = EXIT ∧
      ((Write env EXIT w).child = ChildPc.wait ∨ (Write env EXIT w).child = ChildPc.isCall ∨
       (Write env EXIT w).child = ChildPc.isExit ∨
       (Write env EXIT w).child = ChildPc.exited EXIT_SUCCESS) := by
    refine ⟨rfl, Or.inl ?_⟩
    simp only [Write, tick_idle env w hc ha]
    exact hc
  have ht := tick_inv env (fun u => u.ack = EXIT ∧ (u.child = ChildPc.wait ∨
      u.child = ChildPc.isCall ∨ u.child = ChildPc.isExit ∨
      u.child = ChildPc.exited EXIT_SUCCESS)) (childStep_leaving env.os)
    (fun _ _ hu => hu) _ hx
  exact ⟨ht.1, AckLoop_inv env (fun u => u.ack = EXIT ∧ (u.child = ChildPc.wait ∨
      u.child = ChildPc.isCall ∨ u.child = ChildPc.isExit ∨
      u.child = ChildPc.exited EXIT_SUCCESS)) (childStep_leaving env.os)
    (fun _ _ hu => hu) (fun a b => a != b) (Read env (Write env EXIT w)).1 env.fuel
    (Read env (Write env EXIT w)).2 ht⟩

/-- A child that waits for a request, or serves one while the status word is not `ACK`, stays
so: it is back in `wait` as soon as the status word is `ACK`. -/
theorem childStep_serving (os : OS FS) (w : World FS)
    (h : w.child = ChildPc.wait ∨
      ((w.child = ChildPc.isCall ∨ w.child = ChildPc.system ∨ w.child = ChildPc.isExit ∨
        w.child = ChildPc.acknowledge ∨ ∃ c, w.child = ChildPc.exited c) ∧ w.ack ≠ ACK)) :
    (childStep os w).child = ChildPc.wait ∨
      (((childStep os w).child = ChildPc.isCall ∨ (childStep os w).child = ChildPc.system ∨
        (childStep os w).child = ChildPc.isExit ∨ (childStep os w).child = ChildPc.acknowledge ∨
        ∃ c, (childStep os w).child = ChildPc.exited c) ∧ (childStep os w).ack ≠ ACK) := by
  obtain ⟨fs, ack, mem, size, command, child, mpi, clock, syncs, trace⟩ := w
  cases child <;> simp only [childStep] <;> (try split) <;> simp_all

/-- A child that waits for a request is still waiting when the process next reads `ACK`. -/
theorem Read_waiting (env : Env FS) (w : World FS) (hc : w.child = ChildPc.wait)
    (ha : (Read env w).1 = ACK) : (Read env w).2.child = ChildPc.wait := by
  have h := tick_inv env (fun u => u.child = ChildPc.wait ∨
      ((u.child = ChildPc.isCall ∨ u.child = ChildPc.system ∨ u.child = ChildPc.isExit ∨
        u.child = ChildPc.acknowledge ∨ ∃ c, u.child = ChildPc.exited c) ∧ u.ack ≠ ACK))
    (childStep_serving env.os) (fun _ _ hu => hu) w (Or.inl hc)
  rcases h with h | ⟨-, h⟩
  · exact h
  · exact absurd ha h

/-- From the state of rest, with fuel for four looks at the child and both regions unmapped
by the operating system, `Finalize` returns. -/
theorem Finalize_total (env : Env FS) (sys : Sys) (m : Proc FS) (hmap : m.ackMapped = true)
    (hc : m.world.child = ChildPc.wait) (ha : m.world.ack = ACK) (hfuel : 4 ≤ env.fuel)
    (h1 : sys.munmap .s_mem = 0) (h2 : sys.munmap .s_ack = 0) :
    (Finalize env sys m).isRet = true := by
  have hr : Read env m.world = (ACK, m.world.setClock (m.world.clock + 1)) := by
    simp only [Read, tick_idle env m.world hc ha]
    exact Prod.ext ha rfl
  have hx : (Write env EXIT (m.world.setClock (m.world.clock + 1))).ack = EXIT ∧
      ((Write env EXIT (m.world.setClock (m.world.clock + 1))).child = ChildPc.wait ∨
       (Write env EXIT (m.world.setClock (m.world.clock + 1))).child = ChildPc.isCall ∨
       (Write env EXIT (m.world.setClock (m.world.clock + 1))).child = ChildPc.isExit ∨
       (Write env EXIT (m.world.setClock (m.world.clock + 1))).child =
         ChildPc.exited EXIT_SUCCESS) := by
    refine ⟨rfl, Or.inl ?_⟩
    simp only [Write, tick_idle env (m.world.setClock (m.world.clock + 1)) hc ha]
    exact hc
  have ht := tick_inv env (fun u => u.ack = EXIT ∧ (u.child = ChildPc.wait ∨
      u.child = ChildPc.isCall ∨ u.child = ChildPc.isExit ∨
      u.child = ChildPc.exited EXIT_SUCCESS)) (childStep_leaving env.os)
    (fun _ _ hu => hu) _ hx
  obtain ⟨k, hk⟩ : ∃ k, env.fuel = k + 4 := ⟨env.fuel - 4, by omega⟩
  have ht2 := tick_inv env (fun u => u.ack = EXIT ∧ (u.child = ChildPc.wait ∨
      u.child = ChildPc.isCall ∨ u.child = ChildPc.isExit ∨
      u.child = ChildPc.exited EXIT_SUCCESS)) (childStep_leaving env.os)
    (fun _ _ hu => hu) _ ht
  have hsend : Send env EXIT (Read env m.world).2 =
      .ret () (tick env (tick env (Write env EXIT (m.world.setClock (m.world.clock + 1))))) := by
    rw [hr]
    simp only [Send, AckNE, Read, hk, AckLoop, ht.1, ht2.1, bne_self_eq_false,
      Bool.false_eq_true, if_false]
  obtain ⟨w2, hw2⟩ := waitpid_leaving env sys k _ ht2
  rw [← hk] at hw2
  rw [Finalize_eq env sys m _ w2 0 hmap (by rw [hr]) hsend hw2]
  simp [h1, h2, Out.isRet]

end Teardown

/-! # Claims on `Init` and `Finalize` -/

section Lifecycle

variable {FS : Type}

/-- C11: whenever `Finalize` returns, it has written `EXIT` to the status word and read it
back (`Send(EXIT)` returns with the value read back, which is `EXIT` whenever the child was
waiting for a request on entry, and `EXIT` or `ACK` in any case), then waited for the child
with `waitpid`, which left 0 in `status`, then unmapped the command buffer and the status
word, both with result 0, in this order; if there was a child, it has exited with a code that
is 0 in its low byte.  When `waitpid` leaves a value other
than 0, `Finalize` ends in the fatal error of the compiler thread with nothing unmapped, and
when it leaves 0 and one of the two `munmap` fails, in the fatal memory error.  From the state
of rest, with fuel for four looks at the child and both `munmap` succeeding, it returns. -/
theorem Finalize_order (env : Env FS) (sys : Sys) (m : Proc FS) :
    (∀ v, Finalize env sys m = .ret () v →
      v.log = m.log ++ [Act.write EXIT, Act.waitpid m.pid 0, Act.munmap .s_mem 0,
        Act.munmap .s_ack 0] ∧
      v.memMapped = false ∧ v.ackMapped = false ∧
      sys.munmap .s_mem = 0 ∧ sys.munmap .s_ack = 0 ∧
      (∃ w1, Send env EXIT (Read env m.world).2 = .ret () w1 ∧
        w1.ack = (Read env (Write env EXIT (Read env m.world).2)).1 ∧
        (w1.ack = EXIT ∨ w1.ack = ACK) ∧
        (m.world.child = ChildPc.wait → w1.ack = EXIT) ∧
        waitpid env sys env.fuel w1 = some (0, v.world)) ∧
      (m.world.child ≠ ChildPc.unborn → ∃ c, v.world.child = ChildPc.exited c ∧ c % 256 = 0)) ∧
    (∀ w1 st w2, m.ackMapped = true → (Read env m.world).1 = ACK →
      Send env EXIT (Read env m.world).2 = .ret () w1 →
      waitpid env sys env.fuel w1 = some (st, w2) →
      (st ≠ 0 → ∃ u, Finalize env sys m = .fatal "[JIT] Error with the compiler thread" u ∧
        u.log = m.log ++ [Act.write EXIT, Act.waitpid m.pid st] ∧
        u.ackMapped = m.ackMapped ∧ u.memMapped = m.memMapped) ∧
      (st = 0 → (sys.munmap .s_mem ≠ 0 ∨ sys.munmap .s_ack ≠ 0) →
        ∃ u, Finalize env sys m = .fatal "[JIT] Finalize memory error!" u)) ∧
    (m.ackMapped = true → m.world.child = ChildPc.wait → m.world.ack = ACK → 4 ≤ env.fuel →
      sys.munmap .s_mem = 0 → sys.munmap .s_ack = 0 → (Finalize env sys m).isRet = true) := by
  refine ⟨?_, ?_, Finalize_total env sys m⟩
  · intro v h
    obtain ⟨hmap, hack, w1, st, w2, hsend, hwait⟩ := Finalize_ret_inv env sys m v h
    rw [Finalize_eq env sys m w1 w2 st hmap hack hsend hwait] at h
    split at h
    · exact absurd h (by simp)
    rename_i hst
    split at h
    · exact absurd h (by simp)
    rename_i hm1
    split at h
    · exact absurd h (by simp)
    rename_i hm2
    have hst0 : st = 0 := by simpa using hst
    have hm10 : sys.munmap .s_mem = 0 := by simpa using hm1
    have hm20 : sys.munmap .s_ack = 0 := by simpa using hm2
    subst hst0
    simp only [Out.ret.injEq, true_and] at h
    subst h
    have hback := Send_ret_ack env EXIT _ w1 hsend
    have hrest : m.world.child = ChildPc.wait → w1.ack = EXIT := by
      intro hc
      have h1 := (Send_exit_leaving env (Read env m.world).2
        (Read_waiting env m.world hc hack) hack).2.1
      rw [hsend] at h1
      exact h1
    refine ⟨?_, ?_, ?_, hm10, hm20,
      ⟨w1, hsend, hback, hback ▸ readback_values env EXIT _, hrest, hwait⟩, ?_⟩
    · simp [Munmap, Proc.note, Proc.setWorld, hm10, hm20]
    · simp [Munmap, Proc.note, Proc.setWorld, hm10]
    · simp [Munmap, Proc.note, Proc.setWorld, hm20]
    · intro hb
      have hb1 := Send_born env EXIT _ (Read_born env m.world hb)
      rw [hsend] at hb1
      rcases waitpid_some env sys env.fuel w1 w2 0 hb1 hwait with ⟨c, hc, hz⟩ | ⟨-, hz⟩
      · exact ⟨c, hc, by omega⟩
      · exact absurd hz (by decide)
  · intro w1 st w2 hmap hack hsend hwait
    rw [Finalize_eq env sys m w1 w2 st hmap hack hsend hwait]
    refine ⟨fun hst => ?_, fun hst hm => ?_⟩
    · rw [if_pos (by simpa using hst)]
      exact ⟨_, rfl, by simp [Proc.note, Proc.setWorld], rfl, rfl⟩
    · subst hst
      simp only [bne_self_eq_false, Bool.false_eq_true, if_false]
      by_cases hm1 : sys.munmap .s_mem = 0
      · have hm2 : sys.munmap .s_ack ≠ 0 := by
          rcases hm with hm | hm
          · exact absurd hm1 hm
          · exact hm
        rw [if_neg (by simpa using hm1), if_pos (by simpa using hm2)]
        exact ⟨_, rfl⟩
      · rw [if_pos (by simpa using hm1)]
        exact ⟨_, rfl⟩

/-- Witness of C11: `Init` then `Finalize` for rank 0 of an MPI run. -/
theorem Finalize_order_witness :
    (Finalize (demoEnv "c++" true 0 (fun _ => 1) 5) demoSys
      (Init (demoEnv "c++" true 0 (fun _ => 1) 5) demoSys (demoProc [])).world).isRet = true ∧
    (Finalize (demoEnv "c++" true 0 (fun _ => 1) 5) demoSys
      (Init (demoEnv "c++" true 0 (fun _ => 1) 5) demoSys (demoProc [])).world).world.log =
      (Init (demoEnv "c++" true 0 (fun _ => 1) 5) demoSys (demoProc [])).world.log ++
        [Act.write EXIT, Act.waitpid 1234 0, Act.munmap .s_mem 0, Act.munmap .s_ack 0] ∧
    (Finalize (demoEnv "c++" true 0 (fun _ => 1) 5) demoSys
      (Init (demoEnv "c++" true 0 (fun _ => 1) 5) demoSys (demoProc [])).world).world.world.child =
      ChildPc.exited 0 :=
  ⟨rfl,
   ((Finalize_order (demoEnv "c++" true 0 (fun _ => 1) 5) demoSys
      (Init (demoEnv "c++" true 0 (fun _ => 1) 5) demoSys (demoProc [])).world).1 _ rfl).1,
   rfl⟩

/-- C16 fails: `Init` does not look at what `::mmap` returned.  When the mapping of the
command buffer fails, `Init` still writes `ACK` to the status word, forks the child, goes
through the rank handshake and returns, with `s_mem` not pointing to a mapping. -/
theorem Init_ignores_failed_mmap :
    (Init (demoEnv "c++" true 0 (fun _ => 1) 5)
      { demoSys with mmap := fun r => r != Region.s_mem } (demoProc [])).isRet = true ∧
    (Init (demoEnv "c++" true 0 (fun _ => 1) 5)
      { demoSys with mmap := fun r => r != Region.s_mem } (demoProc [])).world.log =
      [Act.mmap .s_ack true, Act.mmap .s_mem false, Act.write ACK, Act.fork 1234,
       Act.MPI_Init, Act.write 0] ∧
    (Init (demoEnv "c++" true 0 (fun _ => 1) 5)
      { demoSys with mmap := fun r => r != Region.s_mem } (demoProc [])).world.memMapped =
      false ∧
    (Init (demoEnv "c++" true 0 (fun _ => 1) 5)
      { demoSys with mmap := fun r => r != Region.s_mem } (demoProc [])).world.world.child =
      ChildPc.wait := by
  decide

/-- C17 fails as stated: `Jit::Init` is entered before MPI is initialized, when `mpi::Root()`
holds in every process, so the process that `MPI_Init` then gives rank 1 has forked a child
too. -/
theorem Init_forks_on_every_rank :
    (Jit.Init (demoEnv "c++" true 1 (fun _ => 1) 5) demoSys (demoProc [])).isRet = true ∧
    (Jit.Init (demoEnv "c++" true 1 (fun _ => 1) 5) demoSys (demoProc [])).world.log =
      [Act.mmap .s_ack true, Act.mmap .s_mem true, Act.write ACK, Act.fork 1234,
       Act.MPI_Init, Act.write 1] ∧
    (Jit.Init (demoEnv "c++" true 1 (fun _ => 1) 5) demoSys (demoProc [])).world.pid = 1234 ∧
    mpi.Rank (demoEnv "c++" true 1 (fun _ => 1) 5)
      (Jit.Init (demoEnv "c++" true 1 (fun _ => 1) 5) demoSys (demoProc [])).world.world = 1 := by
  decide

/-- C17 as amended: a process that is not the root when `Jit::Init` is entered (MPI is
initialized and its rank is not 0) forks no child: `Jit::Init` does nothing.  A process
without a child that does go through `System::Init` and returns from it has forked one, and
that child is kept for work (it stands at the head of its loop) exactly when the rank of
the process is 0; for any other rank it has exited with `EXIT_SUCCESS` after the rank
handshake.  In both cases it has run no command: trace and files are as before. -/
theorem Init_keeps_child_of_root_only (env : Env FS) (sys : Sys) (m : Proc FS) :
    (mpi.Root env m.world = false → Jit.Init env sys m = .ret () m) ∧
    (∀ v, m.world.child = ChildPc.unborn → mpi.Root env m.world = true →
      Jit.Init env sys m = .ret () v →
      (∃ p, sys.fork = some p ∧ v.pid = (p : Int) + 1) ∧
      v.world.trace = m.world.trace ∧ v.world.fs = m.world.fs ∧
      ((mpi.Rank env v.world = 0 ∧ v.world.child = ChildPc.wait) ∨
       (mpi.Rank env v.world ≠ 0 ∧ v.world.child = ChildPc.exited EXIT_SUCCESS))) := by
  constructor
  · intro hroot
    simp [Jit.Init, hroot]
  · intro v hfresh hroot h
    simp only [Jit.Init, hroot, if_true] at h
    obtain ⟨-, ⟨p, hp, hpid, -⟩, -, -, -, hc, hfs, htr, -, -, hrk⟩ :=
      Init_ret env sys m v hfresh h
    refine ⟨⟨p, hp, hpid⟩, htr, hfs, ?_⟩
    rw [hrk]
    by_cases h0 : (if env.cfg.MFEM_USE_MPI then env.worldRank else 0) = 0
    · rw [if_pos (by exact_mod_cast h0)] at hc
      exact Or.inl ⟨h0, hc⟩
    · rw [if_neg (by exact_mod_cast h0)] at hc
      exact Or.inr ⟨h0, hc⟩

/-- Witness of the amended C17: rank 1 of an MPI run, before and after `MPI_Init`. -/
theorem Init_keeps_child_of_root_only_witness :
    Jit.Init (demoEnv "c++" true 1 (fun _ => 1) 5) demoSys
        { demoProc [] with world := demoWorld [] true } =
      .ret () { demoProc [] with world := demoWorld [] true } ∧
    ((mpi.Rank (demoEnv "c++" true 1 (fun _ => 1) 5)
        (Jit.Init (demoEnv "c++" true 1 (fun _ => 1) 5) demoSys (demoProc [])).world.world = 0 ∧
      (Jit.Init (demoEnv "c++" true 1 (fun _ => 1) 5) demoSys (demoProc [])).world.world.child =
        ChildPc.wait) ∨
     (mpi.Rank (demoEnv "c++" true 1 (fun _ => 1) 5)
        (Jit.Init (demoEnv "c++" true 1 (fun _ => 1) 5) demoSys (demoProc [])).world.world ≠ 0 ∧
      (Jit.Init (demoEnv "c++" true 1 (fun _ => 1) 5) demoSys (demoProc [])).world.world.child =
        ChildPc.exited EXIT_SUCCESS)) :=
  ⟨(Init_keeps_child_of_root_only (demoEnv "c++" true 1 (fun _ => 1) 5) demoSys
      { demoProc [] with world := demoWorld [] true }).1 (by decide),
   ((Init_keeps_child_of_root_only (demoEnv "c++" true 1 (fun _ => 1) 5) demoSys
      (demoProc [])).2 _ rfl (by decide) rfl).2.2.2⟩

end Lifecycle

/-! # The return value of `Call` and its length check -/

section Calls

variable {FS : Type}

/-- Under MPI the only `return` of `Call` is `return EXIT_SUCCESS`. -/
theorem Call_mpi_ret (env : Env FS) (c : String) (w v : World FS) (s : Int)
    (hinit : mpi.IsInitialized env w = true) (h : Call env c w = .ret s v) :
    s = EXIT_SUCCESS := by
  have hinit' : mpi.IsInitialized env { w with trace := w.trace ++ [Event.warning c] } = true :=
    hinit
  unfold Call at h
  by_cases hroot : mpi.Root env w = true
  swap
  · simp [hroot] at h
  simp only [hroot, hinit', Bool.not_true, Bool.false_eq_true, if_false] at h
  split at h
  · exact absurd h (by simp)
  cases hs : Send env CALL (Memcpy env c { w with trace := w.trace ++ [Event.warning c] }) with
  | fatal m u => rw [hs] at h; exact absurd h (by simp)
  | spin u => rw [hs] at h; exact absurd h (by simp)
  | ret a w2 =>
    rw [hs] at h
    simp only [Out.bind_ret] at h
    cases hw : Wait env false w2 with
    | fatal m u => rw [hw] at h; exact absurd h (by simp)
    | spin u => rw [hw] at h; exact absurd h (by simp)
    | ret b w3 =>
      rw [hw] at h
      simp only [Out.bind_ret, Out.ret.injEq] at h
      exact h.1.symm

/-- Under MPI, on the root, a command that fits is copied to the buffer and sent. -/
theorem Call_fits (env : Env FS) (c : String) (w : World FS)
    (hroot : mpi.Root env w = true) (hinit : mpi.IsInitialized env w = true)
    (hfit : 1 + strlen c < w.size) :
    Call env c w =
      (Send env CALL (Memcpy env c { w with trace := w.trace ++ [Event.warning c] })).bind
        fun _ w2 => (Wait env false w2).bind fun _ w3 => .ret EXIT_SUCCESS w3 := by
  have hinit' : mpi.IsInitialized env { w with trace := w.trace ++ [Event.warning c] } = true :=
    hinit
  simp [Call, hroot, hinit', hfit]

theorem AckLoop_not_fatal (env : Env FS) (op : Int → Int → Bool) (xx : Int) (n : Nat)
    (w u : World FS) (m : String) : AckLoop env op xx n w ≠ .fatal m u := by
  induction n generalizing w with
  | zero => simp [AckLoop]
  | succ n ih =>
    simp only [AckLoop]
    split
    · exact ih _
    · simp

/-- A command that fits never ends `Call` in a fatal error on the root under MPI. -/
theorem Call_fits_not_fatal (env : Env FS) (c : String) (w u : World FS) (m : String)
    (hroot : mpi.Root env w = true) (hinit : mpi.IsInitialized env w = true)
    (hfit : 1 + strlen c < w.size) : Call env c w ≠ .fatal m u := by
  rw [Call_fits env c w hroot hinit hfit]
  intro h
  cases hs : Send env CALL (Memcpy env c { w with trace := w.trace ++ [Event.warning c] }) with
  | fatal m1 u1 => exact AckLoop_not_fatal env _ _ env.fuel _ u1 m1 hs
  | spin u1 => rw [hs] at h; exact absurd h (by simp)
  | ret a w2 =>
    rw [hs] at h
    simp only [Out.bind_ret] at h
    cases hw : Wait env false w2 with
    | fatal m1 u1 =>
      simp only [Wait, Bool.false_eq_true, if_false] at hw
      exact AckLoop_not_fatal env _ ACK env.fuel _ u1 m1 hw
    | spin u1 => rw [hw] at h; exact absurd h (by simp)
    | ret b w3 => rw [hw] at h; exact absurd h (by simp)

/-- C25: when MPI is initialized, every return of `Call` is with `EXIT_SUCCESS`, whatever
the command and the state; when it is not, `Call` returns the value of `std::system` on the
command, run in the process itself. -/
theorem Call_return_value (env : Env FS) (c : String) (w : World FS) :
    (mpi.IsInitialized env w = true → ∀ s v, Call env c w = .ret s v → s = EXIT_SUCCESS) ∧
    (mpi.IsInitialized env w = false →
      Call env c w = .ret (env.os.system w.fs c).1
        { w with fs := (env.os.system w.fs c).2,
                 trace := w.trace ++ [Event.warning c,
                   Event.system false c (env.os.system w.fs c).1] }) :=
  ⟨fun hinit s v h => Call_mpi_ret env c w v s hinit h, fun hinit => Call_serial env c w hinit⟩

/-- Witness of C25: the archive update, handed to the child under MPI, and a compiler that
does not exist, run in serial mode with the status of the shell as the return value. -/
theorem Call_return_value_witness :
    Call (demoEnv "c++" true 0 (fun _ => 1) 5) "ar -rv libmjit.a abc.co " (demoWorld [] true) =
      .ret EXIT_SUCCESS (Call (demoEnv "c++" true 0 (fun _ => 1) 5) "ar -rv libmjit.a abc.co "
        (demoWorld [] true)).world ∧
    Call (demoEnv "c++" false 0 (fun _ => 1) 5) "/no/such/c++ -c abc.cc " (demoWorld [] false) =
      .ret 32512 { demoWorld [] false with
        trace := [Event.warning "/no/such/c++ -c abc.cc ",
                  Event.system false "/no/such/c++ -c abc.cc " 32512] } :=
  ⟨rfl,
   (Call_return_value (demoEnv "c++" false 0 (fun _ => 1) 5) "/no/such/c++ -c abc.cc "
      (demoWorld [] false)).2 rfl⟩

/-- C27: with MPI initialized, on the root, `Call` goes on to copy the command to the buffer
and to send the request exactly when `1 + strlen(c) < Size()`.  Otherwise, and so for a
command with `strlen(c) + 1 = Size()` that would fill the buffer exactly, it ends in the
fatal error on the command length in a state where only the warning was added: buffer,
status word and access counter are as before. -/
theorem Call_length_check (env : Env FS) (c : String) (w : World FS)
    (hroot : mpi.Root env w = true) (hinit : mpi.IsInitialized env w = true) :
    (1 + strlen c < w.size →
      Call env c w =
        (Send env CALL (Memcpy env c { w with trace := w.trace ++ [Event.warning c] })).bind
          fun _ w2 => (Wait env false w2).bind fun _ w3 => .ret EXIT_SUCCESS w3) ∧
    (¬ (1 + strlen c < w.size) →
      Call env c w = .fatal "[JIT] Command length error!"
        { w with trace := w.trace ++ [Event.warning c] }) ∧
    (strlen c + 1 = w.size →
      Call env c w = .fatal "[JIT] Command length error!"
        { w with trace := w.trace ++ [Event.warning c] }) ∧
    ((∃ v, Call env c w = .fatal "[JIT] Command length error!" v) ↔
      ¬ (1 + strlen c < w.size)) := by
  refine ⟨Call_fits env c w hroot hinit, Call_too_long env c w hroot hinit,
    fun h => Call_too_long env c w hroot hinit (by omega), ?_, ?_⟩
  · rintro ⟨v, hv⟩ hfit
    exact Call_fits_not_fatal env c w v _ hroot hinit hfit hv
  · intro h
    exact ⟨_, Call_too_long env c w hroot hinit h⟩

/-- Witness of C27: on a buffer of 8 bytes the command `ar -rv ` of 7 bytes, which with its
terminator would fill the buffer exactly, is rejected, and `ar -r ` of 6 bytes is sent. -/
theorem Call_length_check_witness :
    strlen "ar -rv " + 1 = ({ demoWorld [] true with size := 8 } : World (List String)).size ∧
    Call (demoEnv "c++" true 0 (fun _ => 1) 5) "ar -rv " { demoWorld [] true with size := 8 } =
      .fatal "[JIT] Command length error!"
        { demoWorld [] true with size := 8, trace := [Event.warning "ar -rv "] } ∧
    (Call (demoEnv "c++" true 0 (fun _ => 1) 5) "ar -r "
      { demoWorld [] true with size := 8 }).world.mem = "ar -r " :=
  ⟨by decide,
   (Call_length_check (demoEnv "c++" true 0 (fun _ => 1) 5) "ar -rv "
      { demoWorld [] true with size := 8 } rfl rfl).2.2.1 (by decide),
   by decide⟩

end Calls

/-! # The command builder and the compile command -/

section Builder

variable {FS : Type}

theorem foldl_push (toks : List String) (acc : String) :
    toks.foldl (fun acc t => acc ++ t ++ " ") acc = acc ++ commandText toks := by
  induction toks generalizing acc with
  | nil => simp [commandText]
  | cons t ts ih =>
    simp only [commandText, List.foldl_cons] at ih ⊢
    rw [ih (acc ++ t ++ " "), ih ("" ++ t ++ " ")]
    simp [String.append_assoc]

theorem commandText_cons (t : String) (toks : List String) :
    commandText (t :: toks) = t ++ " " ++ commandText toks := by
  show List.foldl (fun acc t => acc ++ t ++ " ") ("" ++ t ++ " ") toks = _
  rw [foldl_push]
  simp

theorem commandText_concat (toks : List String) (t : String) :
    commandText (toks ++ [t]) = commandText toks ++ t ++ " " := by
  simp [commandText, List.foldl_append]

theorem childStep_command (os : OS FS) (w : World FS) :
    (childStep os w).command = w.command := by
  obtain ⟨fs, ack, mem, size, command, child, mpi, clock, syncs, trace⟩ := w
  cases child <;> simp only [childStep] <;> (try split) <;> rfl

/-- `Call` leaves the builder as it is. -/
theorem Call_command (env : Env FS) (c : String) (w : World FS) :
    (Call env c w).world.command = w.command := by
  have hs : ∀ k : String, ∀ u : World FS, u.command = k → (childStep env.os u).command = k :=
    fun k u h => (childStep_command env.os u).trans h
  have hc : ∀ k : String, ∀ (u : World FS) (n : Nat), u.command = k →
      (u.setClock n).command = k := fun _ _ _ h => h
  have hloop : ∀ (xx : Int) (u : World FS),
      (AckLoop env (fun a b => a != b) xx env.fuel u).world.command = u.command := fun xx u =>
    AckLoop_inv env (fun x => x.command = u.command) (hs u.command) (hc u.command) _ xx
      env.fuel u rfl
  have htick : ∀ u : World FS, (tick env u).command = u.command := fun u =>
    tick_inv env (fun x => x.command = u.command) (hs u.command) (hc u.command) u rfl
  unfold Call
  split
  · rfl
  simp only []
  split
  · rfl
  split
  · rfl
  have h1 : (Send env CALL (Memcpy env c
      { w with trace := w.trace ++ [Event.warning c] })).world.command = w.command := by
    simp only [Send, AckNE]
    rw [hloop]
    show (tick env (Write env CALL
      (Memcpy env c { w with trace := w.trace ++ [Event.warning c] }))).command = _
    rw [htick]
    show (tick env (Memcpy env c { w with trace := w.trace ++ [Event.warning c] })).command = _
    rw [htick]
    show (tick env { w with trace := w.trace ++ [Event.warning c] }).command = _
    rw [htick]
  cases hsend : Send env CALL (Memcpy env c { w with trace := w.trace ++ [Event.warning c] }) with
  | fatal m u => rw [hsend] at h1; exact h1
  | spin u => rw [hsend] at h1; exact h1
  | ret a w2 =>
    rw [hsend] at h1
    simp only [Out.world] at h1
    simp only [Out.bind_ret]
    have h2 : (Wait env false w2).world.command = w2.command := by
      simp only [Wait, AckNE, Bool.false_eq_true, if_false]
      exact hloop ACK w2
    cases hw : Wait env false w2 with
    | fatal m u => rw [hw] at h2; exact h2.trans h1
    | spin u => rw [hw] at h2; exact h2.trans h1
    | ret b w3 => rw [hw] at h2; exact h2.trans h1

/-- C29 fails for HIP: the token of the compile command is `Xcompiler() + "-pipe"` and not
`Xpipe()`.  The two agree for a host build (`-pipe`) and for CUDA (`-Xcompiler=-pipe`); for
HIP the option `Pipe()` is `-pipe` but the command carries `-Xcompiler=-pipe`. -/
theorem compile_pipe_flag (env : Env FS) (hash : Nat) :
    (compileTokens env hash)[8]? = some (Xcompiler env.cfg ++ "-pipe") ∧
    Xpipe env.cfg = (if env.cfg.MFEM_USE_CUDA then "-Xcompiler=-pipe" else "-pipe") ∧
    Xcompiler env.cfg ++ "-pipe" =
      (if env.cfg.MFEM_USE_CUDA || env.cfg.MFEM_USE_HIP then "-Xcompiler=-pipe" else "-pipe") ∧
    Xpipe demoCfgHIP = "-pipe" ∧ Xcompiler demoCfgHIP ++ "-pipe" = "-Xcompiler=-pipe" := by
  refine ⟨rfl, ?_, ?_, by decide, by decide⟩
  · cases h1 : env.cfg.MFEM_USE_CUDA <;> cases h2 : env.cfg.MFEM_USE_HIP <;>
      simp [Xpipe, options, Options.Pipe, Xcompiler, Options.Compiler, h1, h2]
  · cases h1 : env.cfg.MFEM_USE_CUDA <;> cases h2 : env.cfg.MFEM_USE_HIP <;>
      simp [options, Xcompiler, Options.Compiler, h1, h2]

/-- C30: the text of the builder is the concatenation of the tokens pushed, in order, each
followed by one space, so that an empty token leaves a lone space; pushing tokens appends
to the text already there; `Call()` takes the text as its command and leaves the builder
empty; and for a host build on Linux the command of step 1 of `Lookup` is the compiler
followed by ` -shared -o ./libmjit.so -Wl,--whole-archive libmjit.a -Wl,--no-whole-archive
-Wl,-rpath,. `. -/
theorem Command_text (env : Env FS) (toks : List String) (t : String) (w : World FS) :
    commandText [] = "" ∧
    commandText (t :: toks) = t ++ " " ++ commandText toks ∧
    commandText (toks ++ [t]) = commandText toks ++ t ++ " " ∧
    commandText ("" :: toks) = " " ++ commandText toks ∧
    (Command.pushAll toks w).command = w.command ++ commandText toks ∧
    CallCommand env (Command.pushAll toks w) =
      Call env (w.command ++ commandText toks) { Command.pushAll toks w with command := "" } ∧
    (CallCommand env (Command.pushAll toks w)).world.command = "" ∧
    (env.cfg.MFEM_USE_CUDA = false → env.cfg.MFEM_USE_HIP = false → env.cfg.APPLE = false →
      commandText (archiveLinkTokens env.cfg) = env.cfg.MFEM_JIT_CXX ++
        " -shared -o ./libmjit.so -Wl,--whole-archive libmjit.a -Wl,--no-whole-archive -Wl,-rpath,. ") := by
  have hpush : (Command.pushAll toks w).command = w.command ++ commandText toks := by
    rw [pushAll_eq]
    exact foldl_push toks w.command
  refine ⟨rfl, commandText_cons t toks, commandText_concat toks t, ?_, hpush, ?_, ?_, ?_⟩
  · rw [commandText_cons]; simp
  · simp only [CallCommand, hpush]
  · simp only [CallCommand]
    rw [Call_command]
  · intro h1 h2 h3
    have e : archiveLinkTokens env.cfg =
        env.cfg.MFEM_JIT_CXX :: ["-shared", "-o", "./libmjit.so", "-Wl,--whole-archive",
          "libmjit.a", "-Wl,--no-whole-archive", "-Wl,-rpath,."] := by
      simp [archiveLinkTokens, Cxx, so, ar, ARprefix, ARpostfix, archive, Link.Prefix,
        Link.Postfix, Xlinker, options, Options.Linker, h1, h2, h3]
    rw [e, commandText_cons, String.append_assoc]
    congr 1

/-- Witness of C30: the command of step 1 for the compiler `c++`, and a chain with an empty
token. -/
theorem Command_text_witness :
    commandText (archiveLinkTokens (demoCfg "c++" false)) =
      "c++ -shared -o ./libmjit.so -Wl,--whole-archive libmjit.a -Wl,--no-whole-archive -Wl,-rpath,. " ∧
    commandText ["install", "", "sym_ABC", "./libmjit.so"] = "install  sym_ABC ./libmjit.so " :=
  ⟨(Command_text (demoEnv "c++" false 0 (fun _ => 1) 5) [] "" (demoWorld [] false)).2.2.2.2.2.2.2
      rfl rfl rfl,
   by decide⟩

end Builder

/-! # What `Send` and `Call` wait for -/

section Polling

variable {FS : Type}

/-- With the child at the head of its loop and the status `ACK`, a loop that polls for
another value runs out of fuel. -/
theorem AckLoop_idle_spin (env : Env FS) (xx : Int) (hx : xx ≠ ACK) (n : Nat) (w : World FS)
    (h1 : w.child = ChildPc.wait) (h2 : w.ack = ACK) :
    AckLoop env (fun a b => a != b) xx n w = .spin (w.setClock (w.clock + n)) := by
  induction n generalizing w with
  | zero => rfl
  | succ n ih =>
    simp only [AckLoop]
    rw [tick_idle env w h1 h2]
    have ha : ((w.setClock (w.clock + 1)).ack != xx) = true := by
      show (w.ack != xx) = true
      rw [h2]
      simpa using Ne.symm hx
    rw [if_pos ha, ih (w.setClock (w.clock + 1)) h1 h2]
    congr 1
    show w.setClock (w.clock + 1 + n) = w.setClock (w.clock + (n + 1))
    congr 1
    omega

/-- The lost acknowledgment: `Send(CALL)` stores `CALL` and reads it back while the child has
taken at most four steps; when the child then completes the request before the first look of
the loop at the status word, the loop polls for ever for a value that is gone, with the command
done and the child back at the head of its loop. -/
theorem Call_lost_acknowledgment (env : Env FS) (c : String) (w : World FS) (n : Nat)
    (hroot : mpi.Root env w = true) (hinit : mpi.IsInitialized env w = true)
    (h1 : w.child = ChildPc.wait) (h2 : w.ack = ACK) (hfit : 1 + strlen c < w.size)
    (hr : (env.os.system w.fs c).1 = 0) (hs1 : env.sched (w.clock + 2) ≤ 4)
    (hs2 : 5 ≤ env.sched (w.clock + 2) + env.sched (w.clock + 3))
    (hfuel : env.fuel = n + 1) :
    Call env c w = .spin
      { w with mem := c, fs := (env.os.system w.fs c).2,
               trace := w.trace ++ [Event.warning c, Event.system true c 0],
               clock := w.clock + 4 + n } := by
  rw [Call_mpi_eq env c w hroot hinit h1 h2 hfit, hfuel]
  have hback : (served env.os (callRequest c w) (env.sched (w.clock + 2))).ack = CALL := by
    rcases served_ack env.os (callRequest c w) rfl (env.sched (w.clock + 2)) with
      ⟨_, _, h5⟩ | ⟨hc, _⟩
    · omega
    · exact hc
  rw [hback]
  simp only [AckLoop]
  rw [tick_served env (callRequest c w) h1 rfl,
    served_done env.os (callRequest c w) _ hr hs2]
  have ha : (({ callRequest c w with
      fs := (env.os.system (callRequest c w).fs (callRequest c w).mem).2,
      trace := (callRequest c w).trace ++ [Event.system true (callRequest c w).mem 0],
      ack := ACK, child := ChildPc.wait } : World FS).setClock (w.clock + 3 + 1)).ack = ACK :=
    rfl
  rw [ha]
  simp only [CALL_ne_ACK.symm, bne_iff_ne, ne_eq, not_false_eq_true, if_true]
  rw [AckLoop_idle_spin env CALL CALL_ne_ACK n _ rfl rfl]
  simp only [Out.bind_spin, Out.spin.injEq]
  ext <;> simp [callRequest, World.setClock, h1, h2]

/-- `Wait(false)` returns with the status `ACK`. -/
theorem Wait_ret_ack (env : Env FS) (w v : World FS) (h : Wait env false w = .ret () v) :
    v.ack = ACK := by
  simp only [Wait, Bool.false_eq_true, if_false] at h
  have h1 := AckLoop_ret_op env _ ACK env.fuel _ v h
  simpa using h1

/-- Under MPI `Call` returns with the status `ACK`. -/
theorem Call_mpi_ret_ack (env : Env FS) (c : String) (w v : World FS) (s : Int)
    (hinit : mpi.IsInitialized env w = true) (h : Call env c w = .ret s v) : v.ack = ACK := by
  have hinit' : mpi.IsInitialized env { w with trace := w.trace ++ [Event.warning c] } = true :=
    hinit
  unfold Call at h
  by_cases hroot : mpi.Root env w = true
  swap
  · simp [hroot] at h
  simp only [hroot, hinit', Bool.not_true, Bool.false_eq_true, if_false] at h
  split at h
  · exact absurd h (by simp)
  cases hs : Send env CALL (Memcpy env c { w with trace := w.trace ++ [Event.warning c] }) with
  | fatal m u => rw [hs] at h; exact absurd h (by simp)
  | spin u => rw [hs] at h; exact absurd h (by simp)
  | ret a w2 =>
    rw [hs] at h
    simp only [Out.bind_ret] at h
    cases hw : Wait env false w2 with
    | fatal m u => rw [hw] at h; exact absurd h (by simp)
    | spin u => rw [hw] at h; exact absurd h (by simp)
    | ret b w3 =>
      rw [hw] at h
      simp only [Out.bind_ret, Out.ret.injEq] at h
      rw [← h.2]
      exact Wait_ret_ack env w2 w3 hw

/-- When the child has served the whole request before the status word is read back,
`Send(CALL)` polls for the `ACK` it has read and returns with the status `ACK`, the command
done. -/
theorem Send_after_service :
    (Send (demoEnv "c++" true 0 (fun _ => 5) 5) CALL
        { demoWorld [] true with mem := "ar -rv libmjit.a abc.co " }).isRet = true ∧
    (Send (demoEnv "c++" true 0 (fun _ => 5) 5) CALL
        { demoWorld [] true with mem := "ar -rv libmjit.a abc.co " }).world.ack = ACK ∧
    (Send (demoEnv "c++" true 0 (fun _ => 5) 5) CALL
        { demoWorld [] true with mem := "ar -rv libmjit.a abc.co " }).world.trace =
      [Event.system true "ar -rv libmjit.a abc.co " 0] := by
  decide

/-- C22 fails as stated: with a command in the buffer and a child that has not taken a step,
`Send(CALL)` stores `CALL`, reads `CALL` back and returns at its first look at the status
word, which reads `CALL`: the child has acknowledged nothing and run nothing.  `Send(EXIT)`
returns with `EXIT`, which no child ever acknowledges. -/
theorem Send_returns_before_acknowledgment :
    Send (demoEnv "c++" true 0 (fun _ => 0) 5) CALL
        { demoWorld [] true with mem := "ar -rv libmjit.a abc.co " } =
      .ret () { demoWorld [] true with mem := "ar -rv libmjit.a abc.co ", ack := CALL,
                                       clock := 3 } ∧
    Send (demoEnv "c++" true 0 (fun _ => 1) 5) EXIT (demoWorld [] true) =
      .ret () { demoWorld [] true with ack := EXIT, clock := 3, child := ChildPc.isExit } :=
  ⟨rfl, rfl⟩

/-- C22 as amended: `Send(x)` stores `x`, reads the status word back and returns only when the
status word reads the value read back, which is `x` or, when the child acknowledged between
the store and the read, `ACK`; so it returns with the status `x` or `ACK`, for a request not
yet seen by the child before any acknowledgment.  The wait for the acknowledgment is
`Wait(false)`, which returns only when the status word reads `ACK`, and under MPI `Call`,
which does both, returns only with the status `ACK`. -/
theorem Send_returns_when_flushed (env : Env FS) (xx : Int) (w v : World FS)
    (h : Send env xx w = .ret () v) :
    v.ack = (Read env (Write env xx w)).1 ∧ (v.ack = xx ∨ v.ack = ACK) ∧
    (∀ u u', Wait env false u = .ret () u' → u'.ack = ACK) ∧
    (∀ c s u u', mpi.IsInitialized env u = true → Call env c u = .ret s u' → u'.ack = ACK) := by
  have ha := Send_ret_ack env xx w v h
  exact ⟨ha, ha ▸ readback_values env xx w, fun u u' hu => Wait_ret_ack env u u' hu,
    fun c s u u' hi hc => Call_mpi_ret_ack env c u u' s hi hc⟩

/-- Witness of the amended C22. -/
theorem Send_returns_when_flushed_witness :
    ({ demoWorld [] true with mem := "ar -rv libmjit.a abc.co ", ack := CALL, clock := 3 } :
        World (List String)).ack = CALL ∨
    ({ demoWorld [] true with mem := "ar -rv libmjit.a abc.co ", ack := CALL, clock := 3 } :
        World (List String)).ack = ACK :=
  (Send_returns_when_flushed (demoEnv "c++" true 0 (fun _ => 0) 5) CALL
    { demoWorld [] true with mem := "ar -rv libmjit.a abc.co " }
    { demoWorld [] true with mem := "ar -rv libmjit.a abc.co ", ack := CALL, clock := 3 }
    rfl).2.1

/-- C28 fails: rank 0 of an MPI run hands over the archive update.  `Send(CALL)` stores
`CALL` and reads it back before the child has taken a step; the child then serves the whole
request, in five steps, before the first look of the loop of `Send(CALL)` at the status word.
Whatever the fuel, `Call` is still polling for `CALL`, with the command run with status 0, the
status word `ACK` and the child back at the head of its loop. -/
theorem Call_polls_after_service (fuel : Nat) :
    Call (demoEnv "c++" true 0 burstChild (fuel + 1)) "ar -rv libmjit.a abc.co "
        (demoWorld [] true) =
      .spin { demoWorld [] true with
        mem := "ar -rv libmjit.a abc.co ", fs := ["libmjit.a"],
        trace := [Event.warning "ar -rv libmjit.a abc.co ",
                  Event.system true "ar -rv libmjit.a abc.co " 0],
        ack := ACK, child := ChildPc.wait, clock := 4 + fuel } := by
  rw [Call_lost_acknowledgment (demoEnv "c++" true 0 burstChild (fuel + 1))
    "ar -rv libmjit.a abc.co " (demoWorld [] true) fuel rfl rfl rfl rfl (by decide) rfl
    (by decide : burstChild 2 ≤ 4) (by decide : 5 ≤ burstChild 2 + burstChild 3) rfl]
  congr 1

end Polling

/-! # Step 1 of `Lookup` -/

section Cache

variable {FS : Type}

theorem issued_childEvent (l : List Event) (h : ∀ e ∈ l, ChildEvent e) : issued l = [] := by
  induction l with
  | nil => rfl
  | cons e l ih =>
    obtain ⟨c, st, rfl⟩ := h e (List.mem_cons_self _ _)
    simpa [issued] using ih (fun x hx => h x (List.mem_cons_of_mem _ hx))

/-- On the root `Call` hands over one command, its argument, whatever happens next. -/
theorem Call_issued (env : Env FS) (c : String) (w : World FS)
    (hroot : mpi.Root env w = true) :
    issued (Call env c w).world.trace = issued w.trace ++ [c] := by
  by_cases hinit : mpi.IsInitialized env w = true
  swap
  · rw [Call_serial env c w (by simpa using hinit)]
    simp [Out.world, issued_append, issued]
  by_cases hfit : 1 + strlen c < w.size
  swap
  · rw [Call_too_long env c w hroot hinit hfit]
    simp [Out.world, issued_append, issued]
  rw [Call_fits env c w hroot hinit hfit]
  have h : Ext ChildEvent { w with trace := w.trace ++ [Event.warning c] }
      ((Send env CALL (Memcpy env c { w with trace := w.trace ++ [Event.warning c] })).bind
        fun _ w2 => (Wait env false w2).bind fun _ w3 => .ret EXIT_SUCCESS w3).world := by
    refine Ext_bind _ _ ((Memcpy_ext env c _).trans (Send_ext env CALL _)) ?_
    intro _ v _
    refine Ext_bind _ _ (Wait_ext env false v) ?_
    intro _ u _
    exact Ext.refl _ _
  obtain ⟨-, new, ht, hn⟩ := h
  rw [ht, issued_append, issued_childEvent new hn]
  simp [issued_append, issued]

theorem issued_bind {α β : Type} (o : Out (World FS) α) (f : α → World FS → Out (World FS) β)
    (h : ∀ a v, issued (f a v).world.trace = issued v.trace) :
    issued (o.bind f).world.trace = issued o.world.trace := by
  cases o with
  | ret a v => exact h a v
  | fatal m v => rfl
  | spin v => rfl

theorem issued_Sync (env : Env FS) (status : Int) (w : World FS) :
    issued (mpi.Sync env status w).world.trace = issued w.trace := by
  by_cases h : mpi.IsInitialized env w = true
  · rw [Sync_mpi env status w h]
    split <;> simp [Out.world, issued_append, issued]
  · rw [Sync_serial env status w (by simpa using h)]
    split <;> rfl

/-- What step 1 of `Lookup` hands to `Call`: the link of the archive, on the root, when the
archive exists and no handle was obtained from `./libmjit.so`; nothing otherwise. -/
theorem LookupCache_issued (env : Env FS) (w : World FS) :
    issued (LookupCache env w).world.trace = issued w.trace ++
      (if mpi.Root env w = true ∧ env.os.fstream w.fs ar = true ∧
          (env.os.fstream w.fs so = false ∨ env.os.dlopen w.fs so = none)
       then [w.command ++ commandText (archiveLinkTokens env.cfg)] else []) := by
  have hlink : ∀ v : World FS, v.trace = w.trace ∨ v.trace = w.trace ++ [Event.dlopen so] →
      v.command = w.command → mpi.Root env v = mpi.Root env w →
      issued (((if mpi.Root env v = true then
          CallCommand env (Command.pushAll (archiveLinkTokens env.cfg) v)
        else Out.ret EXIT_SUCCESS v).bind fun status w1 =>
        (mpi.Sync env status w1).bind fun _ w2 =>
          match (DLopen env so w2).1 with
          | none => Out.fatal "[JIT] Error ./libmjit.so from libmjit.a" (DLopen env so w2).2
          | some h => Out.ret (some h) (DLopen env so w2).2).world.trace) =
        issued w.trace ++ (if mpi.Root env w = true then
          [w.command ++ commandText (archiveLinkTokens env.cfg)] else []) := by
    intro v hv hcmd hrv
    have hiv : issued v.trace = issued w.trace := by
      rcases hv with hv | hv <;> rw [hv]
      simp [issued_append, issued]
    rw [issued_bind]
    · rw [hrv]
      cases hroot : mpi.Root env w
      · simp [Out.world, hiv]
      · simp only [if_true]
        have hpush : (Command.pushAll (archiveLinkTokens env.cfg) v).command =
            w.command ++ commandText (archiveLinkTokens env.cfg) := by
          rw [pushAll_eq, ← hcmd]
          exact foldl_push _ _
        have hr' : mpi.Root env
            { Command.pushAll (archiveLinkTokens env.cfg) v with command := "" } = true := by
          rw [pushAll_eq]
          exact (Root_congr env v _ rfl).trans (hrv.trans hroot)
        have ht' : ({ Command.pushAll (archiveLinkTokens env.cfg) v with command := "" } :
            World FS).trace = v.trace := by
          rw [pushAll_eq]
        simp only [CallCommand, hpush]
        rw [Call_issued env (w.command ++ commandText (archiveLinkTokens env.cfg))
          { Command.pushAll (archiveLinkTokens env.cfg) v with command := "" } hr', ht', hiv]
    · intro a v1
      rw [issued_bind, issued_Sync]
      intro _ w2
      split <;> simp [DLopen, Out.world, issued_append, issued]
  unfold LookupCache
  cases hso : env.os.fstream w.fs so
  · simp only [Bool.false_eq_true, if_false, Option.isNone_none, Bool.true_and]
    cases har : env.os.fstream w.fs ar
    · simp [Out.world]
    · simp only [if_true]
      rw [hlink w (Or.inl rfl) rfl rfl]
      cases mpi.Root env w <;> simp
  · simp only [if_true]
    cases hdl : env.os.dlopen w.fs so with
    | some h =>
      simp [DLopen, hdl, Out.world, issued_append, issued]
    | none =>
      have h1 : (DLopen env so w).1 = none := hdl
      cases har : env.os.fstream w.fs ar
      · have h2 : env.os.fstream (DLopen env so w).2.fs ar = false := har
        simp only [h1, h2, Option.isNone_none, Bool.and_false, Bool.false_eq_true, if_false]
        simp [Out.world, DLopen, issued_append, issued]
      · have h2 : env.os.fstream (DLopen env so w).2.fs ar = true := har
        simp only [h1, h2, Option.isNone_none, Bool.and_self, if_true]
        rw [hlink (DLopen env so w).2 (Or.inr rfl) rfl rfl]
        cases mpi.Root env w <;> simp

/-- C24 fails as stated: the shared library and the archive are both there but the library
cannot be loaded; step 1 of `Lookup` then issues the link command although the file
`./libmjit.so` exists. -/
theorem LookupCache_links_over_existing_library :
    demoEnvUnloadable.os.fstream ["./libmjit.so", "libmjit.a"] so = true ∧
    issued (LookupCache demoEnvUnloadable
        (demoWorld ["./libmjit.so", "libmjit.a"] false)).world.trace =
      ["c++ -shared -o ./libmjit.so -Wl,--whole-archive libmjit.a -Wl,--no-whole-archive -Wl,-rpath,. "] ∧
    opened (LookupCache demoEnvUnloadable
        (demoWorld ["./libmjit.so", "libmjit.a"] false)).world.trace =
      ["./libmjit.so", "./libmjit.so"] := by
  decide

/-- C24 as amended: in step 1 of `Lookup` the link of the archive is issued exactly when the
process is the root, the archive exists and no handle was obtained from `./libmjit.so`,
because the file does not exist or because it could not be loaded; when the file exists and
loads, step 1 is that load and nothing else. -/
theorem LookupCache_link_condition (env : Env FS) (w : World FS) :
    (∀ h, env.os.fstream w.fs so = true → env.os.dlopen w.fs so = some h →
      LookupCache env w = .ret (some h) (DLopen env so w).2) ∧
    issued (LookupCache env w).world.trace = issued w.trace ++
      (if mpi.Root env w = true ∧ env.os.fstream w.fs ar = true ∧
          (env.os.fstream w.fs so = false ∨ env.os.dlopen w.fs so = none)
       then [w.command ++ commandText (archiveLinkTokens env.cfg)] else []) := by
  refine ⟨?_, LookupCache_issued env w⟩
  intro h hso hdl
  have h1 : (DLopen env so w).1 = some h := hdl
  unfold LookupCache
  simp only [hso, if_true, h1, Option.isNone_some, Bool.false_and, Bool.false_eq_true, if_false]

/-- Witness of the amended C24: with the library on disk and loadable nothing is issued;
with the archive alone the link is. -/
theorem LookupCache_link_condition_witness :
    LookupCache (demoEnv "c++" false 0 (fun _ => 1) 5)
        (demoWorld ["./libmjit.so", "libmjit.a"] false) =
      .ret (some 7) (DLopen (demoEnv "c++" false 0 (fun _ => 1) 5) so
        (demoWorld ["./libmjit.so", "libmjit.a"] false)).2 ∧
    issued (LookupCache (demoEnv "c++" false 0 (fun _ => 1) 5)
        (demoWorld ["libmjit.a"] false)).world.trace =
      ["c++ -shared -o ./libmjit.so -Wl,--whole-archive libmjit.a -Wl,--no-whole-archive -Wl,-rpath,. "] :=
  ⟨(LookupCache_link_condition (demoEnv "c++" false 0 (fun _ => 1) 5)
      (demoWorld ["./libmjit.so", "libmjit.a"] false)).1 7 rfl rfl,
   by decide⟩

end Cache

/-! # How the child ends -/

section Exits

variable {FS : Type}

theorem childStep_exit_code (os : OS FS) (u : World FS) (c : Int)
    (h : (childStep os u).child = ChildPc.exited c) :
    u.child = ChildPc.exited c ∨ c = EXIT_SUCCESS := by
  obtain ⟨fs, ack, mem, size, command, child, mpi, clock, syncs, trace⟩ := u
  cases child <;> simp only [childStep] at h <;> (try split at h) <;> simp at h ⊢ <;>
    first | exact h.symm | exact h | exact Or.inl h

theorem childStep_abort (os : OS FS) (u : World FS)
    (h : (childStep os u).child = ChildPc.aborted) :
    u.child = ChildPc.aborted ∨ (u.child = ChildPc.verifyAck ∧ u.ack ≠ ACK) := by
  obtain ⟨fs, ack, mem, size, command, child, mpi, clock, syncs, trace⟩ := u
  cases child <;> simp only [childStep] at h <;> (try split at h) <;> simp at h ⊢
  rename_i hne
  simpa using hne

/-- A child that has passed its first check never aborts. -/
theorem childRun_started (os : OS FS) (n : Nat) (w : World FS)
    (h : w.child ≠ ChildPc.unborn ∧ w.child ≠ ChildPc.verifyAck ∧ w.child ≠ ChildPc.aborted) :
    (childRun os n w).child ≠ ChildPc.unborn ∧ (childRun os n w).child ≠ ChildPc.verifyAck ∧
    (childRun os n w).child ≠ ChildPc.aborted := by
  refine childRun_inv os (fun u => u.child ≠ ChildPc.unborn ∧ u.child ≠ ChildPc.verifyAck ∧
    u.child ≠ ChildPc.aborted) ?_ n w h
  intro u hu
  obtain ⟨fs, ack, mem, size, command, child, mpi, clock, syncs, trace⟩ := u
  cases child <;> simp only [childStep] <;> (try split) <;> simp at hu ⊢

theorem childRun_exit_code (os : OS FS) (n : Nat) (w : World FS) (c : Int)
    (h : (childRun os n w).child = ChildPc.exited c) :
    w.child = ChildPc.exited c ∨ c = EXIT_SUCCESS := by
  refine childRun_inv os (fun u => ∀ c, u.child = ChildPc.exited c →
    w.child = ChildPc.exited c ∨ c = EXIT_SUCCESS) ?_ n w (fun c hc => Or.inl hc) c h
  intro u hu c hc
  rcases childStep_exit_code os u c hc with h1 | h1
  · exact hu c h1
  · exact Or.inr h1

theorem childRun_exit_request (os : OS FS) (w : World FS) (hc : w.child = ChildPc.wait)
    (ha : w.ack = EXIT) (n : Nat) :
    childRun os (n + 3) w = { w with child := ChildPc.exited EXIT_SUCCESS } := by
  have h3 : childRun os 3 w = { w with child := ChildPc.exited EXIT_SUCCESS } := by
    obtain ⟨fs, ack, mem, size, command, child, mpi, clock, syncs, trace⟩ := w
    simp only at hc ha
    subst hc ha
    simp [childRun, childStep, EXIT_ne_ACK, Ne.symm CALL_ne_EXIT]
  rw [Nat.add_comm, childRun_add, h3]
  exact childRun_exited os n _ EXIT_SUCCESS rfl

/-- C26 fails: `Init` writes the rank into the status word without waiting for the child to
pass its first check.  When the child takes its first step only after that write, its
`MFEM_VERIFY(IsAck(), "[JIT] Child process initialization error!")` finds the rank 0 instead
of `ACK`: the child ends by the abort of a failed verification, not by
`std::exit(EXIT_SUCCESS)` (`waitpid` would report 134), and `Init` is still polling for an
acknowledgment when its fuel is spent. -/
theorem child_aborts_when_late :
    (Init (demoEnv "c++" true 0 lateChild 5) demoSys (demoProc [])).world.world.child =
      ChildPc.aborted ∧
    (Init (demoEnv "c++" true 0 lateChild 5) demoSys (demoProc [])).world.world.ack = 0 ∧
    (Init (demoEnv "c++" true 0 lateChild 5) demoSys (demoProc [])).isSpin = true ∧
    (waitpid (demoEnv "c++" true 0 lateChild 5) demoSys 1
      (Init (demoEnv "c++" true 0 lateChild 5) demoSys (demoProc [])).world.world).map
        Prod.fst = some 134 := by
  decide

/-- Exits of the child: every `std::exit` of the child is with `EXIT_SUCCESS`: whatever the
number of steps, a child found exited has the code `EXIT_SUCCESS` (or had exited before).
It does exit so after an exit request, after a command that failed, and when the rank it
was given is not 0; `waitpid` then leaves 0 in `status`.  The one other end of the child is
the abort of its first check, when it does not find `ACK` in the status word; a child that
has passed this check never aborts. -/
theorem child_exit_codes (env : Env FS) (sys : Sys) (w : World FS) :
    (∀ n c, (childRun env.os n w).child = ChildPc.exited c →
      w.child = ChildPc.exited c ∨ c = EXIT_SUCCESS) ∧
    (w.child = ChildPc.wait → w.ack = EXIT →
      ∀ n, (childRun env.os (n + 3) w).child = ChildPc.exited EXIT_SUCCESS) ∧
    (w.child = ChildPc.wait → w.ack = CALL → (env.os.system w.fs w.mem).1 ≠ 0 →
      ∀ n, (childRun env.os (n + 3) w).child = ChildPc.exited EXIT_SUCCESS) ∧
    (∀ rank, w.child = ChildPc.acknowledgeRank rank → rank ≠ 0 →
      ∀ n, (childRun env.os (n + 1) w).child = ChildPc.exited EXIT_SUCCESS) ∧
    (w.child = ChildPc.exited EXIT_SUCCESS → ∀ n, waitpid env sys (n + 1) w = some (0, w)) ∧
    ((childStep env.os w).child = ChildPc.aborted →
      w.child = ChildPc.aborted ∨ (w.child = ChildPc.verifyAck ∧ w.ack ≠ ACK)) ∧
    (w.child ≠ ChildPc.unborn → w.child ≠ ChildPc.verifyAck → w.child ≠ ChildPc.aborted →
      ∀ n, (childRun env.os n w).child ≠ ChildPc.aborted) := by
  refine ⟨fun n c h => childRun_exit_code env.os n w c h, ?_, ?_, ?_, ?_,
    childStep_abort env.os w, fun h1 h2 h3 n => (childRun_started env.os n w ⟨h1, h2, h3⟩).2.2⟩
  · intro hc ha n
    rw [childRun_exit_request env.os w hc ha n]
  · intro hc ha hr n
    have h := childRun_served env.os w hc ha (n + 3) 0
    rw [Nat.zero_add] at h
    have h0 : served env.os w 0 = w := rfl
    rw [h0] at h
    rw [h]
    simp [served, hr]
  · intro rank hc hr n
    have h1 : childStep env.os w =
        { w with ack := ACK, child := ChildPc.exited EXIT_SUCCESS } := by
      obtain ⟨fs, ack, mem, size, command, child, mpi, clock, syncs, trace⟩ := w
      simp only at hc
      subst hc
      simp [childStep, hr]
    rw [Nat.add_comm]
    simp only [childRun_add, childRun]
    rw [h1, childRun_exited env.os n _ EXIT_SUCCESS rfl]
  · intro hc n
    simp [waitpid, hc, EXIT_SUCCESS]

/-- A child given the rank 3 has exited with `EXIT_SUCCESS` after one step and stays so. -/
theorem child_exit_rank3 :
    ∀ n, (childRun demoOS (n + 1)
      { demoWorld [] true with child := ChildPc.acknowledgeRank 3, ack := 3 }).child =
        ChildPc.exited EXIT_SUCCESS :=
  (child_exit_codes (demoEnv "c++" true 3 (fun _ => 1) 5) demoSys
    { demoWorld [] true with child := ChildPc.acknowledgeRank 3, ack := 3 }).2.2.2.1 3 rfl
    (by decide)

end Exits

/-! # The values of the status word -/

section Status

variable {FS : Type}

theorem childStep_protocol (os : OS FS) (w : World FS) (h : IsProtocolValue w.ack) :
    IsProtocolValue (childStep os w).ack := by
  obtain ⟨fs, ack, mem, size, command, child, mpi, clock, syncs, trace⟩ := w
  cases child <;> simp only [childStep] <;> (try split) <;>
    first | exact h | exact Or.inl rfl

theorem tick_protocol (env : Env FS) (w : World FS) (h : IsProtocolValue w.ack) :
    IsProtocolValue (tick env w).ack :=
  tick_inv env (fun u => IsProtocolValue u.ack) (childStep_protocol env.os)
    (fun _ _ hu => hu) w h

theorem AckLoop_protocol (env : Env FS) (op : Int → Int → Bool) (xx : Int) (n : Nat)
    (w : World FS) (h : IsProtocolValue w.ack) :
    IsProtocolValue (AckLoop env op xx n w).world.ack :=
  AckLoop_inv env (fun u => IsProtocolValue u.ack) (childStep_protocol env.os)
    (fun _ _ hu => hu) op xx n w h

theorem Send_protocol (env : Env FS) (xx : Int) (w : World FS) (hx : IsProtocolValue xx) :
    IsProtocolValue (Send env xx w).world.ack :=
  AckLoop_protocol env _ _ env.fuel (Read env (Write env xx w)).2
    (tick_protocol env (Write env xx w) hx)

theorem Call_protocol (env : Env FS) (c : String) (w : World FS)
    (h : IsProtocolValue w.ack) : IsProtocolValue (Call env c w).world.ack := by
  by_cases hroot : mpi.Root env w = true
  swap
  · rw [Call_not_root env c w (by simpa using hroot)]; exact h
  by_cases hinit : mpi.IsInitialized env w = true
  swap
  · rw [Call_serial env c w (by simpa using hinit)]; exact h
  by_cases hfit : 1 + strlen c < w.size
  swap
  · rw [Call_too_long env c w hroot hinit hfit]; exact h
  rw [Call_fits env c w hroot hinit hfit]
  have h1 := Send_protocol env CALL
    (Memcpy env c { w with trace := w.trace ++ [Event.warning c] }) (Or.inr (Or.inl rfl))
  cases hs : Send env CALL (Memcpy env c { w with trace := w.trace ++ [Event.warning c] }) with
  | fatal m u => rw [hs] at h1; exact h1
  | spin u => rw [hs] at h1; exact h1
  | ret a w2 =>
    rw [hs] at h1
    simp only [Out.bind_ret]
    have h2 : IsProtocolValue (Wait env false w2).world.ack := by
      simp only [Wait, AckNE, Bool.false_eq_true, if_false]
      exact AckLoop_protocol env _ ACK env.fuel w2 h1
    cases hw : Wait env false w2 with
    | fatal m u => rw [hw] at h2; exact h2
    | spin u => rw [hw] at h2; exact h2
    | ret b w3 => rw [hw] at h2; exact h2

theorem Sync_ack (env : Env FS) (status : Int) (w : World FS) :
    (mpi.Sync env status w).world.ack = w.ack := by
  by_cases h : mpi.IsInitialized env w = true
  · rw [Sync_mpi env status w h]
    split <;> rfl
  · rw [Sync_serial env status w (by simpa using h)]
    split <;> rfl

theorem Protocol_graded (env : Env FS) (hash : Nat) (source : String) :
    Graded env hash source (fun _ w v => IsProtocolValue w.ack → IsProtocolValue v.ack) where
  refl := fun _ h => h
  add := fun _ _ _ _ _ h1 h2 h => h2 (h1 h)
  mono := fun _ _ _ _ _ h => h
  call := by
    intro toks v h
    have e : ({ Command.pushAll toks v with command := "" } : World FS).ack = v.ack := by
      rw [pushAll_eq]
    exact Call_protocol env _ _ (by rw [e]; exact h)
  rm := fun _ _ h => h
  sync := fun s v h => by rw [Sync_ack]; exact h
  load := fun _ _ h => h
  src := fun _ _ h => h

theorem waitpid_protocol (env : Env FS) (sys : Sys) (n : Nat) (w w2 : World FS) (st : Int)
    (h : IsProtocolValue w.ack) (hw : waitpid env sys n w = some (st, w2)) :
    IsProtocolValue w2.ack := by
  induction n generalizing w with
  | zero => exact absurd hw (by simp [waitpid])
  | succ n ih =>
    have hstep := ih (childStep env.os w) (childStep_protocol env.os w h)
    cases hc : w.child <;> simp only [waitpid, hc] at hw <;> (try exact hstep hw) <;>
      (simp only [Option.some.injEq, Prod.mk.injEq] at hw; rw [← hw.2]; exact h)

theorem Finalize_protocol (env : Env FS) (sys : Sys) (m : Proc FS)
    (h : IsProtocolValue m.world.ack) :
    IsProtocolValue (Finalize env sys m).world.world.ack := by
  unfold Finalize
  split
  · exact h
  split
  · exact tick_protocol env m.world h
  have h1 := Send_protocol env EXIT (Read env m.world).2 (Or.inr (Or.inr rfl))
  cases hs : Send env EXIT (Read env m.world).2 with
  | fatal msg u => rw [hs] at h1; exact h1
  | spin u => rw [hs] at h1; exact h1
  | ret a w1 =>
    rw [hs] at h1
    simp only [Out.lift, Out.bind_ret]
    have hw1 : ((m.note (Act.write EXIT)).setWorld w1).world = w1 := rfl
    rw [hw1]
    cases hw : waitpid env sys env.fuel w1 with
    | none => exact h1
    | some r =>
      have h2 := waitpid_protocol env sys env.fuel w1 r.2 r.1 h1 hw
      simp only []
      split
      · exact h2
      split
      · exact h2
      split <;> exact h2

/-- The status word during the rank handshake of `Init`: the rank, or `ACK`. -/
theorem handshake_values (env : Env FS) (rank : Nat) (w : World FS) (hack : w.ack = ACK)
    (hchild : w.child = ChildPc.unborn ∨ w.child = ChildPc.verifyAck) :
    (Wait env false (Write env rank w)).world.ack = rank ∨
    (Wait env false (Write env rank w)).world.ack = ACK := by
  have h0 : Forked w w := ⟨SameBut_refl w, hack, by
    rcases hchild with hc | hc
    · exact Or.inl hc
    · exact Or.inr (Or.inl hc)⟩
  have h1 : Forked w (tick env w) :=
    tick_inv env (Forked w) (childStep_forked env.os w) (setClock_forked w) w h0
  have h2 : Shake rank w (Write env rank w) := by
    obtain ⟨hf, -, hc⟩ := h1
    refine ⟨hf, Or.inl ⟨rfl, ?_⟩⟩
    rcases hc with hc | hc | hc
    · exact Or.inl hc
    · exact Or.inr (Or.inl hc)
    · exact Or.inr (Or.inr (Or.inr (Or.inl hc)))
  simp only [Wait, AckNE, Bool.false_eq_true, if_false]
  obtain ⟨-, hcase⟩ := AckLoop_inv env (Shake rank w)
    (childStep_shake env.os rank (rank_ne_ACK rank) w) (setClock_shake rank w)
    (fun a b => a != b) ACK env.fuel (Write env rank w) h2
  rcases hcase with ⟨ha, -⟩ | ⟨ha, -⟩
  · exact Or.inl ha
  · exact Or.inr ha

theorem lift_world {α : Type} (m : Proc FS) (o : Out (World FS) α) :
    (Out.lift m o).world.world = o.world := by
  cases o <;> rfl

/-- The status word in the state `Init` reaches, entered without a child. -/
theorem Init_values (env : Env FS) (sys : Sys) (m : Proc FS)
    (hfresh : m.world.child = ChildPc.unborn) (hmap : sys.mmap .s_ack = true) :
    (Init env sys m).world.world.ack =
        ((if env.cfg.MFEM_USE_MPI then env.worldRank else 0 : Nat) : Int) ∨
    (Init env sys m).world.world.ack = ACK := by
  rw [Init_eq env sys m hmap, lift_world]
  obtain ⟨a, c, -, -, -, -, rk, -⟩ := Init_forked env sys m hfresh
  have hc : (MPI_Init env (Fork sys (Store env ACK (Mmap sys m)))).world.child =
        ChildPc.unborn ∨
      (MPI_Init env (Fork sys (Store env ACK (Mmap sys m)))).world.child =
        ChildPc.verifyAck := by
    rw [c]; split
    · exact Or.inr rfl
    · exact Or.inl rfl
  have h := handshake_values env
    (mpi.Rank env (MPI_Init env (Fork sys (Store env ACK (Mmap sys m)))).world)
    (MPI_Init env (Fork sys (Store env ACK (Mmap sys m)))).world a hc
  rw [rk] at h
  rw [rk]
  exact h

/-- C23 fails as stated: in `Init` the parent writes its rank into the status word.  With
fuel for one look, `Init` of rank 0 is found polling with the status word 0, which the child
has read as the rank; for rank 3 the status word is 3.  Neither is one of the three
constants. -/
theorem status_word_holds_rank :
    (Init (demoEnv "c++" true 0 (fun _ => 1) 1) demoSys (demoProc [])).world.world.ack = 0 ∧
    (Init (demoEnv "c++" true 0 (fun _ => 1) 1) demoSys (demoProc [])).world.world.child =
      ChildPc.readRank ∧
    (Init (demoEnv "c++" true 3 (fun _ => 1) 2) demoSys (demoProc [])).world.world.ack = 3 ∧
    (Init (demoEnv "c++" true 3 (fun _ => 1) 2) demoSys (demoProc [])).world.world.child =
      ChildPc.acknowledgeRank 3 ∧
    (0 : Int) ≠ ACK ∧ (0 : Int) ≠ CALL ∧ (0 : Int) ≠ EXIT ∧
    (3 : Int) ≠ ACK ∧ (3 : Int) ≠ CALL ∧ (3 : Int) ≠ EXIT ∧
    (Init (demoEnv "c++" true 0 (fun _ => 1) 5) demoSys (demoProc [])).isRet = true := by
  decide

/-- C23 as amended: the three constants are `-1`, `0x3243F6A8` and `0x9e3779b9 - 2^32`,
pairwise distinct.  During the rank handshake of `Init` the status word holds the rank of
the process or `ACK`; when `Init` returns it holds `ACK`; and from a state in which it holds
one of the three constants, it holds one of them in every state that `Call`, `Lookup` and
`Finalize` reach, whatever the fuel and the outcome. -/
theorem status_word_values (env : Env FS) (sys : Sys) (hash : Nat) (source symbol : String) :
    ACK = -1 ∧ CALL = 0x3243F6A8 ∧ EXIT = 0x9e3779b9 - 2 ^ 32 ∧
    ACK ≠ CALL ∧ ACK ≠ EXIT ∧ CALL ≠ EXIT ∧
    (∀ m, m.world.child = ChildPc.unborn → sys.mmap .s_ack = true →
      (Init env sys m).world.world.ack =
          ((if env.cfg.MFEM_USE_MPI then env.worldRank else 0 : Nat) : Int) ∨
      (Init env sys m).world.world.ack = ACK) ∧
    (∀ m v, m.world.child = ChildPc.unborn → Init env sys m = .ret () v → v.world.ack = ACK) ∧
    (∀ w c, IsProtocolValue w.ack → IsProtocolValue (Call env c w).world.ack) ∧
    (∀ w, IsProtocolValue w.ack →
      IsProtocolValue (Lookup env hash source symbol w).world.ack) ∧
    (∀ m, IsProtocolValue m.world.ack →
      IsProtocolValue (Finalize env sys m).world.world.ack) := by
  refine ⟨by decide, by decide, by decide, by decide, by decide, by decide,
    fun m hf hm => Init_values env sys m hf hm, ?_, fun w c h => Call_protocol env c w h,
    fun w h => Lookup_graded (Protocol_graded env hash source) symbol w h,
    fun m h => Finalize_protocol env sys m h⟩
  intro m v hf h
  exact (Init_ret env sys m v hf h).2.2.2.2.1

/-- Witness of the amended C23: `Init` of rank 0 returns with the status word `ACK`. -/
theorem status_word_values_witness :
    (Init (demoEnv "c++" true 0 (fun _ => 1) 5) demoSys (demoProc [])).world.world.ack = ACK :=
  (status_word_values (demoEnv "c++" true 0 (fun _ => 1) 5) demoSys 0xABC demoSource
    "sym_ABC").2.2.2.2.2.2.2.1 (demoProc []) _ rfl rfl

end Status

/-! # Requests are served one by one -/

section Sequence

variable {FS : Type}

theorem RootCompile_kept {env : Env FS} {hash : Nat} {source : String}
    {R : World FS → World FS → Prop} (k : Kept env hash source R) (symbol : String)
    (w v : World FS) (s : Int) (h : RootCompile env hash source symbol w = .ret s v) :
    R w v := by
  unfold RootCompile at h
  cases hsrc : env.os.ofstream w.fs (env.ToString hash ".cc") source with
  | none => rw [hsrc] at h; exact absurd h (by simp)
  | some fs1 =>
    rw [hsrc] at h
    simp only [] at h
    have r0 := k.src w fs1
    cases c1 : CallCommand env (Command.pushAll (compileTokens env hash)
        { w with fs := fs1, trace := w.trace ++
          [Event.ofstream (env.ToString hash ".cc") source] }) with
    | fatal m u => rw [c1] at h; exact absurd h (by simp)
    | spin u => rw [c1] at h; exact absurd h (by simp)
    | ret s1 v1 =>
      rw [c1] at h
      simp only [Out.bind_ret] at h
      have r1 := k.trans _ _ _ r0 (k.call _ _ _ _ c1)
      by_cases hs1 : (s1 != 0) = true
      · rw [if_pos hs1] at h
        simp only [Out.ret.injEq] at h
        rw [← h.2]; exact r1
      rw [if_neg hs1] at h
      cases c2 : CallCommand env (Command.pushAll (archiveTokens env hash)
          (stdRemove env (env.ToString hash ".cc") v1)) with
      | fatal m u => rw [c2] at h; exact absurd h (by simp)
      | spin u => rw [c2] at h; exact absurd h (by simp)
      | ret s2 v2 =>
        rw [c2] at h
        simp only [Out.bind_ret] at h
        have r2 := k.trans _ _ _ r1 (k.trans _ _ _ (k.rm _ v1) (k.call _ _ _ _ c2))
        by_cases hs2 : (s2 != 0) = true
        · rw [if_pos hs2] at h
          simp only [Out.ret.injEq] at h
          rw [← h.2]; exact r2
        rw [if_neg hs2] at h
        cases c3 : CallCommand env (Command.pushAll (linkTokens env.cfg symbol)
            (stdRemove env (env.ToString hash ".co") v2)) with
        | fatal m u => rw [c3] at h; exact absurd h (by simp)
        | spin u => rw [c3] at h; exact absurd h (by simp)
        | ret s3 v3 =>
          rw [c3] at h
          simp only [Out.bind_ret] at h
          have r3 := k.trans _ _ _ r2 (k.trans _ _ _ (k.rm _ v2) (k.call _ _ _ _ c3))
          by_cases hs3 : (s3 != 0) = true
          · rw [if_pos hs3] at h
            simp only [Out.ret.injEq] at h
            rw [← h.2]; exact r3
          rw [if_neg hs3] at h
          cases c4 : CallCommand env (Command.pushAll (installTokens env.cfg symbol) v3) with
          | fatal m u => rw [c4] at h; exact absurd h (by simp)
          | spin u => rw [c4] at h; exact absurd h (by simp)
          | ret s4 v4 =>
            rw [c4] at h
            simp only [Out.bind_ret] at h
            have r4 := k.trans _ _ _ r3 (k.call _ _ _ _ c4)
            by_cases hs4 : (s4 != 0) = true
            · rw [if_pos hs4] at h
              simp only [Out.ret.injEq] at h
              rw [← h.2]; exact r4
            rw [if_neg hs4] at h
            simp only [Out.ret.injEq] at h
            rw [← h.2]; exact r4

theorem WorldCompile_kept {env : Env FS} {hash : Nat} {source : String}
    {R : World FS → World FS → Prop} (k : Kept env hash source R) (symbol : String)
    (w v : World FS) (h : Nat) (hret : WorldCompile env hash source symbol w = .ret h v) :
    R w v := by
  unfold WorldCompile at hret
  cases hrc : (if mpi.Root env w = true then RootCompile env hash source symbol w
      else Out.ret EXIT_SUCCESS w) with
  | fatal m u => rw [hrc] at hret; exact absurd hret (by simp)
  | spin u => rw [hrc] at hret; exact absurd hret (by simp)
  | ret s v1 =>
    have r1 : R w v1 := by
      by_cases hroot : mpi.Root env w = true
      · rw [if_pos hroot] at hrc
        exact RootCompile_kept k symbol w v1 s hrc
      · rw [if_neg hroot] at hrc
        simp only [Out.ret.injEq] at hrc
        rw [← hrc.2]; exact k.refl w
    rw [hrc] at hret
    simp only [Out.bind_ret] at hret
    cases hs1 : mpi.Sync env s v1 with
    | fatal m u => rw [hs1] at hret; exact absurd hret (by simp)
    | spin u => rw [hs1] at hret; exact absurd hret (by simp)
    | ret u1 w2 =>
      rw [hs1] at hret
      simp only [Out.bind_ret] at hret
      cases hs2 : mpi.Sync env EXIT_SUCCESS (DLopen env ("./" ++ symbol) w2).2 with
      | fatal m u => rw [hs2] at hret; exact absurd hret (by simp)
      | spin u => rw [hs2] at hret; exact absurd hret (by simp)
      | ret u2 w3 =>
        rw [hs2] at hret
        simp only [Out.bind_ret] at hret
        split at hret
        · exact absurd hret (by simp)
        simp only [Out.ret.injEq] at hret
        rw [← hret.2]
        exact k.trans _ _ _ r1 (k.trans _ _ _ (k.sync _ _ _ hs1)
          (k.trans _ _ _ (k.load _ w2) (k.sync _ _ _ hs2)))

theorem LookupCache_kept {env : Env FS} {hash : Nat} {source : String}
    {R : World FS → World FS → Prop} (k : Kept env hash source R)
    (w w1 : World FS) (handle0 : Option Nat) (h : LookupCache env w = .ret handle0 w1) :
    R w w1 := by
  unfold LookupCache at h
  have h0 : R w (if env.os.fstream w.fs so = true then DLopen env so w else (none, w)).2 := by
    split
    · exact k.load so w
    · exact k.refl w
  simp only [] at h
  generalize (if env.os.fstream w.fs so = true then DLopen env so w else (none, w)) = r at h0 h
  split at h
  · cases hc : (if mpi.Root env r.2 = true then
        CallCommand env (Command.pushAll (archiveLinkTokens env.cfg) r.2)
        else Out.ret EXIT_SUCCESS r.2) with
    | fatal m u => rw [hc] at h; exact absurd h (by simp)
    | spin u => rw [hc] at h; exact absurd h (by simp)
    | ret s v1 =>
      have r1 : R r.2 v1 := by
        by_cases hroot : mpi.Root env r.2 = true
        · rw [if_pos hroot] at hc
          exact k.call _ _ _ _ hc
        · rw [if_neg hroot] at hc
          simp only [Out.ret.injEq] at hc
          rw [← hc.2]; exact k.refl _
      rw [hc] at h
      simp only [Out.bind_ret] at h
      cases hs : mpi.Sync env s v1 with
      | fatal m u => rw [hs] at h; exact absurd h (by simp)
      | spin u => rw [hs] at h; exact absurd h (by simp)
      | ret u1 w2 =>
        rw [hs] at h
        simp only [Out.bind_ret] at h
        split at h
        · exact absurd h (by simp)
        simp only [Out.ret.injEq] at h
        rw [← h.2]
        exact k.trans _ _ _ h0 (k.trans _ _ _ r1 (k.trans _ _ _ (k.sync _ _ _ hs)
          (k.load so w2)))
  · simp only [Out.ret.injEq] at h
    rw [← h.2]; exact h0

theorem Resolves_kept {env : Env FS} {hash : Nat} {source : String}
    {R : World FS → World FS → Prop} (k : Kept env hash source R) (symbol : String)
    (kernel : Nat) (v : World FS) (h1 : Nat) (w2 : World FS)
    (h : Resolves env hash source symbol kernel v h1 w2) : R w2 v := by
  rcases h with ⟨-, rfl⟩ | ⟨-, h2, v2, hwc, -, rfl⟩
  · exact k.rm symbol w2
  · exact k.trans _ _ _ (WorldCompile_kept k symbol w2 v2 h2 hwc) (k.rm symbol v2)

theorem Lookup_kept {env : Env FS} {hash : Nat} {source : String}
    {R : World FS → World FS → Prop} (k : Kept env hash source R) (symbol : String)
    (w v : World FS) (kernel : Nat) (h : Lookup env hash source symbol w = .ret kernel v) :
    R w v := by
  obtain ⟨handle0, w1, hc, hcase⟩ := Lookup_ret_cases env hash source symbol w v kernel h
  have r0 := LookupCache_kept k w w1 handle0 hc
  rcases hcase with ⟨-, h1, v1, hwc, hres⟩ | ⟨h1, -, hres⟩
  · exact k.trans _ _ _ r0 (k.trans _ _ _ (WorldCompile_kept k symbol w1 v1 h1 hwc)
      (Resolves_kept k symbol kernel v h1 v1 hres))
  · exact k.trans _ _ _ r0 (Resolves_kept k symbol kernel v h1 w1 hres)

theorem Sequential_append (a b : List Event) (h : Sequential a = true) :
    Sequential (a ++ b) = Sequential b := by
  induction a using Sequential.induct with
  | case1 => rfl
  | case2 c b1 c1 st es ih =>
    simp only [Sequential, Bool.and_eq_true] at h
    simp only [List.cons_append, Sequential, h.1, Bool.true_and]
    exact ih h.2
  | case3 c es hne =>
    exfalso
    cases es with
    | nil => simp [Sequential] at h
    | cons e es =>
      cases e <;> simp [Sequential] at h
      exact hne _ _ _ _ rfl
  | case4 b1 c st es => simp [Sequential] at h
  | case5 e es _ h1 h2 ih =>
    cases e with
    | warning c => exact absurd rfl (h1 c)
    | system b1 c st => exact absurd rfl (h2 b1 c st)
    | ofstream p t => simp only [List.cons_append, Sequential] at h ⊢; exact ih h
    | remove p => simp only [List.cons_append, Sequential] at h ⊢; exact ih h
    | dlopen p => simp only [List.cons_append, Sequential] at h ⊢; exact ih h
    | allreduce st => simp only [List.cons_append, Sequential] at h ⊢; exact ih h

/-- A `Call` entered at rest that returns has run its command once and is at rest again. -/
theorem Call_at_rest (env : Env FS) (c : String) (w v : World FS) (s : Int)
    (h1 : w.child = ChildPc.wait) (h2 : w.ack = ACK) (h : Call env c w = .ret s v) :
    v.child = ChildPc.wait ∧ v.ack = ACK ∧
    v.trace = w.trace ++ [Event.warning c,
      Event.system (mpi.IsInitialized env w) c (env.os.system w.fs c).1] := by
  by_cases hroot : mpi.Root env w = true
  swap
  · rw [Call_not_root env c w (by simpa using hroot)] at h
    exact absurd h (by simp)
  rcases Call_spec env c w hroot (fun _ => ⟨h1, h2⟩) with ⟨u, hu, hd⟩ | ⟨hn, -⟩
  · rw [hu] at h
    simp only [Out.ret.injEq] at h
    obtain ⟨-, rfl⟩ := h
    obtain ⟨-, ht, -, -, -, -, hc, ha, -⟩ := hd
    exact ⟨hc.trans h1, ha.trans h2, ht⟩
  · rw [h] at hn
    exact absurd hn (by simp [Out.isRet])

theorem Sync_ret_frame (env : Env FS) (status : Int) (w v : World FS)
    (h : mpi.Sync env status w = .ret () v) :
    v.child = w.child ∧ v.ack = w.ack ∧
    (v.trace = w.trace ∨ v.trace = w.trace ++ [Event.allreduce status]) := by
  by_cases hi : mpi.IsInitialized env w = true
  · rw [Sync_mpi env status w hi] at h
    split at h
    · simp only [Out.ret.injEq, true_and] at h
      subst h
      exact ⟨rfl, rfl, Or.inr rfl⟩
    · exact absurd h (by simp)
  · rw [Sync_serial env status w (by simpa using hi)] at h
    split at h
    · simp only [Out.ret.injEq, true_and] at h
      subst h
      exact ⟨rfl, rfl, Or.inl rfl⟩
    · exact absurd h (by simp)

/-- From rest to rest, with every request served before the next event. -/
theorem InTurn_kept (env : Env FS) (hash : Nat) (source : String) :
    Kept env hash source (fun w v => w.child = ChildPc.wait ∧ w.ack = ACK →
      v.child = ChildPc.wait ∧ v.ack = ACK ∧
      ∃ new, v.trace = w.trace ++ new ∧ Sequential new = true) where
  refl := fun w h => ⟨h.1, h.2, [], by simp, rfl⟩
  trans := by
    intro u v w h1 h2 hu
    obtain ⟨a1, b1, n1, t1, s1⟩ := h1 hu
    obtain ⟨a2, b2, n2, t2, s2⟩ := h2 ⟨a1, b1⟩
    exact ⟨a2, b2, n1 ++ n2, by rw [t2, t1, List.append_assoc],
      by rw [Sequential_append n1 n2 s1]; exact s2⟩
  call := by
    intro toks v s u h hv
    have e1 : ({ Command.pushAll toks v with command := "" } : World FS).child = v.child := by
      rw [pushAll_eq]
    have e2 : ({ Command.pushAll toks v with command := "" } : World FS).ack = v.ack := by
      rw [pushAll_eq]
    have e3 : ({ Command.pushAll toks v with command := "" } : World FS).trace = v.trace := by
      rw [pushAll_eq]
    obtain ⟨a, b, t⟩ := Call_at_rest env (Command.pushAll toks v).command
      { Command.pushAll toks v with command := "" } u s (e1.trans hv.1) (e2.trans hv.2) h
    exact ⟨a, b, _, by rw [t, e3], by simp [Sequential]⟩
  rm := fun p v h => ⟨h.1, h.2, [Event.remove p], rfl, rfl⟩
  sync := by
    intro s v u h hv
    obtain ⟨a, b, t⟩ := Sync_ret_frame env s v u h
    refine ⟨a.trans hv.1, b.trans hv.2, ?_⟩
    rcases t with t | t
    · exact ⟨[], by simp [t], rfl⟩
    · exact ⟨[Event.allreduce s], t, rfl⟩
  load := fun p v h => ⟨h.1, h.2, [Event.dlopen p], rfl, rfl⟩
  src := fun w fs1 h => ⟨h.1, h.2, [_], rfl, rfl⟩

/-- C21: after `Init` has returned on rank 0 the child stands at the head of its loop and
the status word is `ACK`.  From such a state of rest, `Call` writes `CALL` over `ACK`; a
`Call` that returns has had its command run once and leaves the state at rest; and a
`Lookup` that returns leaves the state at rest with every command it handed over run, once,
before the next one was handed over. -/
theorem requests_sequential (env : Env FS) (sys : Sys) (hash : Nat) (source symbol : String) :
    (∀ (m v : Proc FS), m.world.child = ChildPc.unborn → Init env sys m = .ret () v →
      mpi.Rank env v.world = 0 → v.world.child = ChildPc.wait ∧ v.world.ack = ACK) ∧
    (∀ (w : World FS) (c : String), w.child = ChildPc.wait → w.ack = ACK →
      (Memcpy env c { w with trace := w.trace ++ [Event.warning c] }).ack = ACK ∧
      (Memcpy env c { w with trace := w.trace ++ [Event.warning c] }).child = ChildPc.wait) ∧
    (∀ (w : World FS) (c : String) (s : Int) (v : World FS),
      w.child = ChildPc.wait → w.ack = ACK → Call env c w = .ret s v →
      v.child = ChildPc.wait ∧ v.ack = ACK ∧
      v.trace = w.trace ++ [Event.warning c,
        Event.system (mpi.IsInitialized env w) c (env.os.system w.fs c).1]) ∧
    (∀ (w : World FS) (k : Nat) (v : World FS), w.child = ChildPc.wait → w.ack = ACK →
      Lookup env hash source symbol w = .ret k v →
      v.child = ChildPc.wait ∧ v.ack = ACK ∧
      ∃ new, v.trace = w.trace ++ new ∧ Sequential new = true) := by
  refine ⟨?_, ?_, fun w c s v h1 h2 h => Call_at_rest env c w v s h1 h2 h,
    fun w k v h1 h2 h => Lookup_kept (InTurn_kept env hash source) symbol w v k h ⟨h1, h2⟩⟩
  · intro m v hf h hr
    obtain ⟨-, -, -, -, ha, hc, -, -, -, -, hrk⟩ := Init_ret env sys m v hf h
    rw [hrk] at hr
    rw [if_pos (by exact_mod_cast hr)] at hc
    exact ⟨hc, ha⟩
  · intro w c h1 h2
    simp only [Memcpy]
    rw [tick_idle env { w with trace := w.trace ++ [Event.warning c] } h1 h2]
    exact ⟨h2, h1⟩

/-- Witness of C21: `Init` on rank 0 of an MPI run, then a lookup on an empty directory:
four commands, each run by the child before the next is handed over. -/
theorem requests_sequential_witness :
    ((Init (demoEnv "c++" true 0 (fun _ => 1) 5) demoSys (demoProc [])).world.world.child =
        ChildPc.wait ∧
      (Init (demoEnv "c++" true 0 (fun _ => 1) 5) demoSys (demoProc [])).world.world.ack =
        ACK) ∧
    ((Lookup (demoEnv "c++" true 0 (fun _ => 1) 5) 0xABC demoSource "sym_ABC"
        (demoWorld [] true)).world.child = ChildPc.wait ∧
      (Lookup (demoEnv "c++" true 0 (fun _ => 1) 5) 0xABC demoSource "sym_ABC"
        (demoWorld [] true)).world.ack = ACK ∧
      ∃ new, (Lookup (demoEnv "c++" true 0 (fun _ => 1) 5) 0xABC demoSource "sym_ABC"
        (demoWorld [] true)).world.trace = (demoWorld [] true).trace ++ new ∧
        Sequential new = true) ∧
    (issued (Lookup (demoEnv "c++" true 0 (fun _ => 1) 5) 0xABC demoSource "sym_ABC"
        (demoWorld [] true)).world.trace).length = 4 :=
  ⟨(requests_sequential (demoEnv "c++" true 0 (fun _ => 1) 5) demoSys 0xABC demoSource
      "sym_ABC").1 (demoProc []) _ rfl rfl rfl,
   (requests_sequential (demoEnv "c++" true 0 (fun _ => 1) 5) demoSys 0xABC demoSource
      "sym_ABC").2.2.2 (demoWorld [] true) 42 _ rfl rfl rfl,
   by decide⟩

end Sequence

end jit
end mfem
